import Mathlib

/-! # Intel Speed Select (SST) query layer of `pkg/sysfs/sst.go`

A shallow embedding of the hardware query-and-decode code:

* the bit codec (`getBits`, `isBitSet`) over 32-bit words, held as naturals with explicit
  reduction modulo `2^32` wherever the Go code computes in `uint32`;
* the control device, as a function from the exchanges issued so far and the current request to
  an answer (`none` is a failed ioctl);
* the process-wide state: the `cpuMap` cache and the record of every exchange issued;
* `punitCPU`, `getCPUMapping`, `sendMboxCmd`, `sendMMIOCmd`, `getSstPackageInfo`, `getCPUClosID`.

Log output (`log.Debug`, `log.Info`, `log.Warn`) is not modelled.
-/

namespace Sst

/-! ## Identifiers and id sets -/

/-- Modelled from the spec: the type `ID` is declared outside the files at hand; the spec calls a
logical CPU id and a PUNIT core id an "opaque integer", and the code returns `-1` as an `ID`, so it
is a signed integer. -/
abbrev ID := Int

/-- Modelled from the spec: the type `IDSet` is declared outside the files at hand; the spec calls
it a "set of LogicalCpuId". It is held as a list read through membership only. -/
abbrev IDSet := List ID

/-- Modelled from the spec: `IDSet.Add(ids...)` puts every given id into the set. -/
def IDSet.Add (s : IDSet) (ids : List ID) : IDSet :=
  ids.foldl (fun acc x => if x ∈ acc then acc else acc ++ [x]) s

/-- Modelled from the spec: `IDSet.Members()` lists the ids of the set (a nil set has none). -/
def IDSet.Members (s : IDSet) : List ID := s

/-- Modelled from the spec: `IDSet.SortedMembers()` lists the ids of the set in increasing order,
each once. -/
def IDSet.SortedMembers (s : IDSet) : List ID :=
  (List.dedup s).insertionSort (· ≤ ·)

/-- Modelled from the spec: a `cpuPackage` is declared outside the files at hand; the code reads
only its `cpus` field, the set of logical CPUs of the package. -/
structure cpuPackage where
  cpus : IDSet

/-! ## Machine words -/

/-- Conversion of a natural to `uint32`. -/
def u32 (x : Nat) : Nat := x % 2 ^ 32

/-- Conversion `uint32(v)` of a Go `int`: two's complement truncation. -/
def u32OfInt (v : Int) : Nat := (v % 2 ^ 32).toNat

/-- `getBits(val, i, j uint32) uint32`. The mask `(1 << (msb - lsb + 1)) - 1` is computed in
`uint32`: the shift gives 0 from 32 bits on, and the subtraction wraps. -/
def getBits (val i j : Nat) : Nat :=
  let lsb := if i > j then j else i
  let msb := if i > j then i else j
  (val >>> lsb) &&& u32 (u32 (1 <<< u32 (msb - lsb + 1)) + 2 ^ 32 - 1)

/-- `isBitSet(val, n uint32) bool`. -/
def isBitSet (val n : Nat) : Bool :=
  val &&& u32 (1 <<< n) != 0

/-! ## Data model -/

def NumClos : Nat := 4

structure SstClosInfo where
  EPP : Nat := 0
  ProportionalPriority : Nat := 0
  MinFreq : Nat := 0
  MaxFreq : Nat := 0
  DesiredFreq : Nat := 0
deriving DecidableEq, Repr

/-- `type CPPriorityType int`. -/
abbrev CPPriorityType := Nat

def Proportional : CPPriorityType := 0
def Ordered : CPPriorityType := 1

/-- `SstPackageInfo`; the defaults are Go's zero values. The integer fields only ever hold
conversions of `uint32` values, so they are naturals. -/
structure SstPackageInfo where
  PPSupported : Bool := false
  PPLocked : Bool := false
  PPVersion : Nat := 0
  PPCurrentLevel : Nat := 0
  PPMaxLevel : Nat := 0
  CPSupported : Bool := false
  CPEnabled : Bool := false
  CPPriority : CPPriorityType := 0
  BFSupported : Bool := false
  BFEnabled : Bool := false
  BFCores : IDSet := []
  TFSupported : Bool := false
  TFEnabled : Bool := false
  ClosInfo : List SstClosInfo := List.replicate NumClos {}
deriving DecidableEq, Repr

/-! ## Command codes -/

def CONFIG_TDP : Nat := 0x7f
def CONFIG_TDP_GET_LEVELS_INFO : Nat := 0x00
def CONFIG_TDP_GET_TDP_CONTROL : Nat := 0x01
def CONFIG_TDP_PBF_GET_CORE_MASK_INFO : Nat := 0x20
def CONFIG_CLOS : Nat := 0xd0
def CLOS_PM_QOS_CONFIG : Nat := 0x02
def READ_PM_CONFIG : Nat := 0x94
def PM_FEATURE : Nat := 0x03
def PM_CLOS_OFFSET : Nat := 0x08
def PQR_ASSOC_OFFSET : Nat := 0x20

/-! ## The control device and the process state -/

/-- One request to the control device: the three ioctls `ISST_IF_GET_PHY_ID`,
`ISST_IF_MBOX_COMMAND` and `ISST_IF_IO_CMD`, with the fields the code fills in. -/
inductive Request where
  | phyId (logicalCPU : Nat)
  | mbox (logicalCPU command subCommand reqData : Nat)
  | mmioRead (logicalCPU reg : Nat)
deriving DecidableEq, Repr

/-- One exchange: the request and what came back (`none`: the ioctl failed). -/
structure Exchange where
  req : Request
  rsp : Option Nat
deriving DecidableEq, Repr

/-- The control device: its answer may depend on every exchange issued before. -/
abbrev Device := List Exchange → Request → Option Nat

/-- Process state: the package-level `cpuMap` and the exchanges issued so far, oldest first. -/
structure State where
  cpuMap : ID → Option ID
  log : List Exchange

/-- Errors, one constructor per message of the code; the argument `e` is the wrapped error. -/
inductive SstError where
  | ioctlFailed
  | mboxFailed (e : SstError)
  | mmioFailed (e : SstError)
  | cpuMapping (cpu : ID) (e : SstError)
  | ppInfo (e : SstError)
  | cpStatus (e : SstError)
  | bfCoreMask (i : Nat) (e : SstError)
  | cpInfo (e : SstError)
  | closInfo (i : Nat) (e : SstError)
  | closNumber (cpu : ID) (e : SstError)
deriving DecidableEq, Repr

/-- Appends one exchange to the record of the state. -/
def State.record (st : State) (x : Exchange) : State :=
  { st with log := st.log ++ [x] }

/-- `isstIoctl`: one open/ioctl/close exchange. The answer is read from a 32-bit field. -/
def isstIoctl (dev : Device) (req : Request) (st : State) : Option Nat × State :=
  let rsp := (dev st.log req).map u32
  (rsp, st.record ⟨req, rsp⟩)

/-- `getCPUMapping(cpu ID) (ID, error)`. -/
def getCPUMapping (dev : Device) (cpu : ID) (st : State) : (ID × Option SstError) × State :=
  match isstIoctl dev (.phyId (u32OfInt cpu)) st with
  | (none, st1) => ((-1, some (.cpuMapping cpu .ioctlFailed)), st1)
  | (some physicalCPU, st1) => (((physicalCPU : Int), none), st1)

/-- `punitCPU(cpu ID) (ID, error)`. -/
def punitCPU (dev : Device) (cpu : ID) (st : State) : (ID × Option SstError) × State :=
  match st.cpuMap cpu with
  | some id => ((id, none), st)
  | none =>
    match getCPUMapping dev cpu st with
    | ((id, none), st1) =>
      ((id, none), { st1 with cpuMap := Function.update st1.cpuMap cpu (some id) })
    | ((id, some err), st1) => ((id, some err), st1)

/-- `sendMboxCmd(cpu ID, cmd uint16, subCmd uint16, reqData uint32) (uint32, error)`. -/
def sendMboxCmd (dev : Device) (cpu : ID) (cmd subCmd reqData : Nat) (st : State) :
    (Nat × Option SstError) × State :=
  match isstIoctl dev (.mbox (u32OfInt cpu) cmd subCmd reqData) st with
  | (none, st1) => ((0, some (.mboxFailed .ioctlFailed)), st1)
  | (some respData, st1) => ((respData, none), st1)

/-- `sendMMIOCmd(cpu ID, reg uint32) (uint32, error)`. -/
def sendMMIOCmd (dev : Device) (cpu : ID) (reg : Nat) (st : State) :
    (Nat × Option SstError) × State :=
  match isstIoctl dev (.mmioRead (u32OfInt cpu) reg) st with
  | (none, st1) => ((0, some (.mmioFailed .ioctlFailed)), st1)
  | (some value, st1) => ((value, none), st1)

/-! ## `getSstPackageInfo` -/

/-- The loop over `ids` of `getSstPackageInfo` (lines 122-135): resolves every CPU, groups the
CPUs by PUNIT core `pc >> 1` in `punitCoreIDs` and tracks `maxPunitCore`. -/
def punitCoreLoop (dev : Device) :
    List ID → (ID → Option IDSet) → ID → State → ((ID → Option IDSet) × ID × Option SstError) × State
  | [], punitCoreIDs, maxPunitCore, st => ((punitCoreIDs, maxPunitCore, none), st)
  | id :: rest, punitCoreIDs, maxPunitCore, st =>
    match punitCPU dev id st with
    | ((_, some err), st1) => ((punitCoreIDs, maxPunitCore, some err), st1)
    | ((pc, none), st1) =>
      let punitCore := pc >>> (1 : Nat)
      let punitCoreIDs :=
        if (punitCoreIDs punitCore).isNone then Function.update punitCoreIDs punitCore (some [])
        else punitCoreIDs
      let punitCoreIDs :=
        Function.update punitCoreIDs punitCore
          ((punitCoreIDs punitCore).map (fun s => IDSet.Add s [id]))
      let maxPunitCore := if punitCore > maxPunitCore then punitCore else maxPunitCore
      punitCoreLoop dev rest punitCoreIDs maxPunitCore st1

/-- The members of `punitCoreIDs[k]`; a missing key gives the nil set. -/
def groupMembers (punitCoreIDs : ID → Option IDSet) (k : ID) : List ID :=
  IDSet.Members ((punitCoreIDs k).getD [])

/-- The loop over `bit` (lines 142-146) for batch `i` and its response `rsp`. -/
def addMaskBits (punitCoreIDs : ID → Option IDSet) (i rsp : Nat) (cores : IDSet) : IDSet :=
  (List.range 32).foldl
    (fun acc bit =>
      if isBitSet rsp (u32 bit) then
        IDSet.Add acc (groupMembers punitCoreIDs ((i * 32 + bit : Nat) : Int))
      else acc)
    cores

/-- The loop over the core-mask batches (lines 138-147), `n` iterations left, at batch `i`. -/
def coreMaskLoop (dev : Device) (cpu : ID) (punitCoreIDs : ID → Option IDSet) :
    Nat → Nat → SstPackageInfo → State → (SstPackageInfo × Option SstError) × State
  | 0, _, info, st => ((info, none), st)
  | n + 1, i, info, st =>
    match sendMboxCmd dev cpu CONFIG_TDP CONFIG_TDP_PBF_GET_CORE_MASK_INFO
        (u32 (info.PPCurrentLevel + (i <<< 8))) st with
    | ((_, some err), st1) => ((info, some (.bfCoreMask i err)), st1)
    | ((rsp, none), st1) =>
      coreMaskLoop dev cpu punitCoreIDs n (i + 1)
        { info with BFCores := addMaskBits punitCoreIDs i rsp info.BFCores } st1

/-- Decoding of one CLOS word (lines 174-180). -/
def decodeClos (rsp : Nat) : SstClosInfo :=
  { EPP := getBits rsp 0 3
    ProportionalPriority := getBits rsp 4 7
    MinFreq := getBits rsp 8 15
    MaxFreq := getBits rsp 16 23
    DesiredFreq := getBits rsp 24 31 }

/-- The loop over the CLOS slots (lines 170-181), `n` iterations left, at slot `i`. -/
def closLoop (dev : Device) (cpu : ID) :
    Nat → Nat → SstPackageInfo → State → (SstPackageInfo × Option SstError) × State
  | 0, _, info, st => ((info, none), st)
  | n + 1, i, info, st =>
    match sendMMIOCmd dev cpu (u32 (u32 (i <<< 2) + PM_CLOS_OFFSET)) st with
    | ((_, some err), st1) => ((info, some (.closInfo i err)), st1)
    | ((rsp, none), st1) =>
      closLoop dev cpu n (i + 1)
        { info with ClosInfo := info.ClosInfo.set i (decodeClos rsp) } st1

/-- Lines 102-114: the status of the currently active perf-profile. -/
def readTDPControl (dev : Device) (cpu : ID) (info : SstPackageInfo) (st : State) :
    (SstPackageInfo × Option SstError) × State :=
  if info.PPSupported then
    match sendMboxCmd dev cpu CONFIG_TDP CONFIG_TDP_GET_TDP_CONTROL (u32 info.PPCurrentLevel) st with
    | ((_, some err), st1) => ((info, some (.cpStatus err)), st1)
    | ((rsp, none), st1) =>
      (({ info with
            BFSupported := isBitSet rsp 1
            BFEnabled := isBitSet rsp 17
            TFSupported := isBitSet rsp 0
            TFEnabled := isBitSet rsp 16 }, none), st1)
  else ((info, none), st)

/-- Lines 116-148: the base-frequency info. -/
def readBFInfo (dev : Device) (ids : List ID) (cpu : ID) (info : SstPackageInfo) (st : State) :
    (SstPackageInfo × Option SstError) × State :=
  if info.BFSupported then
    let info := { info with BFCores := [] }
    match punitCoreLoop dev ids (fun _ => none) 0 st with
    | ((_, _, some err), st1) => ((info, some err), st1)
    | ((punitCoreIDs, maxPunitCore, none), st1) =>
      coreMaskLoop dev cpu punitCoreIDs (Int.toNat (Int.tdiv maxPunitCore 32 + 1)) 0 info st1
  else ((info, none), st)

/-- Lines 150-182: the core-power feature info. -/
def readCPInfo (dev : Device) (cpu : ID) (info : SstPackageInfo) (st : State) :
    (SstPackageInfo × Option SstError) × State :=
  match sendMboxCmd dev cpu READ_PM_CONFIG PM_FEATURE 0 st with
  | ((_, some err), st1) => ((info, some (.cpInfo err)), st1)
  | ((rsp, none), st1) =>
    let info := { info with CPSupported := isBitSet rsp 0, CPEnabled := isBitSet rsp 16 }
    if info.CPSupported then
      match sendMboxCmd dev cpu CONFIG_CLOS CLOS_PM_QOS_CONFIG 0 st1 with
      | ((_, some err), st2) => ((info, some (.cpStatus err)), st2)
      | ((rsp, none), st2) =>
        let closEnabled := isBitSet rsp 1
        let info := { info with CPEnabled := closEnabled, CPPriority := getBits rsp 2 2 }
        closLoop dev cpu NumClos 0 info st2
    else ((info, none), st1)

/-- Lines 90-94: decoding of the PP levels word. -/
def decodeLevelsInfo (info : SstPackageInfo) (rsp : Nat) : SstPackageInfo :=
  { info with
    PPSupported := getBits rsp 31 31 != 0
    PPLocked := getBits rsp 24 24 != 0
    PPCurrentLevel := getBits rsp 16 23
    PPMaxLevel := getBits rsp 8 15
    PPVersion := getBits rsp 0 7 }

/-- `getSstPackageInfo(pkg *cpuPackage) (SstPackageInfo, error)`. The result is `none` when the
code panics on `ids[0]` (a package without CPUs). -/
def getSstPackageInfo (dev : Device) (pkg : cpuPackage) (st : State) :
    Option ((SstPackageInfo × Option SstError) × State) :=
  let info : SstPackageInfo := {}
  match IDSet.SortedMembers pkg.cpus with
  | [] => none
  | cpu :: rest =>
    let ids := cpu :: rest
    match sendMboxCmd dev cpu CONFIG_TDP CONFIG_TDP_GET_LEVELS_INFO 0 st with
    | ((_, some err), st1) => some ((info, some (.ppInfo err)), st1)
    | ((rsp, none), st1) =>
      let info := decodeLevelsInfo info rsp
      if info.PPVersion < 3 then some ((info, none), st1)
      else
        match readTDPControl dev cpu info st1 with
        | ((info, some err), st2) => some ((info, some err), st2)
        | ((info, none), st2) =>
          match readBFInfo dev ids cpu info st2 with
          | ((info, some err), st3) => some ((info, some err), st3)
          | ((info, none), st3) => some (readCPInfo dev cpu info st3)

/-- `getCPUClosID(cpu ID) (int, error)`. -/
def getCPUClosID (dev : Device) (cpu : ID) (st : State) : (Int × Option SstError) × State :=
  match punitCPU dev cpu st with
  | ((_, some err), st1) => ((-1, some err), st1)
  | ((p, none), st1) =>
    let punitCore := u32OfInt p >>> 1
    match sendMMIOCmd dev cpu (u32 (u32 (punitCore <<< 2) + PQR_ASSOC_OFFSET)) st1 with
    | ((_, some err), st2) => ((0, some (.closNumber cpu err)), st2)
    | ((rsp, none), st2) => ((((getBits rsp 16 17 : Nat) : Int), none), st2)

/-! ## Observations on the record of exchanges -/

/-- The exchanges issued between an earlier state `st` and a later state `st1`. -/
def issued (st st1 : State) : List Exchange :=
  st1.log.drop st.log.length

/-- Is the request a mailbox command with the given command and sub-command? -/
def Request.isMbox (cmd subCmd : Nat) : Request → Bool
  | .mbox _ c s _ => c == cmd && s == subCmd
  | _ => false

/-- Is the request a physical-id request? -/
def Request.isPhyId : Request → Bool
  | .phyId _ => true
  | _ => false

/-- Is the request an MMIO read? -/
def Request.isMMIO : Request → Bool
  | .mmioRead _ _ => true
  | _ => false

/-- The exchanges of a record whose request satisfies `p`, in the order issued. -/
def exchangesOf (p : Request → Bool) (l : List Exchange) : List Exchange :=
  l.filter (fun x => p x.req)

/-- Every cached id is one `getCPUMapping` can return: the conversion of a `uint32`. -/
def cacheValid (st : State) : Prop :=
  ∀ c v, st.cpuMap c = some v → 0 ≤ v ∧ v < 2 ^ 32

/-! ## Shape of a run

`Trace P st st1 e`: going from `st` to `st1` appended exchanges whose requests all satisfy `P`;
without an error all of them succeeded, with an error the last one failed and is the only one that
did. Entries of the cache are kept. -/

/-- The shape of a run from `st` to `st1` that returned the error `e` (`none`: no error). -/
def Trace (P : Request → Prop) (st st1 : State) (e : Option SstError) : Prop :=
  (∀ c v, st.cpuMap c = some v → st1.cpuMap c = some v) ∧
  ∃ new, st1.log = st.log ++ new ∧ (∀ x ∈ new, P x.req) ∧
    ((e = none ∧ ∀ x ∈ new, x.rsp ≠ none) ∨
     (e ≠ none ∧ ∃ pre x, new = pre ++ [x] ∧ (∀ y ∈ pre, y.rsp ≠ none) ∧ x.rsp = none))

/-! ## Definitions used by the statements -/

/-- No retry, abort on first failure, as a property of the exchanges `new` issued by a call and of
the error `e` it returned: an exchange that failed is the last one issued and comes with an error,
and an error comes with an exchange that failed. -/
def AbortsOnFirstFailure (new : List Exchange) (e : Option SstError) : Prop :=
  (∀ pre x post, new = pre ++ x :: post → x.rsp = none → post = [] ∧ e ≠ none) ∧
  (e ≠ none → ∃ x ∈ new, x.rsp = none)

/-- A state with an empty cache and no exchange issued yet. -/
def emptyState : State := ⟨fun _ => none, []⟩

/-- A device that answers every request with the same word. -/
def constDevice (w : Nat) : Device := fun _ _ => some w

/-- A device that answers the first `n` exchanges with the word `w` and fails from then on. -/
def failAfter (n w : Nat) : Device := fun l _ => if l.length < n then some w else none

/-- A device for the examples: version 3 with PP supported at level 5; BF and TF supported and
enabled; core masks 5 (batch 0) and 1 (batch 1); CP supported, enabled by PM_FEATURE but not by
the QoS configuration, priority Ordered; CPU 7 on PUNIT id 64, any other CPU `c` on `2 * c`. -/
def sampleDevice : Device := fun _ req =>
  match req with
  | .mbox _ 0x7f 0x00 _ => some (2 ^ 31 + 5 * 2 ^ 16 + 10 * 2 ^ 8 + 3)
  | .mbox _ 0x7f 0x01 _ => some 0x30003
  | .mbox _ 0x7f 0x20 d => some (if d = 5 then 5 else 1)
  | .mbox _ 0x94 0x03 _ => some 0x10001
  | .mbox _ 0xd0 0x02 _ => some 0x4
  | .mmioRead _ reg => some (0x12345670 + reg)
  | .phyId c => some (if c = 7 then 64 else 2 * c)
  | _ => none

/-- The snapshot of the package of CPUs 0, 2 and 7 on `sampleDevice`. -/
def sampleInfo : SstPackageInfo :=
  { PPSupported := true, PPLocked := false, PPVersion := 3, PPCurrentLevel := 5, PPMaxLevel := 10,
    CPSupported := true, CPEnabled := false, CPPriority := 1, BFSupported := true,
    BFEnabled := true, BFCores := [0, 2, 7], TFSupported := true, TFEnabled := true,
    ClosInfo := [⟨8, 7, 86, 52, 18⟩, ⟨12, 7, 86, 52, 18⟩, ⟨0, 8, 86, 52, 18⟩, ⟨4, 8, 86, 52, 18⟩] }

/-- The exchanges of that query. -/
def sampleLog : List Exchange :=
  [⟨.mbox 0 0x7f 0x00 0, some 2147813891⟩, ⟨.mbox 0 0x7f 0x01 5, some 196611⟩,
   ⟨.phyId 0, some 0⟩, ⟨.phyId 2, some 4⟩, ⟨.phyId 7, some 64⟩,
   ⟨.mbox 0 0x7f 0x20 5, some 5⟩, ⟨.mbox 0 0x7f 0x20 261, some 1⟩,
   ⟨.mbox 0 0x94 0x03 0, some 65537⟩, ⟨.mbox 0 0xd0 0x02 0, some 4⟩,
   ⟨.mmioRead 0 0x08, some 305419896⟩, ⟨.mmioRead 0 0x0c, some 305419900⟩,
   ⟨.mmioRead 0 0x10, some 305419904⟩, ⟨.mmioRead 0 0x14, some 305419908⟩]

/-- The state after that query. -/
def sampleState : State :=
  { cpuMap := Function.update (Function.update (Function.update emptyState.cpuMap
      0 (some 0)) 2 (some 4)) 7 (some 64)
    log := sampleLog }

/-- The core-mask exchanges of batches `i`, `i + 1`, ... answered by the words `rsps`, for the
representative CPU `cpu` (as sent) and the PP level `level`. -/
def coreMaskExchanges (cpu level : Nat) : Nat → List Nat → List Exchange
  | _, [] => []
  | i, r :: rs =>
    ⟨.mbox cpu CONFIG_TDP CONFIG_TDP_PBF_GET_CORE_MASK_INFO (u32 (level + (i <<< 8))), some r⟩
      :: coreMaskExchanges cpu level (i + 1) rs

/-- A device that fails the first `n` exchanges and answers the word `w` from then on. -/
def failFirst (n w : Nat) : Device := fun l _ => if l.length < n then none else some w

/-- A call of one of the three functions that read or fill the cache. -/
inductive Call where
  | punit (cpu : ID)
  | packageInfo (pkg : cpuPackage)
  | closID (cpu : ID)

/-- The state after a sequence of calls, each started in the state the call before it left;
`none` when a `getSstPackageInfo` call of the sequence panics (a package without CPUs). -/
def runCalls (dev : Device) : List Call → State → Option State
  | [], st => some st
  | .punit c :: cs, st => runCalls dev cs (punitCPU dev c st).2
  | .packageInfo pkg :: cs, st =>
    match getSstPackageInfo dev pkg st with
    | none => none
    | some r => runCalls dev cs r.2
  | .closID c :: cs, st => runCalls dev cs (getCPUClosID dev c st).2

/-- The state reached from `sampleState` on `sampleDevice` by `punitCPU(3)`, `getCPUClosID(7)`
and `getSstPackageInfo` of the package of CPU 7. -/
def sampleState2 : State :=
  { cpuMap := Function.update sampleState.cpuMap 3 (some 6)
    log := sampleLog ++
      [⟨.phyId 3, some 6⟩, ⟨.mmioRead 7 160, some 305420048⟩,
       ⟨.mbox 7 0x7f 0x00 0, some 2147813891⟩, ⟨.mbox 7 0x7f 0x01 5, some 196611⟩,
       ⟨.mbox 7 0x7f 0x20 5, some 5⟩, ⟨.mbox 7 0x7f 0x20 261, some 1⟩,
       ⟨.mbox 7 0x94 0x03 0, some 65537⟩, ⟨.mbox 7 0xd0 0x02 0, some 4⟩,
       ⟨.mmioRead 7 0x08, some 305419896⟩, ⟨.mmioRead 7 0x0c, some 305419900⟩,
       ⟨.mmioRead 7 0x10, some 305419904⟩, ⟨.mmioRead 7 0x14, some 305419908⟩] }

/-- The snapshot of the package of CPU 1 on the device that answers 0x10004 everywhere:
version 4, PP not supported, and a PM_FEATURE word with bit 0 clear and bit 16 set. -/
def cpFlagInfo : SstPackageInfo :=
  { PPVersion := 4, PPCurrentLevel := 1, CPEnabled := true }

/-- The state after that query, from the empty state. -/
def cpFlagState : State :=
  { cpuMap := emptyState.cpuMap
    log := [⟨.mbox 1 0x7f 0x00 0, some 0x10004⟩, ⟨.mbox 1 0x94 0x03 0, some 0x10004⟩] }

end Sst

namespace Sst

/-! ## Bit codec lemmas -/

theorem u32_lt (x : Nat) : u32 x < 2 ^ 32 := Nat.mod_lt _ (by norm_num)

theorem u32_of_lt {x : Nat} (h : x < 2 ^ 32) : u32 x = x := Nat.mod_eq_of_lt h

/-- For a width `w` of at most 32 bits the wrapped mask is `2^w - 1`. -/
theorem mask_eq (w : Nat) (hw : 1 ≤ w) (hw32 : w ≤ 32) :
    u32 (u32 (1 <<< u32 w) + 2 ^ 32 - 1) = 2 ^ w - 1 := by
  have h1 : u32 w = w := u32_of_lt (by omega)
  rw [h1, Nat.one_shiftLeft]
  have hpos : 0 < 2 ^ w := Nat.two_pow_pos w
  rcases Nat.lt_or_ge w 32 with h | h
  · have hlt : 2 ^ w < 2 ^ 32 := Nat.pow_lt_pow_right (by norm_num) h
    rw [u32_of_lt hlt]
    have : 2 ^ w + 2 ^ 32 - 1 = (2 ^ w - 1) + 2 ^ 32 := by omega
    rw [this]
    unfold u32
    rw [Nat.add_mod_right]
    exact Nat.mod_eq_of_lt (by omega)
  · have : w = 32 := by omega
    subst this
    decide

/-- The inclusive range `lo..hi` of a word, by division and remainder. -/
theorem getBits_eq (val lo hi : Nat) (h : lo ≤ hi) (h32 : hi ≤ 31) :
    getBits val lo hi = val / 2 ^ lo % 2 ^ (hi - lo + 1) := by
  unfold getBits
  have hn : ¬ lo > hi := by omega
  simp only [hn, if_false]
  rw [mask_eq _ (by omega) (by omega), Nat.and_pow_two_sub_one_eq_mod, Nat.shiftRight_eq_div_pow]

/-- A single bit, by division and remainder. -/
theorem isBitSet_eq (val n : Nat) (h : n ≤ 31) :
    isBitSet val n = decide (val / 2 ^ n % 2 = 1) := by
  unfold isBitSet
  have hlt : 2 ^ n < 2 ^ 32 := Nat.pow_lt_pow_right (by norm_num) (by omega)
  rw [Nat.one_shiftLeft, u32_of_lt hlt]
  have h1 : val &&& 2 ^ n = 2 ^ n * (val / 2 ^ n % 2) := by
    rw [Nat.and_two_pow]
    rw [Nat.testBit_to_div_mod]
    rcases Nat.mod_two_eq_zero_or_one (val / 2 ^ n) with h0 | h0 <;> simp [h0]
  rw [h1]
  have hpos : 0 < 2 ^ n := Nat.two_pow_pos n
  rcases Nat.mod_two_eq_zero_or_one (val / 2 ^ n) with h0 | h0
  · simp [h0]
  · simp [h0]

/-! ## The primitives -/

theorem issued_of_log {st st1 : State} {new : List Exchange} (h : st1.log = st.log ++ new) :
    issued st st1 = new := by
  unfold issued
  rw [h]
  simp

theorem sendMboxCmd_cases (dev : Device) (cpu : ID) (cmd subCmd d : Nat) (st : State) :
    (∃ w, dev st.log (.mbox (u32OfInt cpu) cmd subCmd d) = some w ∧
      sendMboxCmd dev cpu cmd subCmd d st =
        ((u32 w, none), st.record ⟨.mbox (u32OfInt cpu) cmd subCmd d, some (u32 w)⟩)) ∨
    (dev st.log (.mbox (u32OfInt cpu) cmd subCmd d) = none ∧
      sendMboxCmd dev cpu cmd subCmd d st =
        ((0, some (.mboxFailed .ioctlFailed)),
          st.record ⟨.mbox (u32OfInt cpu) cmd subCmd d, none⟩)) := by
  unfold sendMboxCmd isstIoctl
  cases h : dev st.log (.mbox (u32OfInt cpu) cmd subCmd d) with
  | none => right; simp
  | some w => left; exact ⟨w, rfl, by simp⟩

theorem sendMMIOCmd_cases (dev : Device) (cpu : ID) (reg : Nat) (st : State) :
    (∃ w, dev st.log (.mmioRead (u32OfInt cpu) reg) = some w ∧
      sendMMIOCmd dev cpu reg st =
        ((u32 w, none), st.record ⟨.mmioRead (u32OfInt cpu) reg, some (u32 w)⟩)) ∨
    (dev st.log (.mmioRead (u32OfInt cpu) reg) = none ∧
      sendMMIOCmd dev cpu reg st =
        ((0, some (.mmioFailed .ioctlFailed)), st.record ⟨.mmioRead (u32OfInt cpu) reg, none⟩)) := by
  unfold sendMMIOCmd isstIoctl
  cases h : dev st.log (.mmioRead (u32OfInt cpu) reg) with
  | none => right; simp
  | some w => left; exact ⟨w, rfl, by simp⟩

theorem punitCPU_cases (dev : Device) (cpu : ID) (st : State) :
    (∃ v, st.cpuMap cpu = some v ∧ punitCPU dev cpu st = ((v, none), st)) ∨
    (∃ w, st.cpuMap cpu = none ∧ dev st.log (.phyId (u32OfInt cpu)) = some w ∧
      punitCPU dev cpu st =
        ((((u32 w : Nat) : Int), none),
          { cpuMap := Function.update st.cpuMap cpu (some ((u32 w : Nat) : Int))
            log := st.log ++ [⟨.phyId (u32OfInt cpu), some (u32 w)⟩] })) ∨
    (st.cpuMap cpu = none ∧ dev st.log (.phyId (u32OfInt cpu)) = none ∧
      punitCPU dev cpu st =
        ((-1, some (.cpuMapping cpu .ioctlFailed)),
          st.record ⟨.phyId (u32OfInt cpu), none⟩)) := by
  unfold punitCPU getCPUMapping isstIoctl
  cases hc : st.cpuMap cpu with
  | some v => left; exact ⟨v, rfl, by simp⟩
  | none =>
    right
    cases h : dev st.log (.phyId (u32OfInt cpu)) with
    | none => right; simp
    | some w => left; exact ⟨w, rfl, rfl, by simp [State.record]⟩

theorem Trace.nil (P : Request → Prop) (st : State) : Trace P st st none :=
  ⟨fun _ _ h => h, [], by simp, by simp, Or.inl ⟨rfl, by simp⟩⟩

theorem Trace.mono {P Q : Request → Prop} {st st1 : State} {e : Option SstError}
    (h : Trace P st st1 e) (hPQ : ∀ q, P q → Q q) : Trace Q st st1 e := by
  obtain ⟨hc, new, hlog, hP, hcase⟩ := h
  exact ⟨hc, new, hlog, fun x hx => hPQ _ (hP x hx), hcase⟩

theorem Trace.append {P : Request → Prop} {st st1 st2 : State} {e : Option SstError}
    (h1 : Trace P st st1 none) (h2 : Trace P st1 st2 e) : Trace P st st2 e := by
  obtain ⟨hc1, new1, hlog1, hP1, hcase1⟩ := h1
  obtain ⟨hc2, new2, hlog2, hP2, hcase2⟩ := h2
  have hok1 : ∀ x ∈ new1, x.rsp ≠ none := by
    rcases hcase1 with ⟨_, h⟩ | ⟨h, _⟩
    · exact h
    · exact absurd rfl h
  refine ⟨fun c v h => hc2 c v (hc1 c v h), new1 ++ new2, ?_, ?_, ?_⟩
  · rw [hlog2, hlog1, List.append_assoc]
  · intro x hx
    rcases List.mem_append.1 hx with h | h
    · exact hP1 x h
    · exact hP2 x h
  · rcases hcase2 with ⟨he, hok2⟩ | ⟨he, pre, x, hnew, hpre, hx⟩
    · left
      refine ⟨he, fun x hx => ?_⟩
      rcases List.mem_append.1 hx with h | h
      · exact hok1 x h
      · exact hok2 x h
    · right
      refine ⟨he, new1 ++ pre, x, by rw [hnew, List.append_assoc], fun y hy => ?_, hx⟩
      rcases List.mem_append.1 hy with h | h
      · exact hok1 y h
      · exact hpre y h

/-- One successful exchange. -/
theorem Trace.one_ok {P : Request → Prop} (st : State) (q : Request) (r : Nat) (hq : P q) :
    Trace P st (st.record ⟨q, some r⟩) none :=
  ⟨fun _ _ h => h, [⟨q, some r⟩], rfl, by simpa using hq, Or.inl ⟨rfl, by simp⟩⟩

/-- One failed exchange. -/
theorem Trace.one_err {P : Request → Prop} (st : State) (q : Request) (e : SstError) (hq : P q) :
    Trace P st (st.record ⟨q, none⟩) (some e) :=
  ⟨fun _ _ h => h, [⟨q, none⟩], rfl, by simpa using hq,
    Or.inr ⟨by simp, [], ⟨q, none⟩, rfl, by simp, rfl⟩⟩

theorem sendMboxCmd_trace (dev : Device) (cpu : ID) (cmd subCmd d : Nat) (st : State) :
    Trace (fun q => q = .mbox (u32OfInt cpu) cmd subCmd d) st
      (sendMboxCmd dev cpu cmd subCmd d st).2 (sendMboxCmd dev cpu cmd subCmd d st).1.2 := by
  rcases sendMboxCmd_cases dev cpu cmd subCmd d st with ⟨w, _, h⟩ | ⟨_, h⟩
  · rw [h]; exact Trace.one_ok _ _ _ rfl
  · rw [h]; exact Trace.one_err _ _ _ rfl

theorem sendMMIOCmd_trace (dev : Device) (cpu : ID) (reg : Nat) (st : State) :
    Trace (fun q => q = .mmioRead (u32OfInt cpu) reg) st
      (sendMMIOCmd dev cpu reg st).2 (sendMMIOCmd dev cpu reg st).1.2 := by
  rcases sendMMIOCmd_cases dev cpu reg st with ⟨w, _, h⟩ | ⟨_, h⟩
  · rw [h]; exact Trace.one_ok _ _ _ rfl
  · rw [h]; exact Trace.one_err _ _ _ rfl

theorem punitCPU_trace (dev : Device) (cpu : ID) (st : State) :
    Trace (fun q => q = .phyId (u32OfInt cpu)) st
      (punitCPU dev cpu st).2 (punitCPU dev cpu st).1.2 := by
  rcases punitCPU_cases dev cpu st with ⟨v, _, h⟩ | ⟨w, hc, _, h⟩ | ⟨_, _, h⟩
  · rw [h]; exact Trace.nil _ _
  · rw [h]
    refine ⟨fun c v hcv => ?_, [⟨.phyId (u32OfInt cpu), some (u32 w)⟩], rfl, by simp,
      Or.inl ⟨rfl, by simp⟩⟩
    show Function.update st.cpuMap cpu _ c = some v
    by_cases hcc : c = cpu
    · subst hcc; rw [hc] at hcv; cases hcv
    · rw [Function.update_noteq hcc]; exact hcv
  · rw [h]; exact Trace.one_err _ _ _ rfl

theorem punitCoreLoop_trace (dev : Device) (ids : List ID) (g : ID → Option IDSet) (m : ID)
    (st : State) :
    Trace (fun q => q.isPhyId = true) st
      (punitCoreLoop dev ids g m st).2 (punitCoreLoop dev ids g m st).1.2.2 := by
  induction ids generalizing g m st with
  | nil => exact Trace.nil _ _
  | cons id rest ih =>
    unfold punitCoreLoop
    have ht := punitCPU_trace dev id st
    rcases h : punitCPU dev id st with ⟨⟨pc, e⟩, st1⟩
    rw [h] at ht
    have ht1 : Trace (fun q => q.isPhyId = true) st st1 e :=
      ht.mono (fun q hq => by subst hq; rfl)
    cases e with
    | some err => exact ht1
    | none => exact Trace.append ht1 (ih _ _ _)

theorem coreMaskLoop_trace (dev : Device) (cpu : ID) (g : ID → Option IDSet) (n i : Nat)
    (info : SstPackageInfo) (st : State) :
    Trace (fun q => q.isMbox CONFIG_TDP CONFIG_TDP_PBF_GET_CORE_MASK_INFO = true) st
      (coreMaskLoop dev cpu g n i info st).2 (coreMaskLoop dev cpu g n i info st).1.2 := by
  induction n generalizing i info st with
  | zero => exact Trace.nil _ _
  | succ n ih =>
    unfold coreMaskLoop
    have ht := sendMboxCmd_trace dev cpu CONFIG_TDP CONFIG_TDP_PBF_GET_CORE_MASK_INFO
      (u32 (info.PPCurrentLevel + (i <<< 8))) st
    rcases h : sendMboxCmd dev cpu CONFIG_TDP CONFIG_TDP_PBF_GET_CORE_MASK_INFO
      (u32 (info.PPCurrentLevel + (i <<< 8))) st with ⟨⟨r, e⟩, st1⟩
    rw [h] at ht
    have ht1 : Trace (fun q => q.isMbox CONFIG_TDP CONFIG_TDP_PBF_GET_CORE_MASK_INFO = true)
        st st1 e := ht.mono (fun q hq => by subst hq; rfl)
    cases e with
    | some err =>
      obtain ⟨hc, new, hlog, hP, hcase⟩ := ht1
      exact ⟨hc, new, hlog, hP, by simpa using hcase⟩
    | none => exact Trace.append ht1 (ih _ _ _)

theorem closLoop_trace (dev : Device) (cpu : ID) (n i : Nat) (info : SstPackageInfo)
    (st : State) :
    Trace (fun q => q.isMMIO = true) st
      (closLoop dev cpu n i info st).2 (closLoop dev cpu n i info st).1.2 := by
  induction n generalizing i info st with
  | zero => exact Trace.nil _ _
  | succ n ih =>
    unfold closLoop
    have ht := sendMMIOCmd_trace dev cpu (u32 (u32 (i <<< 2) + PM_CLOS_OFFSET)) st
    rcases h : sendMMIOCmd dev cpu (u32 (u32 (i <<< 2) + PM_CLOS_OFFSET)) st with ⟨⟨r, e⟩, st1⟩
    rw [h] at ht
    have ht1 : Trace (fun q => q.isMMIO = true) st st1 e :=
      ht.mono (fun q hq => by subst hq; rfl)
    cases e with
    | some err =>
      obtain ⟨hc, new, hlog, hP, hcase⟩ := ht1
      exact ⟨hc, new, hlog, hP, by simpa using hcase⟩
    | none => exact Trace.append ht1 (ih _ _ _)

/-- An error may be replaced by another one. -/
theorem Trace.err {P : Request → Prop} {st st1 : State} {e : SstError} (e1 : SstError)
    (h : Trace P st st1 (some e)) : Trace P st st1 (some e1) := by
  obtain ⟨hc, new, hlog, hP, hcase⟩ := h
  exact ⟨hc, new, hlog, hP, by simpa using hcase⟩

theorem readTDPControl_trace (dev : Device) (cpu : ID) (info : SstPackageInfo) (st : State) :
    Trace (fun q => q.isMbox CONFIG_TDP CONFIG_TDP_GET_TDP_CONTROL = true) st
      (readTDPControl dev cpu info st).2 (readTDPControl dev cpu info st).1.2 := by
  unfold readTDPControl
  split
  · have ht := sendMboxCmd_trace dev cpu CONFIG_TDP CONFIG_TDP_GET_TDP_CONTROL
      (u32 info.PPCurrentLevel) st
    rcases h : sendMboxCmd dev cpu CONFIG_TDP CONFIG_TDP_GET_TDP_CONTROL
      (u32 info.PPCurrentLevel) st with ⟨⟨r, e⟩, st1⟩
    rw [h] at ht
    have ht1 := ht.mono (Q := fun q => q.isMbox CONFIG_TDP CONFIG_TDP_GET_TDP_CONTROL = true)
      (fun q hq => by subst hq; rfl)
    cases e with
    | some err => exact ht1.err _
    | none => exact ht1
  · exact Trace.nil _ _

theorem readBFInfo_trace (dev : Device) (ids : List ID) (cpu : ID) (info : SstPackageInfo)
    (st : State) :
    Trace (fun q => q.isPhyId = true ∨
        q.isMbox CONFIG_TDP CONFIG_TDP_PBF_GET_CORE_MASK_INFO = true) st
      (readBFInfo dev ids cpu info st).2 (readBFInfo dev ids cpu info st).1.2 := by
  unfold readBFInfo
  split
  · have ht := punitCoreLoop_trace dev ids (fun _ => none) 0 st
    rcases h : punitCoreLoop dev ids (fun _ => none) 0 st with ⟨⟨g, m, e⟩, st1⟩
    rw [h] at ht
    have ht1 := ht.mono (Q := fun q => q.isPhyId = true ∨
        q.isMbox CONFIG_TDP CONFIG_TDP_PBF_GET_CORE_MASK_INFO = true) (fun q hq => Or.inl hq)
    cases e with
    | some err => exact ht1
    | none =>
      exact Trace.append ht1 ((coreMaskLoop_trace dev cpu g _ 0 _ st1).mono
        (fun q hq => Or.inr hq))
  · exact Trace.nil _ _

theorem readCPInfo_trace (dev : Device) (cpu : ID) (info : SstPackageInfo) (st : State) :
    Trace (fun q => q.isMbox READ_PM_CONFIG PM_FEATURE = true ∨
        q.isMbox CONFIG_CLOS CLOS_PM_QOS_CONFIG = true ∨ q.isMMIO = true) st
      (readCPInfo dev cpu info st).2 (readCPInfo dev cpu info st).1.2 := by
  unfold readCPInfo
  have ht := sendMboxCmd_trace dev cpu READ_PM_CONFIG PM_FEATURE 0 st
  rcases h : sendMboxCmd dev cpu READ_PM_CONFIG PM_FEATURE 0 st with ⟨⟨r, e⟩, st1⟩
  rw [h] at ht
  have ht1 := ht.mono (Q := fun q => q.isMbox READ_PM_CONFIG PM_FEATURE = true ∨
        q.isMbox CONFIG_CLOS CLOS_PM_QOS_CONFIG = true ∨ q.isMMIO = true)
      (fun q hq => by subst hq; exact Or.inl rfl)
  cases e with
  | some err => exact ht1.err _
  | none =>
    dsimp only
    split
    · have hu := sendMboxCmd_trace dev cpu CONFIG_CLOS CLOS_PM_QOS_CONFIG 0 st1
      rcases h2 : sendMboxCmd dev cpu CONFIG_CLOS CLOS_PM_QOS_CONFIG 0 st1 with ⟨⟨r2, e2⟩, st2⟩
      rw [h2] at hu
      have hu1 := hu.mono (Q := fun q => q.isMbox READ_PM_CONFIG PM_FEATURE = true ∨
          q.isMbox CONFIG_CLOS CLOS_PM_QOS_CONFIG = true ∨ q.isMMIO = true)
        (fun q hq => by subst hq; exact Or.inr (Or.inl rfl))
      cases e2 with
      | some err => exact Trace.append ht1 (hu1.err _)
      | none =>
        exact Trace.append ht1 (Trace.append hu1 ((closLoop_trace dev cpu _ 0 _ st2).mono
          (fun q hq => Or.inr (Or.inr hq))))
    · exact ht1

/-- Inversion of a run of `getSstPackageInfo`: the sequence of phases it went through. -/
theorem getSstPackageInfo_inv {dev : Device} {pkg : cpuPackage} {st st1 : State}
    {info : SstPackageInfo} {e : Option SstError}
    (h : getSstPackageInfo dev pkg st = some ((info, e), st1)) :
    ∃ cpu rest, IDSet.SortedMembers pkg.cpus = cpu :: rest ∧
      ((∃ r err, sendMboxCmd dev cpu CONFIG_TDP CONFIG_TDP_GET_LEVELS_INFO 0 st
            = ((r, some err), st1) ∧ info = {} ∧ e = some (.ppInfo err)) ∨
       (∃ r sa, sendMboxCmd dev cpu CONFIG_TDP CONFIG_TDP_GET_LEVELS_INFO 0 st
            = ((r, none), sa) ∧
          ((getBits r 0 7 < 3 ∧ info = decodeLevelsInfo {} r ∧ e = none ∧ st1 = sa) ∨
           (3 ≤ getBits r 0 7 ∧ ∃ info2 e2 sb,
              readTDPControl dev cpu (decodeLevelsInfo {} r) sa = ((info2, e2), sb) ∧
              ((e2 ≠ none ∧ info = info2 ∧ e = e2 ∧ st1 = sb) ∨
               (e2 = none ∧ ∃ info3 e3 sc,
                  readBFInfo dev (cpu :: rest) cpu info2 sb = ((info3, e3), sc) ∧
                  ((e3 ≠ none ∧ info = info3 ∧ e = e3 ∧ st1 = sc) ∨
                   (e3 = none ∧ readCPInfo dev cpu info3 sc = ((info, e), st1))))))))) := by
  unfold getSstPackageInfo at h
  dsimp only at h
  split at h
  · cases h
  · rename_i cpu rest hs
    refine ⟨cpu, rest, hs, ?_⟩
    split at h
    · rename_i r err sa h0
      simp only [Option.some.injEq, Prod.mk.injEq] at h
      obtain ⟨⟨rfl, rfl⟩, rfl⟩ := h
      exact Or.inl ⟨r, err, h0, rfl, rfl⟩
    · rename_i r sa h0
      refine Or.inr ⟨r, sa, h0, ?_⟩
      split at h
      · rename_i hv
        simp only [Option.some.injEq, Prod.mk.injEq] at h
        obtain ⟨⟨rfl, rfl⟩, rfl⟩ := h
        exact Or.inl ⟨hv, rfl, rfl, rfl⟩
      · rename_i hv
        refine Or.inr ⟨Nat.le_of_not_lt hv, ?_⟩
        split at h
        · rename_i info2 err sb h2
          simp only [Option.some.injEq, Prod.mk.injEq] at h
          obtain ⟨⟨rfl, rfl⟩, rfl⟩ := h
          exact ⟨_, _, _, h2, Or.inl ⟨by simp, rfl, rfl, rfl⟩⟩
        · rename_i info2 sb h2
          refine ⟨_, _, _, h2, Or.inr ⟨rfl, ?_⟩⟩
          split at h
          · rename_i info3 err sc h3
            simp only [Option.some.injEq, Prod.mk.injEq] at h
            obtain ⟨⟨rfl, rfl⟩, rfl⟩ := h
            exact ⟨_, _, _, h3, Or.inl ⟨by simp, rfl, rfl, rfl⟩⟩
          · rename_i info3 sc h3
            simp only [Option.some.injEq] at h
            exact ⟨_, _, _, h3, Or.inr ⟨rfl, h⟩⟩

/-- The run of `getSstPackageInfo`: every exchange but a failing last one succeeds, and an error
is returned exactly when the last one failed. -/
theorem getSstPackageInfo_trace {dev : Device} {pkg : cpuPackage} {st st1 : State}
    {info : SstPackageInfo} {e : Option SstError}
    (h : getSstPackageInfo dev pkg st = some ((info, e), st1)) :
    Trace (fun _ => True) st st1 e := by
  obtain ⟨cpu, rest, -, h⟩ := getSstPackageInfo_inv h
  have ht := (sendMboxCmd_trace dev cpu CONFIG_TDP CONFIG_TDP_GET_LEVELS_INFO 0 st).mono
    (Q := fun _ => True) (fun _ _ => trivial)
  rcases h with ⟨r, err, h0, -, rfl⟩ | ⟨r, sa, h0, h⟩
  · rw [h0] at ht; exact ht.err _
  rw [h0] at ht
  rcases h with ⟨-, -, rfl, rfl⟩ | ⟨-, info2, e2, sb, h2, h⟩
  · exact ht
  have ht2 := (readTDPControl_trace dev cpu (decodeLevelsInfo {} r) sa).mono
    (Q := fun _ => True) (fun _ _ => trivial)
  rw [h2] at ht2
  rcases h with ⟨-, -, rfl, rfl⟩ | ⟨rfl, info3, e3, sc, h3, h⟩
  · exact Trace.append ht ht2
  have ht3 := (readBFInfo_trace dev (cpu :: rest) cpu info2 sb).mono
    (Q := fun _ => True) (fun _ _ => trivial)
  rw [h3] at ht3
  rcases h with ⟨-, -, rfl, rfl⟩ | ⟨rfl, h4⟩
  · exact Trace.append ht (Trace.append ht2 ht3)
  have ht4 := (readCPInfo_trace dev cpu info3 sc).mono
    (Q := fun _ => True) (fun _ _ => trivial)
  rw [h4] at ht4
  exact Trace.append ht (Trace.append ht2 (Trace.append ht3 ht4))

/-! ## Frames: which fields a phase may change -/

theorem coreMaskLoop_frame (dev : Device) (cpu : ID) (g : ID → Option IDSet) (n i : Nat)
    (info : SstPackageInfo) (st : State) :
    (coreMaskLoop dev cpu g n i info st).1.1 =
      { info with BFCores := (coreMaskLoop dev cpu g n i info st).1.1.BFCores } := by
  induction n generalizing i info st with
  | zero => rfl
  | succ n ih =>
    unfold coreMaskLoop
    rcases sendMboxCmd_cases dev cpu CONFIG_TDP CONFIG_TDP_PBF_GET_CORE_MASK_INFO
      (u32 (info.PPCurrentLevel + (i <<< 8))) st with ⟨w, _, h⟩ | ⟨_, h⟩
    · rw [h]
      dsimp only
      rw [ih]
    · rw [h]

theorem closLoop_frame (dev : Device) (cpu : ID) (n i : Nat) (info : SstPackageInfo)
    (st : State) :
    (closLoop dev cpu n i info st).1.1 =
      { info with ClosInfo := (closLoop dev cpu n i info st).1.1.ClosInfo } := by
  induction n generalizing i info st with
  | zero => rfl
  | succ n ih =>
    unfold closLoop
    rcases sendMMIOCmd_cases dev cpu (u32 (u32 (i <<< 2) + PM_CLOS_OFFSET)) st
      with ⟨w, _, h⟩ | ⟨_, h⟩
    · rw [h]
      dsimp only
      rw [ih]
    · rw [h]

theorem readTDPControl_frame (dev : Device) (cpu : ID) (info : SstPackageInfo) (st : State) :
    (readTDPControl dev cpu info st).1.1 =
      { info with
        BFSupported := (readTDPControl dev cpu info st).1.1.BFSupported
        BFEnabled := (readTDPControl dev cpu info st).1.1.BFEnabled
        TFSupported := (readTDPControl dev cpu info st).1.1.TFSupported
        TFEnabled := (readTDPControl dev cpu info st).1.1.TFEnabled } := by
  unfold readTDPControl
  split
  · rcases sendMboxCmd_cases dev cpu CONFIG_TDP CONFIG_TDP_GET_TDP_CONTROL
      (u32 info.PPCurrentLevel) st with ⟨w, _, h⟩ | ⟨_, h⟩
    · rw [h]
    · rw [h]
  · rfl

theorem readBFInfo_frame (dev : Device) (ids : List ID) (cpu : ID) (info : SstPackageInfo)
    (st : State) :
    (readBFInfo dev ids cpu info st).1.1 =
      { info with BFCores := (readBFInfo dev ids cpu info st).1.1.BFCores } := by
  unfold readBFInfo
  split
  · rcases h : punitCoreLoop dev ids (fun _ => none) 0 st with ⟨⟨g, m, e⟩, st1⟩
    cases e with
    | some err => rfl
    | none =>
      dsimp only
      rw [coreMaskLoop_frame]
  · rfl

theorem readCPInfo_frame (dev : Device) (cpu : ID) (info : SstPackageInfo) (st : State) :
    (readCPInfo dev cpu info st).1.1 =
      { info with
        CPSupported := (readCPInfo dev cpu info st).1.1.CPSupported
        CPEnabled := (readCPInfo dev cpu info st).1.1.CPEnabled
        CPPriority := (readCPInfo dev cpu info st).1.1.CPPriority
        ClosInfo := (readCPInfo dev cpu info st).1.1.ClosInfo } := by
  unfold readCPInfo
  rcases sendMboxCmd_cases dev cpu READ_PM_CONFIG PM_FEATURE 0 st with ⟨w, _, h⟩ | ⟨_, h⟩
  · rw [h]
    dsimp only
    split
    · rcases sendMboxCmd_cases dev cpu CONFIG_CLOS CLOS_PM_QOS_CONFIG 0
        (st.record ⟨.mbox (u32OfInt cpu) READ_PM_CONFIG PM_FEATURE 0, some (u32 w)⟩)
        with ⟨w2, _, h2⟩ | ⟨_, h2⟩
      · rw [h2]
        dsimp only
        rw [closLoop_frame]
      · rw [h2]
    · rfl
  · rw [h]

/-! ## Exchanges between states -/

theorem Trace.log_eq {P : Request → Prop} {st st1 : State} {e : Option SstError}
    (h : Trace P st st1 e) : st1.log = st.log ++ issued st st1 := by
  obtain ⟨-, new, hlog, -⟩ := h
  rw [issued_of_log hlog, hlog]

theorem issued_trans {st st1 st2 : State} (h1 : st1.log = st.log ++ issued st st1)
    (h2 : st2.log = st1.log ++ issued st1 st2) :
    issued st st2 = issued st st1 ++ issued st1 st2 := by
  apply issued_of_log
  rw [h2, h1, List.append_assoc]

theorem Trace.exchangesOf_nil {P : Request → Prop} {st st1 : State} {e : Option SstError}
    (h : Trace P st st1 e) (p : Request → Bool) (hp : ∀ q, P q → p q = false) :
    exchangesOf p (issued st st1) = [] := by
  obtain ⟨-, new, hlog, hP, -⟩ := h
  rw [issued_of_log hlog]
  unfold exchangesOf
  rw [List.filter_eq_nil_iff]
  intro x hx
  simp [hp _ (hP x hx)]

theorem exchangesOf_append (p : Request → Bool) (a b : List Exchange) :
    exchangesOf p (a ++ b) = exchangesOf p a ++ exchangesOf p b := by
  unfold exchangesOf
  exact List.filter_append _ _

theorem issued_record (st : State) (x : Exchange) : issued st (st.record x) = [x] :=
  issued_of_log rfl

theorem sortedMembers_mem (s : IDSet) (c : ID) : c ∈ IDSet.SortedMembers s ↔ c ∈ s := by
  unfold IDSet.SortedMembers
  rw [(List.perm_insertionSort _ _).mem_iff, List.mem_dedup]

theorem sortedMembers_ne_nil (s : IDSet) (h : s ≠ []) : IDSet.SortedMembers s ≠ [] := by
  obtain ⟨c, hc⟩ := List.exists_mem_of_ne_nil s h
  intro hn
  have := (sortedMembers_mem s c).2 hc
  rw [hn] at this
  cases this

/-- A package with a CPU makes `getSstPackageInfo` return. -/
theorem getSstPackageInfo_returns (dev : Device) (pkg : cpuPackage) (st : State)
    (h : pkg.cpus ≠ []) :
    ∃ info e st1, getSstPackageInfo dev pkg st = some ((info, e), st1) := by
  have hne := sortedMembers_ne_nil pkg.cpus h
  unfold getSstPackageInfo
  dsimp only
  split
  · rename_i hs; exact absurd hs hne
  · split
    · exact ⟨_, _, _, rfl⟩
    · split
      · exact ⟨_, _, _, rfl⟩
      · split
        · exact ⟨_, _, _, rfl⟩
        · split
          · exact ⟨_, _, _, rfl⟩
          · exact ⟨_, _, _, rfl⟩

/-- The five PP fields of any returned snapshot are those decoded from the first response. -/
theorem getSstPackageInfo_pp {dev : Device} {pkg : cpuPackage} {st st1 sa : State}
    {info : SstPackageInfo} {e : Option SstError} {cpu : ID} {rest : List ID} {r : Nat}
    (h : getSstPackageInfo dev pkg st = some ((info, e), st1))
    (hs : IDSet.SortedMembers pkg.cpus = cpu :: rest)
    (h0 : sendMboxCmd dev cpu CONFIG_TDP CONFIG_TDP_GET_LEVELS_INFO 0 st = ((r, none), sa)) :
    info.PPSupported = (getBits r 31 31 != 0) ∧ info.PPLocked = (getBits r 24 24 != 0) ∧
    info.PPCurrentLevel = getBits r 16 23 ∧ info.PPMaxLevel = getBits r 8 15 ∧
    info.PPVersion = getBits r 0 7 := by
  obtain ⟨cpu1, rest1, hs1, h⟩ := getSstPackageInfo_inv h
  rw [hs] at hs1
  obtain ⟨rfl, rfl⟩ := List.cons.inj hs1
  rw [h0] at h
  rcases h with ⟨r1, err, h1, -, -⟩ | ⟨r1, sa1, h1, h⟩
  · simp at h1
  simp only [Prod.mk.injEq, and_true, true_and] at h1
  obtain ⟨rfl, rfl⟩ := h1
  rcases h with ⟨-, rfl, -, -⟩ | ⟨-, info2, e2, sb, h2, h⟩
  · exact ⟨rfl, rfl, rfl, rfl, rfl⟩
  have f2 := readTDPControl_frame dev cpu (decodeLevelsInfo {} r) sa
  rw [h2] at f2
  dsimp only at f2
  rcases h with ⟨-, rfl, -, -⟩ | ⟨-, info3, e3, sc, h3, h⟩
  · rw [f2]; exact ⟨rfl, rfl, rfl, rfl, rfl⟩
  have f3 := readBFInfo_frame dev (cpu :: rest) cpu info2 sb
  rw [h3] at f3
  dsimp only at f3
  rcases h with ⟨-, rfl, -, -⟩ | ⟨-, h4⟩
  · rw [f3, f2]; exact ⟨rfl, rfl, rfl, rfl, rfl⟩
  have f4 := readCPInfo_frame dev cpu info3 sc
  rw [h4] at f4
  dsimp only at f4
  rw [f4, f3, f2]; exact ⟨rfl, rfl, rfl, rfl, rfl⟩

theorem getCPUClosID_trace (dev : Device) (cpu : ID) (st : State) :
    Trace (fun _ => True) st (getCPUClosID dev cpu st).2 (getCPUClosID dev cpu st).1.2 := by
  unfold getCPUClosID
  have ht := (punitCPU_trace dev cpu st).mono (Q := fun _ => True) (fun _ _ => trivial)
  rcases h : punitCPU dev cpu st with ⟨⟨p, e⟩, st1⟩
  rw [h] at ht
  cases e with
  | some err => exact ht
  | none =>
    dsimp only
    have hu := (sendMMIOCmd_trace dev cpu
      (u32 (u32 ((u32OfInt p >>> 1) <<< 2) + PQR_ASSOC_OFFSET)) st1).mono
      (Q := fun _ => True) (fun _ _ => trivial)
    rcases h2 : sendMMIOCmd dev cpu
      (u32 (u32 ((u32OfInt p >>> 1) <<< 2) + PQR_ASSOC_OFFSET)) st1 with ⟨⟨r, e2⟩, st2⟩
    rw [h2] at hu
    cases e2 with
    | some err => exact Trace.append ht (hu.err _)
    | none => exact Trace.append ht hu

/-- What a `Trace` says of the exchanges issued: a failed exchange is the last one and comes with
an error, and an error comes with a failed exchange. -/
theorem Trace.abort {P : Request → Prop} {st st1 : State} {e : Option SstError}
    (h : Trace P st st1 e) :
    (∀ pre x post, issued st st1 = pre ++ x :: post → x.rsp = none → post = [] ∧ e ≠ none) ∧
    (e ≠ none → ∃ x ∈ issued st st1, x.rsp = none) := by
  obtain ⟨-, new, hlog, -, hcase⟩ := h
  rw [issued_of_log hlog]
  rcases hcase with ⟨rfl, hok⟩ | ⟨he, pre0, x0, rfl, hpre, hx0⟩
  · refine ⟨fun pre x post hnew hx => ?_, fun hne => absurd rfl hne⟩
    exact absurd hx (hok x (by rw [hnew]; simp))
  · refine ⟨fun pre x post hnew hx => ?_, fun _ => ⟨x0, by simp, hx0⟩⟩
    refine ⟨?_, he⟩
    by_contra hpost
    obtain ⟨post1, y, rfl⟩ : ∃ post1 y, post = post1 ++ [y] :=
      ⟨post.dropLast, post.getLast hpost, (List.dropLast_append_getLast hpost).symm⟩
    have hnew1 : pre0 ++ [x0] = (pre ++ x :: post1) ++ [y] := by
      rw [hnew]; simp
    have := List.append_inj_left' hnew1 rfl
    exact hpre x (by rw [this]; simp) hx

/-! ## What the phases compute -/

/-- The TDP control phase, in full. -/
theorem readTDPControl_spec (dev : Device) (cpu : ID) (info : SstPackageInfo) (st : State) :
    (info.PPSupported = false ∧ readTDPControl dev cpu info st = ((info, none), st)) ∨
    (info.PPSupported = true ∧
      ((∃ r, readTDPControl dev cpu info st =
          (({ info with
                BFSupported := isBitSet r 1
                BFEnabled := isBitSet r 17
                TFSupported := isBitSet r 0
                TFEnabled := isBitSet r 16 }, none),
            st.record ⟨.mbox (u32OfInt cpu) CONFIG_TDP CONFIG_TDP_GET_TDP_CONTROL
              (u32 info.PPCurrentLevel), some r⟩)) ∨
       (∃ err, readTDPControl dev cpu info st =
          ((info, some err),
            st.record ⟨.mbox (u32OfInt cpu) CONFIG_TDP CONFIG_TDP_GET_TDP_CONTROL
              (u32 info.PPCurrentLevel), none⟩)))) := by
  unfold readTDPControl
  cases hpp : info.PPSupported with
  | false => left; exact ⟨rfl, by simp⟩
  | true =>
    right
    refine ⟨rfl, ?_⟩
    rcases sendMboxCmd_cases dev cpu CONFIG_TDP CONFIG_TDP_GET_TDP_CONTROL
      (u32 info.PPCurrentLevel) st with ⟨w, _, h⟩ | ⟨_, h⟩
    · left; exact ⟨u32 w, by rw [h]; simp⟩
    · right; exact ⟨.cpStatus (.mboxFailed .ioctlFailed), by rw [h]; simp⟩

/-- One successful turn of the CLOS loop. -/
theorem closLoop_succ_ok {dev : Device} {cpu : ID} {n i : Nat} {info info1 : SstPackageInfo}
    {st st1 : State} (h : closLoop dev cpu (n + 1) i info st = ((info1, none), st1)) :
    ∃ w, closLoop dev cpu n (i + 1)
        { info with ClosInfo := info.ClosInfo.set i (decodeClos w) }
        (st.record ⟨.mmioRead (u32OfInt cpu) (u32 (u32 (i <<< 2) + PM_CLOS_OFFSET)), some w⟩)
      = ((info1, none), st1) := by
  unfold closLoop at h
  rcases sendMMIOCmd_cases dev cpu (u32 (u32 (i <<< 2) + PM_CLOS_OFFSET)) st
    with ⟨w, _, hw⟩ | ⟨_, hw⟩
  · rw [hw] at h
    exact ⟨u32 w, h⟩
  · rw [hw] at h
    simp at h

/-- The four turns of the CLOS loop, when none fails. -/
theorem closLoop_ok {dev : Device} {cpu : ID} {info info1 : SstPackageInfo}
    {st st1 : State} (h : closLoop dev cpu NumClos 0 info st = ((info1, none), st1)) :
    ∃ w0 w1 w2 w3,
      st1.log = st.log ++
        [⟨.mmioRead (u32OfInt cpu) 0x08, some w0⟩, ⟨.mmioRead (u32OfInt cpu) 0x0c, some w1⟩,
         ⟨.mmioRead (u32OfInt cpu) 0x10, some w2⟩, ⟨.mmioRead (u32OfInt cpu) 0x14, some w3⟩] ∧
      info1 = { info with ClosInfo :=
        (((info.ClosInfo.set 0 (decodeClos w0)).set 1 (decodeClos w1)).set 2
          (decodeClos w2)).set 3 (decodeClos w3) } := by
  obtain ⟨w0, h⟩ := closLoop_succ_ok h
  obtain ⟨w1, h⟩ := closLoop_succ_ok h
  obtain ⟨w2, h⟩ := closLoop_succ_ok h
  obtain ⟨w3, h⟩ := closLoop_succ_ok h
  unfold closLoop at h
  simp only [Prod.mk.injEq, and_true] at h
  obtain ⟨rfl, rfl⟩ := h
  refine ⟨w0, w1, w2, w3, ?_, rfl⟩
  simp [State.record]
  decide

/-- The core-power phase, when it succeeds. -/
theorem readCPInfo_ok {dev : Device} {cpu : ID} {info info1 : SstPackageInfo} {st st1 : State}
    (h : readCPInfo dev cpu info st = ((info1, none), st1)) :
    ∃ r, (isBitSet r 0 = false ∧
        st1.log = st.log ++ [⟨.mbox (u32OfInt cpu) READ_PM_CONFIG PM_FEATURE 0, some r⟩] ∧
        info1 = { info with CPSupported := false, CPEnabled := isBitSet r 16 }) ∨
      (isBitSet r 0 = true ∧ ∃ r2 w0 w1 w2 w3,
        st1.log = st.log ++
          [⟨.mbox (u32OfInt cpu) READ_PM_CONFIG PM_FEATURE 0, some r⟩,
           ⟨.mbox (u32OfInt cpu) CONFIG_CLOS CLOS_PM_QOS_CONFIG 0, some r2⟩,
           ⟨.mmioRead (u32OfInt cpu) 0x08, some w0⟩, ⟨.mmioRead (u32OfInt cpu) 0x0c, some w1⟩,
           ⟨.mmioRead (u32OfInt cpu) 0x10, some w2⟩, ⟨.mmioRead (u32OfInt cpu) 0x14, some w3⟩] ∧
        info1 = { info with
          CPSupported := true
          CPEnabled := isBitSet r2 1
          CPPriority := getBits r2 2 2
          ClosInfo := (((info.ClosInfo.set 0 (decodeClos w0)).set 1 (decodeClos w1)).set 2
            (decodeClos w2)).set 3 (decodeClos w3) }) := by
  unfold readCPInfo at h
  rcases sendMboxCmd_cases dev cpu READ_PM_CONFIG PM_FEATURE 0 st with ⟨w, _, hw⟩ | ⟨_, hw⟩
  · rw [hw] at h
    dsimp only at h
    refine ⟨u32 w, ?_⟩
    cases hb : isBitSet (u32 w) 0 with
    | false =>
      left
      rw [hb] at h
      simp only [Bool.false_eq_true, if_false, Prod.mk.injEq, and_true] at h
      obtain ⟨rfl, rfl⟩ := h
      exact ⟨rfl, rfl, rfl⟩
    | true =>
      right
      rw [hb] at h
      simp only [if_true] at h
      rcases sendMboxCmd_cases dev cpu CONFIG_CLOS CLOS_PM_QOS_CONFIG 0
        (st.record ⟨.mbox (u32OfInt cpu) READ_PM_CONFIG PM_FEATURE 0, some (u32 w)⟩)
        with ⟨w2, _, hw2⟩ | ⟨_, hw2⟩
      · rw [hw2] at h
        dsimp only at h
        obtain ⟨w0, w1, w2', w3, hlog, hinfo⟩ := closLoop_ok h
        refine ⟨rfl, u32 w2, w0, w1, w2', w3, ?_, hinfo⟩
        rw [hlog]
        simp [State.record]
      · rw [hw2] at h
        simp at h
  · rw [hw] at h
    simp at h

/-- Inversion of a run of `getSstPackageInfo` that returned no error. -/
theorem getSstPackageInfo_ok_inv {dev : Device} {pkg : cpuPackage} {st st1 : State}
    {info : SstPackageInfo} {cpu : ID} {rest : List ID}
    (h : getSstPackageInfo dev pkg st = some ((info, none), st1))
    (hs : IDSet.SortedMembers pkg.cpus = cpu :: rest) :
    ∃ r, sendMboxCmd dev cpu CONFIG_TDP CONFIG_TDP_GET_LEVELS_INFO 0 st =
        ((r, none), st.record ⟨.mbox (u32OfInt cpu) CONFIG_TDP CONFIG_TDP_GET_LEVELS_INFO 0,
          some r⟩) ∧
      ((getBits r 0 7 < 3 ∧ info = decodeLevelsInfo {} r ∧
          st1 = st.record ⟨.mbox (u32OfInt cpu) CONFIG_TDP CONFIG_TDP_GET_LEVELS_INFO 0,
            some r⟩) ∨
       (3 ≤ getBits r 0 7 ∧ ∃ info2 sb info3 sc,
          readTDPControl dev cpu (decodeLevelsInfo {} r)
            (st.record ⟨.mbox (u32OfInt cpu) CONFIG_TDP CONFIG_TDP_GET_LEVELS_INFO 0, some r⟩)
            = ((info2, none), sb) ∧
          readBFInfo dev (cpu :: rest) cpu info2 sb = ((info3, none), sc) ∧
          readCPInfo dev cpu info3 sc = ((info, none), st1))) := by
  obtain ⟨cpu1, rest1, hs1, h⟩ := getSstPackageInfo_inv h
  rw [hs] at hs1
  obtain ⟨rfl, rfl⟩ := List.cons.inj hs1
  rcases sendMboxCmd_cases dev cpu CONFIG_TDP CONFIG_TDP_GET_LEVELS_INFO 0 st
    with ⟨w, _, hw⟩ | ⟨_, hw⟩
  · rw [hw] at h
    refine ⟨u32 w, hw, ?_⟩
    rcases h with ⟨r1, err, h1, -, -⟩ | ⟨r1, sa1, h1, h⟩
    · simp at h1
    simp only [Prod.mk.injEq, and_true, true_and] at h1
    obtain ⟨rfl, rfl⟩ := h1
    rcases h with ⟨hv, rfl, -, rfl⟩ | ⟨hv, info2, e2, sb, h2, h⟩
    · exact Or.inl ⟨hv, rfl, rfl⟩
    right
    refine ⟨hv, ?_⟩
    rcases h with ⟨hne, -, rfl, -⟩ | ⟨rfl, info3, e3, sc, h3, h⟩
    · exact absurd rfl hne
    rcases h with ⟨hne, -, rfl, -⟩ | ⟨rfl, h4⟩
    · exact absurd rfl hne
    exact ⟨info2, sb, info3, sc, h2, h3, h4⟩
  · rw [hw] at h
    rcases h with ⟨r1, err, h1, -, hne⟩ | ⟨r1, sa1, h1, h⟩
    · cases hne
    · simp at h1

/-! ## Classes of requests -/

theorem isMbox_excl {q : Request} {c s c1 s1 : Nat} (h : q.isMbox c s = true)
    (hne : ¬ (c = c1 ∧ s = s1)) : q.isMbox c1 s1 = false := by
  cases q with
  | mbox cpu c2 s2 d =>
    simp only [Request.isMbox, Bool.and_eq_true, beq_iff_eq] at h
    obtain ⟨rfl, rfl⟩ := h
    simp only [Request.isMbox, Bool.and_eq_false_imp, beq_iff_eq, beq_eq_false_iff_ne]
    intro hc hs
    exact hne ⟨hc, hs⟩
  | phyId _ => cases h
  | mmioRead _ _ => cases h

theorem isMbox_of_isPhyId {q : Request} (h : q.isPhyId = true) (c s : Nat) :
    q.isMbox c s = false := by
  cases q <;> first | rfl | cases h

theorem isMbox_of_isMMIO {q : Request} (h : q.isMMIO = true) (c s : Nat) :
    q.isMbox c s = false := by
  cases q <;> first | rfl | cases h

theorem isMMIO_of_isMbox {q : Request} {c s : Nat} (h : q.isMbox c s = true) :
    q.isMMIO = false := by
  cases q <;> first | rfl | cases h

theorem isMMIO_of_isPhyId {q : Request} (h : q.isPhyId = true) : q.isMMIO = false := by
  cases q <;> first | rfl | cases h

theorem isPhyId_of_isMbox {q : Request} {c s : Nat} (h : q.isMbox c s = true) :
    q.isPhyId = false := by
  cases q <;> first | rfl | cases h

theorem isPhyId_of_isMMIO {q : Request} (h : q.isMMIO = true) : q.isPhyId = false := by
  cases q <;> first | rfl | cases h

/-- The exchanges of a run that returned no error and went past the version check: the PP levels
query, then those of the three phases. -/
theorem getSstPackageInfo_ok_issued {dev : Device} {cpu : ID} {ids : List ID}
    {st sb sc st1 : State} {x0 : Exchange} {D info2 info3 info : SstPackageInfo}
    {e2 e3 e : Option SstError}
    (h2 : readTDPControl dev cpu D (st.record x0) = ((info2, e2), sb))
    (h3 : readBFInfo dev ids cpu info2 sb = ((info3, e3), sc))
    (h4 : readCPInfo dev cpu info3 sc = ((info, e), st1)) :
    issued st st1 = x0 :: (issued (st.record x0) sb ++ issued sb sc ++ issued sc st1) := by
  have t2 := (readTDPControl_trace dev cpu D (st.record x0)).log_eq
  have t3 := (readBFInfo_trace dev ids cpu info2 sb).log_eq
  have t4 := (readCPInfo_trace dev cpu info3 sc).log_eq
  rw [h2] at t2
  rw [h3] at t3
  rw [h4] at t4
  dsimp only at t2 t3 t4
  apply issued_of_log
  rw [t4, t3, t2]
  simp [State.record]

theorem readTDPControl_frame_of {dev : Device} {cpu : ID} {info info2 : SstPackageInfo}
    {st sb : State} {e2 : Option SstError}
    (h : readTDPControl dev cpu info st = ((info2, e2), sb)) :
    info2 = { info with
      BFSupported := info2.BFSupported
      BFEnabled := info2.BFEnabled
      TFSupported := info2.TFSupported
      TFEnabled := info2.TFEnabled } := by
  have f := readTDPControl_frame dev cpu info st
  rw [h] at f
  exact f

theorem readBFInfo_frame_of {dev : Device} {ids : List ID} {cpu : ID}
    {info info3 : SstPackageInfo} {st sc : State} {e3 : Option SstError}
    (h : readBFInfo dev ids cpu info st = ((info3, e3), sc)) :
    info3 = { info with BFCores := info3.BFCores } := by
  have f := readBFInfo_frame dev ids cpu info st
  rw [h] at f
  exact f

theorem readCPInfo_frame_of {dev : Device} {cpu : ID} {info info4 : SstPackageInfo}
    {st st1 : State} {e : Option SstError}
    (h : readCPInfo dev cpu info st = ((info4, e), st1)) :
    info4 = { info with
      CPSupported := info4.CPSupported
      CPEnabled := info4.CPEnabled
      CPPriority := info4.CPPriority
      ClosInfo := info4.ClosInfo } := by
  have f := readCPInfo_frame dev cpu info st
  rw [h] at f
  exact f

/-- Requests of a class that only the core-power phase issues are found among its exchanges. -/
theorem exchangesOf_cp_only {dev : Device} {cpu : ID} {ids : List ID}
    {st sb sc st1 : State} {x0 : Exchange} {D info2 info3 info : SstPackageInfo}
    {e2 e3 e : Option SstError}
    (h2 : readTDPControl dev cpu D (st.record x0) = ((info2, e2), sb))
    (h3 : readBFInfo dev ids cpu info2 sb = ((info3, e3), sc))
    (h4 : readCPInfo dev cpu info3 sc = ((info, e), st1))
    (p : Request → Bool) (hp0 : p x0.req = false)
    (hp : ∀ q, (q.isMbox CONFIG_TDP CONFIG_TDP_GET_TDP_CONTROL = true ∨ q.isPhyId = true ∨
      q.isMbox CONFIG_TDP CONFIG_TDP_PBF_GET_CORE_MASK_INFO = true) → p q = false) :
    exchangesOf p (issued st st1) = exchangesOf p (issued sc st1) := by
  rw [getSstPackageInfo_ok_issued h2 h3 h4]
  have t2 := readTDPControl_trace dev cpu D (st.record x0)
  have t3 := readBFInfo_trace dev ids cpu info2 sb
  rw [h2] at t2
  rw [h3] at t3
  have n2 := t2.exchangesOf_nil p (fun q hq => hp q (Or.inl hq))
  have n3 := t3.exchangesOf_nil p (fun q hq => hp q (Or.inr hq))
  dsimp only at n2 n3
  have hx : exchangesOf p [x0] = [] := by simp [exchangesOf, hp0]
  have : x0 :: (issued (st.record x0) sb ++ issued sb sc ++ issued sc st1)
      = [x0] ++ issued (st.record x0) sb ++ issued sb sc ++ issued sc st1 := by simp
  rw [this, exchangesOf_append, exchangesOf_append, exchangesOf_append, hx, n2, n3]
  rfl

/-- The query of the package of CPUs 0, 2 and 7 on `sampleDevice`, from the empty state. -/
theorem sample_run :
    getSstPackageInfo sampleDevice ⟨[2, 7, 0]⟩ emptyState
      = some ((sampleInfo, none), sampleState) := rfl

theorem sample_issued : issued emptyState sampleState = sampleLog := rfl

/-- What follows the TDP control phase, whatever the outcome: the exchanges are physical-id
requests, core-mask commands, the PM_FEATURE and QoS commands and MMIO reads, and the BF and TF
flags are kept. -/
theorem getSstPackageInfo_after_tdp {dev : Device} {cpu : ID} {ids : List ID}
    {sb st1 : State} {info2 info : SstPackageInfo} {e2 e : Option SstError}
    (h : (e2 ≠ none ∧ info = info2 ∧ e = e2 ∧ st1 = sb) ∨
      (e2 = none ∧ ∃ info3 e3 sc,
        readBFInfo dev ids cpu info2 sb = ((info3, e3), sc) ∧
        ((e3 ≠ none ∧ info = info3 ∧ e = e3 ∧ st1 = sc) ∨
         (e3 = none ∧ readCPInfo dev cpu info3 sc = ((info, e), st1))))) :
    (∃ e1, Trace (fun q => q.isPhyId = true ∨
        q.isMbox CONFIG_TDP CONFIG_TDP_PBF_GET_CORE_MASK_INFO = true ∨
        q.isMbox READ_PM_CONFIG PM_FEATURE = true ∨
        q.isMbox CONFIG_CLOS CLOS_PM_QOS_CONFIG = true ∨ q.isMMIO = true) sb st1 e1) ∧
    info.BFSupported = info2.BFSupported ∧ info.BFEnabled = info2.BFEnabled ∧
    info.TFSupported = info2.TFSupported ∧ info.TFEnabled = info2.TFEnabled := by
  rcases h with ⟨-, rfl, -, rfl⟩ | ⟨-, info3, e3, sc, h3, h⟩
  · exact ⟨⟨none, Trace.nil _ _⟩, rfl, rfl, rfl, rfl⟩
  have t3 := (readBFInfo_trace dev ids cpu info2 sb).mono
    (Q := fun q => q.isPhyId = true ∨
        q.isMbox CONFIG_TDP CONFIG_TDP_PBF_GET_CORE_MASK_INFO = true ∨
        q.isMbox READ_PM_CONFIG PM_FEATURE = true ∨
        q.isMbox CONFIG_CLOS CLOS_PM_QOS_CONFIG = true ∨ q.isMMIO = true)
    (fun q hq => by
      rcases hq with hq | hq
      · exact Or.inl hq
      · exact Or.inr (Or.inl hq))
  rw [h3] at t3
  have f3 := readBFInfo_frame_of h3
  rcases h with ⟨-, rfl, -, rfl⟩ | ⟨rfl, h4⟩
  · refine ⟨⟨e3, t3⟩, ?_⟩
    rw [f3]
    exact ⟨rfl, rfl, rfl, rfl⟩
  have t4 := (readCPInfo_trace dev cpu info3 sc).mono
    (Q := fun q => q.isPhyId = true ∨
        q.isMbox CONFIG_TDP CONFIG_TDP_PBF_GET_CORE_MASK_INFO = true ∨
        q.isMbox READ_PM_CONFIG PM_FEATURE = true ∨
        q.isMbox CONFIG_CLOS CLOS_PM_QOS_CONFIG = true ∨ q.isMMIO = true)
    (fun q hq => by
      rcases hq with hq | hq | hq
      · exact Or.inr (Or.inr (Or.inl hq))
      · exact Or.inr (Or.inr (Or.inr (Or.inl hq)))
      · exact Or.inr (Or.inr (Or.inr (Or.inr hq))))
  rw [h4] at t4
  refine ⟨⟨e, Trace.append t3 t4⟩, ?_⟩
  rw [readCPInfo_frame_of h4, f3]
  exact ⟨rfl, rfl, rfl, rfl⟩

theorem getBits_lt (val lo hi : Nat) (h : lo ≤ hi) (h32 : hi ≤ 31) :
    getBits val lo hi < 2 ^ (hi - lo + 1) := by
  rw [getBits_eq _ _ _ h h32]
  exact Nat.mod_lt _ (Nat.two_pow_pos _)

/-- The first exchange of any run is the PP levels query: either it failed, and the run stopped
there with the zero snapshot, or it succeeded and heads the exchanges of the run. -/
theorem getSstPackageInfo_first {dev : Device} {pkg : cpuPackage} {st st1 : State}
    {info : SstPackageInfo} {e : Option SstError} {cpu : ID} {rest : List ID}
    (hrun : getSstPackageInfo dev pkg st = some ((info, e), st1))
    (hs : IDSet.SortedMembers pkg.cpus = cpu :: rest) :
    (info = {} ∧
      issued st st1 = [⟨.mbox (u32OfInt cpu) CONFIG_TDP CONFIG_TDP_GET_LEVELS_INFO 0, none⟩]) ∨
    (∃ r tail,
      sendMboxCmd dev cpu CONFIG_TDP CONFIG_TDP_GET_LEVELS_INFO 0 st =
        ((r, none), st.record ⟨.mbox (u32OfInt cpu) CONFIG_TDP CONFIG_TDP_GET_LEVELS_INFO 0,
          some r⟩) ∧
      issued st st1 =
        ⟨.mbox (u32OfInt cpu) CONFIG_TDP CONFIG_TDP_GET_LEVELS_INFO 0, some r⟩ :: tail) := by
  obtain ⟨cpu1, rest1, hs1, h⟩ := getSstPackageInfo_inv hrun
  rw [hs] at hs1
  obtain ⟨rfl, rfl⟩ := List.cons.inj hs1
  rcases sendMboxCmd_cases dev cpu CONFIG_TDP CONFIG_TDP_GET_LEVELS_INFO 0 st
    with ⟨w, -, hw⟩ | ⟨-, hw⟩
  · right
    rw [hw] at h
    rcases h with ⟨r1, err, h1, -, -⟩ | ⟨r1, sa1, h1, h⟩
    · simp at h1
    simp only [Prod.mk.injEq, and_true, true_and] at h1
    obtain ⟨rfl, rfl⟩ := h1
    rcases h with ⟨-, -, -, rfl⟩ | ⟨-, info2, e2, sb, h2, h⟩
    · exact ⟨u32 w, [], hw, issued_record _ _⟩
    obtain ⟨⟨e1, ht⟩, -⟩ := getSstPackageInfo_after_tdp h
    have t2 := (readTDPControl_trace dev cpu (decodeLevelsInfo {} (u32 w))
      (st.record ⟨.mbox (u32OfInt cpu) CONFIG_TDP CONFIG_TDP_GET_LEVELS_INFO 0,
        some (u32 w)⟩)).log_eq
    rw [h2] at t2
    dsimp only at t2
    refine ⟨u32 w, issued (st.record ⟨.mbox (u32OfInt cpu) CONFIG_TDP
      CONFIG_TDP_GET_LEVELS_INFO 0, some (u32 w)⟩) sb ++ issued sb st1, hw, ?_⟩
    apply issued_of_log
    rw [ht.log_eq, t2]
    simp [State.record]
  · left
    rw [hw] at h
    rcases h with ⟨r1, err, h1, rfl, -⟩ | ⟨r1, sa1, h1, -⟩
    · simp only [Prod.mk.injEq, true_and] at h1
      obtain ⟨-, rfl⟩ := h1
      exact ⟨rfl, issued_record _ _⟩
    · simp at h1

/-! ## The base-frequency phase -/

theorem IDSet.mem_Add (s : IDSet) (ids : List ID) (c : ID) :
    c ∈ IDSet.Add s ids ↔ c ∈ s ∨ c ∈ ids := by
  unfold IDSet.Add
  induction ids generalizing s with
  | nil => simp
  | cons x xs ih =>
    rw [List.foldl_cons, ih]
    by_cases hx : x ∈ s
    · rw [if_pos hx]
      constructor
      · rintro (h | h)
        · exact Or.inl h
        · exact Or.inr (List.mem_cons_of_mem _ h)
      · rintro (h | h)
        · exact Or.inl h
        · rcases List.mem_cons.1 h with rfl | h
          · exact Or.inl hx
          · exact Or.inr h
    · rw [if_neg hx]
      constructor
      · rintro (h | h)
        · rcases List.mem_append.1 h with h | h
          · exact Or.inl h
          · rw [List.mem_singleton] at h
            subst h
            exact Or.inr (List.mem_cons_self _ _)
        · exact Or.inr (List.mem_cons_of_mem _ h)
      · rintro (h | h)
        · exact Or.inl (List.mem_append_left _ h)
        · rcases List.mem_cons.1 h with rfl | h
          · exact Or.inl (List.mem_append_right _ (List.mem_singleton_self _))
          · exact Or.inr h

theorem addMaskBits_mem (g : ID → Option IDSet) (i rsp : Nat) (cores : IDSet) (c : ID) :
    c ∈ addMaskBits g i rsp cores ↔
      c ∈ cores ∨ ∃ b, b < 32 ∧ isBitSet rsp b = true ∧
        c ∈ groupMembers g ((i * 32 + b : Nat) : Int) := by
  have key : ∀ (L : List Nat) (acc : IDSet),
      c ∈ L.foldl (fun acc bit =>
          if isBitSet rsp (u32 bit) then
            IDSet.Add acc (groupMembers g ((i * 32 + bit : Nat) : Int))
          else acc) acc ↔
        c ∈ acc ∨ ∃ b, b ∈ L ∧ isBitSet rsp (u32 b) = true ∧
          c ∈ groupMembers g ((i * 32 + b : Nat) : Int) := by
    intro L
    induction L with
    | nil => intro acc; simp
    | cons x xs ih =>
      intro acc
      rw [List.foldl_cons, ih]
      by_cases hx : isBitSet rsp (u32 x) = true
      · rw [if_pos hx, IDSet.mem_Add]
        constructor
        · rintro ((h | h) | ⟨b, hb, h1, h2⟩)
          · exact Or.inl h
          · exact Or.inr ⟨x, List.mem_cons_self _ _, hx, h⟩
          · exact Or.inr ⟨b, List.mem_cons_of_mem _ hb, h1, h2⟩
        · rintro (h | ⟨b, hb, h1, h2⟩)
          · exact Or.inl (Or.inl h)
          · rcases List.mem_cons.1 hb with rfl | hb
            · exact Or.inl (Or.inr h2)
            · exact Or.inr ⟨b, hb, h1, h2⟩
      · rw [if_neg hx]
        constructor
        · rintro (h | ⟨b, hb, h1, h2⟩)
          · exact Or.inl h
          · exact Or.inr ⟨b, List.mem_cons_of_mem _ hb, h1, h2⟩
        · rintro (h | ⟨b, hb, h1, h2⟩)
          · exact Or.inl h
          · rcases List.mem_cons.1 hb with rfl | hb
            · exact absurd h1 hx
            · exact Or.inr ⟨b, hb, h1, h2⟩
  unfold addMaskBits
  rw [key]
  constructor
  · rintro (h | ⟨b, hb, h1, h2⟩)
    · exact Or.inl h
    · have hb32 : b < 32 := List.mem_range.1 hb
      rw [u32_of_lt (by omega)] at h1
      exact Or.inr ⟨b, hb32, h1, h2⟩
  · rintro (h | ⟨b, hb, h1, h2⟩)
    · exact Or.inl h
    · refine Or.inr ⟨b, List.mem_range.2 hb, ?_, h2⟩
      rw [u32_of_lt (by omega)]
      exact h1

/-- A successful `punitCPU`: the id is cached afterwards, entries are kept, and the cache stays
valid. -/
theorem punitCPU_ok {dev : Device} {c pc : ID} {st st1 : State}
    (h : punitCPU dev c st = ((pc, none), st1)) :
    st1.cpuMap c = some pc ∧ (cacheValid st → cacheValid st1) := by
  rcases punitCPU_cases dev c st with ⟨v, hv, h1⟩ | ⟨w, hc, -, h1⟩ | ⟨-, -, h1⟩
  · rw [h1] at h
    simp only [Prod.mk.injEq, and_true] at h
    obtain ⟨rfl, rfl⟩ := h
    exact ⟨hv, fun hval => hval⟩
  · rw [h1] at h
    simp only [Prod.mk.injEq, and_true] at h
    obtain ⟨rfl, rfl⟩ := h
    refine ⟨by simp, fun hval c1 v1 hv1 => ?_⟩
    by_cases hcc : c1 = c
    · subst hcc
      simp only [Function.update_same, Option.some.injEq] at hv1
      subst hv1
      have := u32_lt w
      constructor
      · exact Int.ofNat_nonneg _
      · exact_mod_cast this
    · simp only [Function.update_noteq hcc] at hv1
      exact hval c1 v1 hv1
  · rw [h1] at h
    simp at h

theorem groupMembers_update (g : ID → Option IDSet) (k k1 : ID) (s : IDSet) :
    groupMembers (Function.update g k (some s)) k1 = if k1 = k then s else groupMembers g k1 := by
  unfold groupMembers IDSet.Members
  by_cases h : k1 = k
  · subst h; simp
  · simp [Function.update_noteq h, h]

/-- The loop over `ids`, when no resolution fails. -/
theorem punitCoreLoop_ok {dev : Device} {ids : List ID} {g g1 : ID → Option IDSet} {m m1 : ID}
    {st st1 : State}
    (h : punitCoreLoop dev ids g m st = ((g1, m1, none), st1)) :
    (cacheValid st → cacheValid st1) ∧
    (∀ c ∈ ids, ∃ pc, st1.cpuMap c = some pc) ∧
    (∀ k c, c ∈ groupMembers g1 k ↔
      c ∈ groupMembers g k ∨ (c ∈ ids ∧ ∃ pc, st1.cpuMap c = some pc ∧ pc >>> (1 : Nat) = k)) ∧
    m ≤ m1 ∧
    (∀ c ∈ ids, ∀ pc, st1.cpuMap c = some pc → pc >>> (1 : Nat) ≤ m1) ∧
    (m1 = m ∨ ∃ c ∈ ids, ∃ pc, st1.cpuMap c = some pc ∧ pc >>> (1 : Nat) = m1) := by
  induction ids generalizing g m st with
  | nil =>
    unfold punitCoreLoop at h
    simp only [Prod.mk.injEq, and_true] at h
    obtain ⟨⟨rfl, rfl⟩, rfl⟩ := h
    exact ⟨fun hv => hv, by simp, by simp, le_refl _, by simp, Or.inl rfl⟩
  | cons id rest ih =>
    unfold punitCoreLoop at h
    rcases hp : punitCPU dev id st with ⟨⟨pc, e⟩, sa⟩
    rw [hp] at h
    cases e with
    | some err => simp at h
    | none =>
      dsimp only at h
      obtain ⟨hid, hval⟩ := punitCPU_ok hp
      obtain ⟨ihval, ihall, ihg, ihm, ihle, ihmax⟩ := ih h
      have hmono := (punitCoreLoop_trace dev rest
        (Function.update
          (if (g (pc >>> (1 : Nat))).isNone = true then Function.update g (pc >>> (1 : Nat)) (some []) else g)
          (pc >>> (1 : Nat))
          (Option.map (fun s => IDSet.Add s [id])
            ((if (g (pc >>> (1 : Nat))).isNone = true then Function.update g (pc >>> (1 : Nat)) (some [])
              else g) (pc >>> (1 : Nat)))))
        (if pc >>> (1 : Nat) > m then pc >>> (1 : Nat) else m) sa).1
      rw [h] at hmono
      have hid1 : st1.cpuMap id = some pc := hmono id pc hid
      have hgrp : ∀ k c, c ∈ groupMembers
          (Function.update
            (if (g (pc >>> (1 : Nat))).isNone = true then Function.update g (pc >>> (1 : Nat)) (some []) else g)
            (pc >>> (1 : Nat))
            (Option.map (fun s => IDSet.Add s [id])
              ((if (g (pc >>> (1 : Nat))).isNone = true then Function.update g (pc >>> (1 : Nat)) (some [])
                else g) (pc >>> (1 : Nat))))) k ↔
          c ∈ groupMembers g k ∨ (c = id ∧ pc >>> (1 : Nat) = k) := by
        intro k c
        cases hgk : g (pc >>> (1 : Nat)) with
        | none =>
          simp only [Option.isNone_none, if_true, Function.update_same, Option.map_some']
          rw [groupMembers_update]
          by_cases hk : k = pc >>> (1 : Nat)
          · subst hk
            rw [if_pos rfl, IDSet.mem_Add]
            simp [groupMembers, IDSet.Members, hgk]
          · rw [if_neg hk, groupMembers_update, if_neg hk]
            have : ¬ pc >>> (1 : Nat) = k := fun h => hk h.symm
            simp [this]
        | some s =>
          simp only [Option.isNone_some, Bool.false_eq_true, if_false, hgk, Option.map_some']
          rw [groupMembers_update]
          by_cases hk : k = pc >>> (1 : Nat)
          · subst hk
            rw [if_pos rfl, IDSet.mem_Add]
            simp [groupMembers, IDSet.Members, hgk]
          · rw [if_neg hk]
            have : ¬ pc >>> (1 : Nat) = k := fun h => hk h.symm
            simp [this]
      refine ⟨fun hv => ihval (hval hv), ?_, ?_, ?_, ?_, ?_⟩
      · intro c hc
        rcases List.mem_cons.1 hc with rfl | hc
        · exact ⟨pc, hid1⟩
        · exact ihall c hc
      · intro k c
        rw [ihg, hgrp]
        constructor
        · rintro ((h1 | ⟨rfl, h1⟩) | ⟨h1, h2⟩)
          · exact Or.inl h1
          · exact Or.inr ⟨List.mem_cons_self _ _, pc, hid1, h1⟩
          · exact Or.inr ⟨List.mem_cons_of_mem _ h1, h2⟩
        · rintro (h1 | ⟨h1, pc1, h2, h3⟩)
          · exact Or.inl (Or.inl h1)
          · rcases List.mem_cons.1 h1 with rfl | h1
            · rw [hid1] at h2
              obtain rfl := Option.some.inj h2
              exact Or.inl (Or.inr ⟨rfl, h3⟩)
            · exact Or.inr ⟨h1, pc1, h2, h3⟩
      · refine le_trans ?_ ihm
        by_cases hgt : pc >>> (1 : Nat) > m
        · rw [if_pos hgt]; exact le_of_lt hgt
        · rw [if_neg hgt]
      · intro c hc pc1 hpc1
        rcases List.mem_cons.1 hc with rfl | hc
        · rw [hid1] at hpc1
          obtain rfl := Option.some.inj hpc1
          refine le_trans ?_ ihm
          by_cases hgt : pc >>> (1 : Nat) > m
          · rw [if_pos hgt]
          · rw [if_neg hgt]; exact not_lt.1 hgt
        · exact ihle c hc pc1 hpc1
      · rcases ihmax with h1 | ⟨c, hc, pc1, h1, h2⟩
        · by_cases hgt : pc >>> (1 : Nat) > m
          · rw [if_pos hgt] at h1
            exact Or.inr ⟨id, List.mem_cons_self _ _, pc, hid1, h1.symm⟩
          · rw [if_neg hgt] at h1
            exact Or.inl h1
        · exact Or.inr ⟨c, List.mem_cons_of_mem _ hc, pc1, h1, h2⟩

theorem coreMaskExchanges_req (cpu level : Nat) (i : Nat) (rsps : List Nat) :
    (coreMaskExchanges cpu level i rsps).map (fun x => x.req) =
      (List.range' i rsps.length).map (fun k =>
        Request.mbox cpu CONFIG_TDP CONFIG_TDP_PBF_GET_CORE_MASK_INFO (u32 (level + (k <<< 8)))) := by
  induction rsps generalizing i with
  | nil => rfl
  | cons r rs ih =>
    simp only [coreMaskExchanges, List.map_cons, List.length_cons, List.range'_succ, ih]

theorem coreMaskExchanges_rsp (cpu level : Nat) (i : Nat) (rsps : List Nat) :
    (coreMaskExchanges cpu level i rsps).map (fun x => x.rsp) = rsps.map some := by
  induction rsps generalizing i with
  | nil => rfl
  | cons r rs ih => simp only [coreMaskExchanges, List.map_cons, ih]

theorem coreMaskExchanges_filter (cpu level : Nat) (i : Nat) (rsps : List Nat) :
    exchangesOf (Request.isMbox CONFIG_TDP CONFIG_TDP_PBF_GET_CORE_MASK_INFO)
      (coreMaskExchanges cpu level i rsps) = coreMaskExchanges cpu level i rsps := by
  unfold exchangesOf
  rw [List.filter_eq_self]
  intro x hx
  induction rsps generalizing i with
  | nil => cases hx
  | cons r rs ih =>
    rcases List.mem_cons.1 hx with rfl | h
    · rfl
    · exact ih _ h

/-- The loop over the core-mask batches, when no command fails. -/
theorem coreMaskLoop_ok {dev : Device} {cpu : ID} {g : ID → Option IDSet} {n i : Nat}
    {info info1 : SstPackageInfo} {st st1 : State}
    (h : coreMaskLoop dev cpu g n i info st = ((info1, none), st1)) :
    ∃ rsps : List Nat, rsps.length = n ∧ st1.cpuMap = st.cpuMap ∧
      st1.log = st.log ++ coreMaskExchanges (u32OfInt cpu) info.PPCurrentLevel i rsps ∧
      ∀ c, c ∈ info1.BFCores ↔
        c ∈ info.BFCores ∨ ∃ j r b, rsps[j]? = some r ∧ b < 32 ∧ isBitSet r b = true ∧
          c ∈ groupMembers g (((i + j) * 32 + b : Nat) : Int) := by
  induction n generalizing i info st with
  | zero =>
    unfold coreMaskLoop at h
    simp only [Prod.mk.injEq, and_true] at h
    obtain ⟨rfl, rfl⟩ := h
    exact ⟨[], rfl, rfl, by simp [coreMaskExchanges], by simp⟩
  | succ n ih =>
    unfold coreMaskLoop at h
    rcases sendMboxCmd_cases dev cpu CONFIG_TDP CONFIG_TDP_PBF_GET_CORE_MASK_INFO
      (u32 (info.PPCurrentLevel + (i <<< 8))) st with ⟨w, -, hw⟩ | ⟨-, hw⟩
    · rw [hw] at h
      dsimp only at h
      obtain ⟨rsps, hlen, hmap, hlog, hmem⟩ := ih h
      refine ⟨u32 w :: rsps, by simp [hlen], hmap, ?_, ?_⟩
      · rw [hlog]
        simp [State.record, coreMaskExchanges]
      · intro c
        rw [hmem]
        show c ∈ addMaskBits g i (u32 w) info.BFCores ∨ _ ↔ _
        rw [addMaskBits_mem]
        constructor
        · rintro ((h1 | ⟨b, hb, h1, h2⟩) | ⟨j, r, b, hj, hb, h1, h2⟩)
          · exact Or.inl h1
          · exact Or.inr ⟨0, u32 w, b, by simp, hb, h1, h2⟩
          · refine Or.inr ⟨j + 1, r, b, by simpa using hj, hb, h1, ?_⟩
            have : i + (j + 1) = i + 1 + j := by omega
            rw [this]
            exact h2
        · rintro (h1 | ⟨j, r, b, hj, hb, h1, h2⟩)
          · exact Or.inl (Or.inl h1)
          · cases j with
            | zero =>
              simp only [List.getElem?_cons_zero, Option.some.injEq] at hj
              subst hj
              exact Or.inl (Or.inr ⟨b, hb, h1, h2⟩)
            | succ j =>
              simp only [List.getElem?_cons_succ] at hj
              refine Or.inr ⟨j, r, b, hj, hb, h1, ?_⟩
              have : i + 1 + j = i + (j + 1) := by omega
              rw [this]
              exact h2
    · rw [hw] at h
      simp at h

theorem readTDPControl_cpuMap (dev : Device) (cpu : ID) (info : SstPackageInfo) (st : State) :
    (readTDPControl dev cpu info st).2.cpuMap = st.cpuMap := by
  rcases readTDPControl_spec dev cpu info st with ⟨-, h⟩ | ⟨-, ⟨r, h⟩ | ⟨err, h⟩⟩ <;> rw [h] <;> rfl

theorem closLoop_cpuMap (dev : Device) (cpu : ID) (n i : Nat) (info : SstPackageInfo)
    (st : State) : (closLoop dev cpu n i info st).2.cpuMap = st.cpuMap := by
  induction n generalizing i info st with
  | zero => rfl
  | succ n ih =>
    unfold closLoop
    rcases sendMMIOCmd_cases dev cpu (u32 (u32 (i <<< 2) + PM_CLOS_OFFSET)) st
      with ⟨w, _, h⟩ | ⟨_, h⟩
    · rw [h]
      dsimp only
      rw [ih]
      rfl
    · rw [h]
      rfl

theorem readCPInfo_cpuMap (dev : Device) (cpu : ID) (info : SstPackageInfo) (st : State) :
    (readCPInfo dev cpu info st).2.cpuMap = st.cpuMap := by
  unfold readCPInfo
  rcases sendMboxCmd_cases dev cpu READ_PM_CONFIG PM_FEATURE 0 st with ⟨w, _, h⟩ | ⟨_, h⟩
  · rw [h]
    dsimp only
    split
    · rcases sendMboxCmd_cases dev cpu CONFIG_CLOS CLOS_PM_QOS_CONFIG 0
        (st.record ⟨.mbox (u32OfInt cpu) READ_PM_CONFIG PM_FEATURE 0, some (u32 w)⟩)
        with ⟨w2, _, h2⟩ | ⟨_, h2⟩
      · rw [h2]
        dsimp only
        rw [closLoop_cpuMap]
        rfl
      · rw [h2]
        rfl
    · rfl
  · rw [h]
    rfl

/-- The base-frequency phase, when BF is supported and nothing fails: `m` is `maxPunitCore` and
`rsps` are the core-mask words read. -/
theorem readBFInfo_ok {dev : Device} {ids : List ID} {cpu : ID} {info info1 : SstPackageInfo}
    {st st1 : State} (hbf : info.BFSupported = true)
    (h : readBFInfo dev ids cpu info st = ((info1, none), st1)) :
    ∃ (m : Int) (rsps : List Nat),
      (cacheValid st → cacheValid st1) ∧
      (∀ c ∈ ids, ∃ pc, st1.cpuMap c = some pc ∧ pc >>> (1 : Nat) ≤ m) ∧
      0 ≤ m ∧
      (m = 0 ∨ ∃ c ∈ ids, ∃ pc, st1.cpuMap c = some pc ∧ pc >>> (1 : Nat) = m) ∧
      rsps.length = Int.toNat (Int.tdiv m 32 + 1) ∧
      exchangesOf (Request.isMbox CONFIG_TDP CONFIG_TDP_PBF_GET_CORE_MASK_INFO) (issued st st1)
        = coreMaskExchanges (u32OfInt cpu) info.PPCurrentLevel 0 rsps ∧
      ∀ c, c ∈ info1.BFCores ↔
        c ∈ ids ∧ ∃ pc j r b, st1.cpuMap c = some pc ∧ rsps[j]? = some r ∧ b < 32 ∧
          isBitSet r b = true ∧ pc >>> (1 : Nat) = ((j * 32 + b : Nat) : Int) := by
  unfold readBFInfo at h
  rw [if_pos hbf] at h
  dsimp only at h
  have ht := punitCoreLoop_trace dev ids (fun _ => none) 0 st
  rcases hp : punitCoreLoop dev ids (fun _ => none) 0 st with ⟨⟨g, m, e⟩, sa⟩
  rw [hp] at h ht
  cases e with
  | some err => simp at h
  | none =>
    dsimp only at h ht
    obtain ⟨hval, hall, hg, hm0, hle, hmax⟩ := punitCoreLoop_ok hp
    obtain ⟨rsps, hlen, hmap, hlog, hmem⟩ := coreMaskLoop_ok h
    refine ⟨m, rsps, ?_, ?_, hm0, ?_, hlen, ?_, ?_⟩
    · intro hv c v hcv
      rw [hmap] at hcv
      exact hval hv c v hcv
    · intro c hc
      obtain ⟨pc, hpc⟩ := hall c hc
      exact ⟨pc, by rw [hmap]; exact hpc, hle c hc pc hpc⟩
    · rcases hmax with h1 | ⟨c, hc, pc, h1, h2⟩
      · exact Or.inl h1
      · exact Or.inr ⟨c, hc, pc, by rw [hmap]; exact h1, h2⟩
    · have hiss : issued st st1 = issued st sa ++
          coreMaskExchanges (u32OfInt cpu) info.PPCurrentLevel 0 rsps := by
        apply issued_of_log
        rw [hlog, ht.log_eq, List.append_assoc]
      rw [hiss, exchangesOf_append, coreMaskExchanges_filter,
        ht.exchangesOf_nil _ (fun q hq => isMbox_of_isPhyId hq _ _)]
      rfl
    · intro c
      rw [hmem]
      constructor
      · rintro (h1 | ⟨j, r, b, hj, hb, h1, h2⟩)
        · cases h1
        · rw [hg] at h2
          rcases h2 with h2 | ⟨hc, pc, hpc, hk⟩
          · cases h2
          · refine ⟨hc, pc, j, r, b, by rw [hmap]; exact hpc, hj, hb, h1, ?_⟩
            rw [hk]
            simp
      · rintro ⟨hc, pc, j, r, b, hpc, hj, hb, h1, hk⟩
        refine Or.inr ⟨j, r, b, hj, hb, h1, ?_⟩
        rw [hg]
        refine Or.inr ⟨hc, pc, by rw [← hmap]; exact hpc, ?_⟩
        rw [hk]
        simp

/-- Core-mask commands are issued by the base-frequency phase only. -/
theorem exchangesOf_bf_only {dev : Device} {cpu : ID} {ids : List ID}
    {st sb sc st1 : State} {x0 : Exchange} {D info2 info3 info : SstPackageInfo}
    {e2 e3 e : Option SstError}
    (h2 : readTDPControl dev cpu D (st.record x0) = ((info2, e2), sb))
    (h3 : readBFInfo dev ids cpu info2 sb = ((info3, e3), sc))
    (h4 : readCPInfo dev cpu info3 sc = ((info, e), st1))
    (p : Request → Bool) (hp0 : p x0.req = false)
    (hp : ∀ q, (q.isMbox CONFIG_TDP CONFIG_TDP_GET_TDP_CONTROL = true ∨
      q.isMbox READ_PM_CONFIG PM_FEATURE = true ∨
      q.isMbox CONFIG_CLOS CLOS_PM_QOS_CONFIG = true ∨ q.isMMIO = true) → p q = false) :
    exchangesOf p (issued st st1) = exchangesOf p (issued sb sc) := by
  rw [getSstPackageInfo_ok_issued h2 h3 h4]
  have t2 := readTDPControl_trace dev cpu D (st.record x0)
  have t4 := readCPInfo_trace dev cpu info3 sc
  rw [h2] at t2
  rw [h4] at t4
  have n2 := t2.exchangesOf_nil p (fun q hq => hp q (Or.inl hq))
  have n4 := t4.exchangesOf_nil p (fun q hq => hp q (Or.inr hq))
  dsimp only at n2 n4
  have hx : exchangesOf p [x0] = [] := by simp [exchangesOf, hp0]
  have : x0 :: (issued (st.record x0) sb ++ issued sb sc ++ issued sc st1)
      = [x0] ++ issued (st.record x0) sb ++ issued sb sc ++ issued sc st1 := by simp
  rw [this, exchangesOf_append, exchangesOf_append, exchangesOf_append, hx, n2, n4]
  simp

/-- A run without error with BF supported, as far as the base-frequency cores go: `m` is the
largest PUNIT core seen and `rsps` are the core-mask words read, batch 0 first. -/
theorem getSstPackageInfo_bf {dev : Device} {pkg : cpuPackage} {st st1 : State}
    {info : SstPackageInfo} {cpu : ID} {rest : List ID}
    (hs : IDSet.SortedMembers pkg.cpus = cpu :: rest)
    (hrun : getSstPackageInfo dev pkg st = some ((info, none), st1))
    (hbf : info.BFSupported = true) (hval : cacheValid st) :
    ∃ (m : Int) (rsps : List Nat),
      cacheValid st1 ∧
      (∀ c ∈ pkg.cpus, ∃ pc, st1.cpuMap c = some pc ∧ pc >>> (1 : Nat) ≤ m) ∧
      0 ≤ m ∧
      (m = 0 ∨ ∃ c ∈ pkg.cpus, ∃ pc, st1.cpuMap c = some pc ∧ pc >>> (1 : Nat) = m) ∧
      rsps.length = Int.toNat (Int.tdiv m 32 + 1) ∧
      exchangesOf (Request.isMbox CONFIG_TDP CONFIG_TDP_PBF_GET_CORE_MASK_INFO) (issued st st1)
        = coreMaskExchanges (u32OfInt cpu) info.PPCurrentLevel 0 rsps ∧
      ∀ c, c ∈ info.BFCores ↔
        c ∈ pkg.cpus ∧ ∃ pc j r b, st1.cpuMap c = some pc ∧ rsps[j]? = some r ∧ b < 32 ∧
          isBitSet r b = true ∧ pc >>> (1 : Nat) = ((j * 32 + b : Nat) : Int) := by
  obtain ⟨r1, h0, h⟩ := getSstPackageInfo_ok_inv hrun hs
  rcases h with ⟨-, rfl, -⟩ | ⟨-, info2, sb, info3, sc, h2, h3, h4⟩
  · cases hbf
  have f3 := readBFInfo_frame_of h3
  have f4 := readCPInfo_frame_of h4
  have hbf2 : info2.BFSupported = true := by
    rw [f4, f3] at hbf
    exact hbf
  have hcur : info2.PPCurrentLevel = info.PPCurrentLevel := by
    rw [f4, f3]
  have hcores : info.BFCores = info3.BFCores := by
    rw [f4]
  have hm2 := readTDPControl_cpuMap dev cpu (decodeLevelsInfo {} r1)
    (st.record ⟨.mbox (u32OfInt cpu) CONFIG_TDP CONFIG_TDP_GET_LEVELS_INFO 0, some r1⟩)
  rw [h2] at hm2
  have hm4 := readCPInfo_cpuMap dev cpu info3 sc
  rw [h4] at hm4
  dsimp only at hm2 hm4
  have hvalb : cacheValid sb := by
    intro c v hcv
    rw [hm2] at hcv
    exact hval c v hcv
  obtain ⟨m, rsps, hv, hall, hm0, hmax, hlen, hex, hmem⟩ := readBFInfo_ok hbf2 h3
  have hin : ∀ c, c ∈ cpu :: rest ↔ c ∈ pkg.cpus := by
    intro c
    rw [← hs]
    exact sortedMembers_mem _ _
  refine ⟨m, rsps, ?_, ?_, hm0, ?_, hlen, ?_, ?_⟩
  · intro c v hcv
    rw [hm4] at hcv
    exact hv hvalb c v hcv
  · intro c hc
    rw [hm4]
    exact hall c ((hin c).2 hc)
  · rcases hmax with h1 | ⟨c, hc, pc, h1, h5⟩
    · exact Or.inl h1
    · exact Or.inr ⟨c, (hin c).1 hc, pc, by rw [hm4]; exact h1, h5⟩
  · rw [← hcur, ← hex]
    apply exchangesOf_bf_only h2 h3 h4 _ rfl
    rintro q (hq | hq | hq | hq)
    · exact isMbox_excl hq (by decide)
    · exact isMbox_excl hq (by decide)
    · exact isMbox_excl hq (by decide)
    · exact isMbox_of_isMMIO hq _ _
  · intro c
    rw [hcores, hmem, hin, hm4]

theorem punitCPU_cached (dev : Device) {st : State} {c v : ID} (h : st.cpuMap c = some v) :
    punitCPU dev c st = ((v, none), st) := by
  unfold punitCPU
  rw [h]

theorem getElem?_map_some (l : List Nat) (k r : Nat) :
    (l.map some)[k]? = some (some r) ↔ l[k]? = some r := by
  rw [List.getElem?_map]
  cases l[k]? <;> simp

/-! ## Validity of the cache is an invariant -/

theorem cacheValid_emptyState : cacheValid emptyState := fun _ _ h => by cases h

theorem punitCPU_cacheValid (dev : Device) (c : ID) (st : State) (h : cacheValid st) :
    cacheValid (punitCPU dev c st).2 := by
  rcases hp : punitCPU dev c st with ⟨⟨pc, e⟩, st1⟩
  cases e with
  | none => exact (punitCPU_ok hp).2 h
  | some err =>
    rcases punitCPU_cases dev c st with ⟨v, -, h1⟩ | ⟨w, -, -, h1⟩ | ⟨-, -, h1⟩
    · rw [h1] at hp; simp at hp
    · rw [h1] at hp; simp at hp
    · rw [h1] at hp
      simp only [Prod.mk.injEq] at hp
      obtain ⟨-, rfl⟩ := hp
      exact h

theorem punitCoreLoop_cacheValid (dev : Device) (ids : List ID) (g : ID → Option IDSet)
    (m : ID) (st : State) (h : cacheValid st) :
    cacheValid (punitCoreLoop dev ids g m st).2 := by
  induction ids generalizing g m st with
  | nil => exact h
  | cons id rest ih =>
    unfold punitCoreLoop
    have hv := punitCPU_cacheValid dev id st h
    rcases hp : punitCPU dev id st with ⟨⟨pc, e⟩, sa⟩
    rw [hp] at hv
    cases e with
    | some err => exact hv
    | none => exact ih _ _ _ hv

theorem coreMaskLoop_cpuMap (dev : Device) (cpu : ID) (g : ID → Option IDSet) (n i : Nat)
    (info : SstPackageInfo) (st : State) :
    (coreMaskLoop dev cpu g n i info st).2.cpuMap = st.cpuMap := by
  induction n generalizing i info st with
  | zero => rfl
  | succ n ih =>
    unfold coreMaskLoop
    rcases sendMboxCmd_cases dev cpu CONFIG_TDP CONFIG_TDP_PBF_GET_CORE_MASK_INFO
      (u32 (info.PPCurrentLevel + (i <<< 8))) st with ⟨w, _, h⟩ | ⟨_, h⟩
    · rw [h]
      dsimp only
      rw [ih]
      rfl
    · rw [h]
      rfl

theorem readBFInfo_cacheValid (dev : Device) (ids : List ID) (cpu : ID)
    (info : SstPackageInfo) (st : State) (h : cacheValid st) :
    cacheValid (readBFInfo dev ids cpu info st).2 := by
  unfold readBFInfo
  split
  · have hv := punitCoreLoop_cacheValid dev ids (fun _ => none) 0 st h
    rcases hp : punitCoreLoop dev ids (fun _ => none) 0 st with ⟨⟨g, m, e⟩, sa⟩
    rw [hp] at hv
    cases e with
    | some err => exact hv
    | none =>
      dsimp only
      intro c v hcv
      rw [coreMaskLoop_cpuMap] at hcv
      exact hv c v hcv
  · exact h

/-- Every call of `getSstPackageInfo` keeps the cache valid. -/
theorem getSstPackageInfo_cacheValid {dev : Device} {pkg : cpuPackage} {st st1 : State}
    {info : SstPackageInfo} {e : Option SstError}
    (hrun : getSstPackageInfo dev pkg st = some ((info, e), st1)) (h : cacheValid st) :
    cacheValid st1 := by
  obtain ⟨cpu, rest, -, hc⟩ := getSstPackageInfo_inv hrun
  have hsend : ∀ r e0 sa, sendMboxCmd dev cpu CONFIG_TDP CONFIG_TDP_GET_LEVELS_INFO 0 st
      = ((r, e0), sa) → cacheValid sa := by
    intro r e0 sa hs
    rcases sendMboxCmd_cases dev cpu CONFIG_TDP CONFIG_TDP_GET_LEVELS_INFO 0 st
      with ⟨w, -, hw⟩ | ⟨-, hw⟩ <;>
    · rw [hw] at hs
      simp only [Prod.mk.injEq] at hs
      obtain ⟨-, rfl⟩ := hs
      exact h
  rcases hc with ⟨r, err, h0, -, -⟩ | ⟨r, sa, h0, hc⟩
  · exact hsend _ _ _ h0
  have hsa := hsend _ _ _ h0
  rcases hc with ⟨-, -, -, rfl⟩ | ⟨-, info2, e2, sb, h2, hc⟩
  · exact hsa
  have hsb : cacheValid sb := by
    have hm := readTDPControl_cpuMap dev cpu (decodeLevelsInfo {} r) sa
    rw [h2] at hm
    intro c v hcv
    rw [hm] at hcv
    exact hsa c v hcv
  rcases hc with ⟨-, -, -, rfl⟩ | ⟨-, info3, e3, sc, h3, hc⟩
  · exact hsb
  have hsc : cacheValid sc := by
    have := readBFInfo_cacheValid dev (cpu :: rest) cpu info2 sb hsb
    rw [h3] at this
    exact this
  rcases hc with ⟨-, -, -, rfl⟩ | ⟨-, h4⟩
  · exact hsc
  have hm := readCPInfo_cpuMap dev cpu info3 sc
  rw [h4] at hm
  intro c v hcv
  rw [hm] at hcv
  exact hsc c v hcv

/-- Every call of `getCPUClosID` keeps the cache valid. -/
theorem getCPUClosID_cacheValid (dev : Device) (cpu : ID) (st : State) (h : cacheValid st) :
    cacheValid (getCPUClosID dev cpu st).2 := by
  unfold getCPUClosID
  have hv := punitCPU_cacheValid dev cpu st h
  rcases hp : punitCPU dev cpu st with ⟨⟨p, e⟩, sa⟩
  rw [hp] at hv
  cases e with
  | some err => exact hv
  | none =>
    dsimp only
    rcases sendMMIOCmd_cases dev cpu
      (u32 (u32 ((u32OfInt p >>> 1) <<< 2) + PQR_ASSOC_OFFSET)) sa with ⟨w, -, hw⟩ | ⟨-, hw⟩
    · rw [hw]; exact hv
    · rw [hw]; exact hv

/-- A sequence of calls keeps every entry of the cache. -/
theorem runCalls_keeps (dev : Device) (calls : List Call) (st st1 : State)
    (h : runCalls dev calls st = some st1) (c p : ID) (hc : st.cpuMap c = some p) :
    st1.cpuMap c = some p := by
  induction calls generalizing st with
  | nil =>
    unfold runCalls at h
    obtain rfl := Option.some.inj h
    exact hc
  | cons call cs ih =>
    cases call with
    | punit c1 =>
      unfold runCalls at h
      exact ih _ h ((punitCPU_trace dev c1 st).1 c p hc)
    | packageInfo pkg =>
      unfold runCalls at h
      rcases hr : getSstPackageInfo dev pkg st with _ | ⟨⟨info, e⟩, sa⟩
      · rw [hr] at h
        cases h
      · rw [hr] at h
        exact ih _ h ((getSstPackageInfo_trace hr).1 c p hc)
    | closID c1 =>
      unfold runCalls at h
      exact ih _ h ((getCPUClosID_trace dev c1 st).1 c p hc)

theorem sample_calls :
    runCalls sampleDevice [.punit 3, .closID 7, .packageInfo ⟨[7]⟩] sampleState
      = some sampleState2 := rfl

theorem cpFlag_run :
    getSstPackageInfo (constDevice 0x10004) ⟨[1]⟩ emptyState
      = some ((cpFlagInfo, none), cpFlagState) := rfl

theorem issued_self (st : State) : issued st st = [] :=
  issued_of_log (by simp)

/-- Adding an 8-bit level to a batch index shifted by 8 bits is the same as or-ing them. -/
theorem level_add_eq_or (level k : Nat) (h : level < 256) :
    level + (k <<< 8) = level ||| (k <<< 8) := by
  rw [Nat.shiftLeft_eq, Nat.mul_comm, Nat.add_comm, Nat.or_comm]
  exact Nat.mul_add_lt_is_or (i := 8) h k

/-- The requests of the core-mask loop, whatever its outcome. -/
theorem coreMaskLoop_reqs (dev : Device) (cpu : ID) (g : ID → Option IDSet) (n i : Nat)
    (info : SstPackageInfo) (st : State) :
    ∃ xs : List Exchange, (coreMaskLoop dev cpu g n i info st).2.log = st.log ++ xs ∧
      ∀ (j : Nat) (x : Exchange), xs[j]? = some x →
        x.req = .mbox (u32OfInt cpu) CONFIG_TDP CONFIG_TDP_PBF_GET_CORE_MASK_INFO
          (u32 (info.PPCurrentLevel + ((i + j) <<< 8))) := by
  induction n generalizing i info st with
  | zero => exact ⟨[], by simp [coreMaskLoop], by simp⟩
  | succ n ih =>
    unfold coreMaskLoop
    rcases sendMboxCmd_cases dev cpu CONFIG_TDP CONFIG_TDP_PBF_GET_CORE_MASK_INFO
      (u32 (info.PPCurrentLevel + (i <<< 8))) st with ⟨w, -, hw⟩ | ⟨-, hw⟩
    · rw [hw]
      dsimp only
      obtain ⟨xs, hlog, hreq⟩ := ih (i + 1)
        { info with BFCores := addMaskBits g i (u32 w) info.BFCores }
        (st.record ⟨.mbox (u32OfInt cpu) CONFIG_TDP CONFIG_TDP_PBF_GET_CORE_MASK_INFO
          (u32 (info.PPCurrentLevel + (i <<< 8))), some (u32 w)⟩)
      refine ⟨⟨.mbox (u32OfInt cpu) CONFIG_TDP CONFIG_TDP_PBF_GET_CORE_MASK_INFO
          (u32 (info.PPCurrentLevel + (i <<< 8))), some (u32 w)⟩ :: xs, ?_, ?_⟩
      · rw [hlog]
        simp [State.record]
      · intro j x hj
        cases j with
        | zero =>
          simp only [List.getElem?_cons_zero, Option.some.injEq] at hj
          subst hj
          rfl
        | succ j =>
          simp only [List.getElem?_cons_succ] at hj
          have := hreq j x hj
          have hij : i + (j + 1) = i + 1 + j := by omega
          rw [hij]
          exact this
    · rw [hw]
      refine ⟨[⟨.mbox (u32OfInt cpu) CONFIG_TDP CONFIG_TDP_PBF_GET_CORE_MASK_INFO
          (u32 (info.PPCurrentLevel + (i <<< 8))), none⟩], rfl, ?_⟩
      intro j x hj
      cases j with
      | zero =>
        simp only [List.getElem?_cons_zero, Option.some.injEq] at hj
        subst hj
        rfl
      | succ j => simp at hj

/-- The core-mask requests of the base-frequency phase, whatever its outcome: the one at
position `k` is the request of batch `k`. -/
theorem readBFInfo_reqs (dev : Device) (ids : List ID) (cpu : ID) (info : SstPackageInfo)
    (st : State) (k : Nat) (x : Exchange)
    (hk : (exchangesOf (Request.isMbox CONFIG_TDP CONFIG_TDP_PBF_GET_CORE_MASK_INFO)
      (issued st (readBFInfo dev ids cpu info st).2))[k]? = some x) :
    x.req = .mbox (u32OfInt cpu) CONFIG_TDP CONFIG_TDP_PBF_GET_CORE_MASK_INFO
      (u32 (info.PPCurrentLevel + (k <<< 8))) := by
  unfold readBFInfo at hk
  split at hk
  · have ht := punitCoreLoop_trace dev ids (fun _ => none) 0 st
    rcases hp : punitCoreLoop dev ids (fun _ => none) 0 st with ⟨⟨g, m, e⟩, sa⟩
    rw [hp] at hk ht
    dsimp only at ht
    have hnil := ht.exchangesOf_nil (Request.isMbox CONFIG_TDP CONFIG_TDP_PBF_GET_CORE_MASK_INFO)
      (fun q hq => isMbox_of_isPhyId hq _ _)
    cases e with
    | some err =>
      dsimp only at hk
      rw [hnil] at hk
      simp at hk
    | none =>
      dsimp only at hk
      obtain ⟨xs, hlog, hreq⟩ := coreMaskLoop_reqs dev cpu g
        (Int.toNat (Int.tdiv m 32 + 1)) 0 { info with BFCores := [] } sa
      have hiss : issued st (coreMaskLoop dev cpu g (Int.toNat (Int.tdiv m 32 + 1)) 0
          { info with BFCores := [] } sa).2 = issued st sa ++ xs := by
        apply issued_of_log
        rw [hlog, ht.log_eq, List.append_assoc]
      have hall : exchangesOf (Request.isMbox CONFIG_TDP CONFIG_TDP_PBF_GET_CORE_MASK_INFO) xs
          = xs := by
        unfold exchangesOf
        rw [List.filter_eq_self]
        intro y hy
        obtain ⟨j, hj⟩ := List.getElem?_of_mem hy
        rw [hreq j y hj]
        rfl
      rw [hiss, exchangesOf_append, hnil, List.nil_append, hall] at hk
      have := hreq k x hk
      rw [Nat.zero_add] at this
      exact this
  · rw [issued_self] at hk
    simp [exchangesOf] at hk

/-- The core-mask exchanges of any run of `getSstPackageInfo` are those of its base-frequency
phase, started with the PP level of the snapshot, a value below 256. -/
theorem getSstPackageInfo_coreMask {dev : Device} {pkg : cpuPackage} {st st1 : State}
    {info : SstPackageInfo} {e : Option SstError} {cpu : ID} {rest : List ID}
    (hrun : getSstPackageInfo dev pkg st = some ((info, e), st1))
    (hs : IDSet.SortedMembers pkg.cpus = cpu :: rest) :
    exchangesOf (Request.isMbox CONFIG_TDP CONFIG_TDP_PBF_GET_CORE_MASK_INFO) (issued st st1)
        = [] ∨
    ∃ info2 sb, info2.PPCurrentLevel = info.PPCurrentLevel ∧ info.PPCurrentLevel < 256 ∧
      exchangesOf (Request.isMbox CONFIG_TDP CONFIG_TDP_PBF_GET_CORE_MASK_INFO) (issued st st1)
        = exchangesOf (Request.isMbox CONFIG_TDP CONFIG_TDP_PBF_GET_CORE_MASK_INFO)
            (issued sb (readBFInfo dev (cpu :: rest) cpu info2 sb).2) := by
  rcases getSstPackageInfo_first hrun hs with ⟨-, h1⟩ | ⟨r, tail, hsend, -⟩
  · left
    rw [h1]
    rfl
  obtain ⟨-, -, hp3, -, -⟩ := getSstPackageInfo_pp hrun hs hsend
  have hlt : info.PPCurrentLevel < 256 := by
    rw [hp3]
    have := getBits_lt r 16 23 (by omega) (by omega)
    norm_num at this
    exact this
  obtain ⟨cpu1, rest1, hs1, h⟩ := getSstPackageInfo_inv hrun
  rw [hs] at hs1
  obtain ⟨rfl, rfl⟩ := List.cons.inj hs1
  rw [hsend] at h
  rcases h with ⟨r1, err, h1, -, -⟩ | ⟨r1, sa1, h1, h⟩
  · simp at h1
  simp only [Prod.mk.injEq, and_true, true_and] at h1
  obtain ⟨rfl, rfl⟩ := h1
  rcases h with ⟨-, -, -, rfl⟩ | ⟨-, info2, e2, sb, h2, h⟩
  · left
    rw [issued_record]
    rfl
  have t2 := readTDPControl_trace dev cpu (decodeLevelsInfo {} r)
    (st.record ⟨.mbox (u32OfInt cpu) CONFIG_TDP CONFIG_TDP_GET_LEVELS_INFO 0, some r⟩)
  rw [h2] at t2
  dsimp only at t2
  have n2 := t2.exchangesOf_nil (Request.isMbox CONFIG_TDP CONFIG_TDP_PBF_GET_CORE_MASK_INFO)
    (fun q hq => isMbox_excl hq (by decide))
  have hx0 : issued st sb =
      [⟨.mbox (u32OfInt cpu) CONFIG_TDP CONFIG_TDP_GET_LEVELS_INFO 0, some r⟩] ++
        issued (st.record ⟨.mbox (u32OfInt cpu) CONFIG_TDP CONFIG_TDP_GET_LEVELS_INFO 0,
          some r⟩) sb := by
    apply issued_of_log
    rw [t2.log_eq]
    simp [State.record]
  have nb : exchangesOf (Request.isMbox CONFIG_TDP CONFIG_TDP_PBF_GET_CORE_MASK_INFO)
      (issued st sb) = [] := by
    rw [hx0, exchangesOf_append, n2]
    rfl
  rcases h with ⟨-, -, -, rfl⟩ | ⟨-, info3, e3, sc, h3, h⟩
  · exact Or.inl nb
  right
  have f3 := readBFInfo_frame_of h3
  have t3 := readBFInfo_trace dev (cpu :: rest) cpu info2 sb
  rw [h3] at t3
  dsimp only at t3
  have hsc : issued st sc = issued st sb ++ issued sb sc := by
    apply issued_of_log
    rw [t3.log_eq, hx0, t2.log_eq]
    simp [State.record]
  rcases h with ⟨-, rfl, -, rfl⟩ | ⟨-, h4⟩
  · refine ⟨info2, sb, by rw [f3], hlt, ?_⟩
    rw [h3, hsc, exchangesOf_append, nb]
    rfl
  · have f4 := readCPInfo_frame_of h4
    refine ⟨info2, sb, by rw [f4, f3], hlt, ?_⟩
    rw [h3]
    apply exchangesOf_bf_only h2 h3 h4 _ rfl
    rintro q (hq | hq | hq | hq)
    · exact isMbox_excl hq (by decide)
    · exact isMbox_excl hq (by decide)
    · exact isMbox_excl hq (by decide)
    · exact isMbox_of_isMMIO hq _ _

/-! ## Claims -/

/-- C1: in a run without error with BFSupported true, started from a valid cache, a CPU `c` is
in BFCores exactly when it is a CPU of the package and, with `p = punitCPU(c) >> 1`, bit
`p mod 32` of the response to core-mask batch `p div 32` is set; so BFCores holds no CPU outside
the package. The core-mask batches are the PBF_GET_CORE_MASK_INFO exchanges of the run, in the
order issued. -/
theorem C1_bf_cores_from_core_masks (dev : Device) (pkg : cpuPackage) (st st1 : State)
    (info : SstPackageInfo) (c : ID) (hval : cacheValid st)
    (hrun : getSstPackageInfo dev pkg st = some ((info, none), st1))
    (hbf : info.BFSupported = true) :
    c ∈ info.BFCores ↔
      c ∈ pkg.cpus ∧ ∃ pc r, (punitCPU dev c st1).1 = (pc, none) ∧
        ((exchangesOf (Request.isMbox 0x7f 0x20) (issued st st1)).map (fun x => x.rsp))[
          Int.toNat (pc >>> (1 : Nat)) / 32]? = some (some r) ∧
        isBitSet r (Int.toNat (pc >>> (1 : Nat)) % 32) = true := by
  obtain ⟨cpu, rest, hs, -⟩ := getSstPackageInfo_inv hrun
  obtain ⟨m, rsps, hv1, hall, -, -, -, hex, hmem⟩ := getSstPackageInfo_bf hs hrun hbf hval
  have hex2 : exchangesOf (Request.isMbox 0x7f 0x20) (issued st st1)
      = coreMaskExchanges (u32OfInt cpu) info.PPCurrentLevel 0 rsps := hex
  rw [hmem, hex2, coreMaskExchanges_rsp]
  constructor
  · rintro ⟨hc, pc, j, r, b, hpc, hj, hb, hbit, hk⟩
    refine ⟨hc, pc, r, by rw [punitCPU_cached dev hpc], ?_, ?_⟩
    · rw [getElem?_map_some, hk]
      have : Int.toNat ((j * 32 + b : Nat) : Int) / 32 = j := by
        rw [Int.toNat_ofNat]
        omega
      rw [this]
      exact hj
    · rw [hk]
      have : Int.toNat ((j * 32 + b : Nat) : Int) % 32 = b := by
        rw [Int.toNat_ofNat]
        omega
      rw [this]
      exact hbit
  · rintro ⟨hc, pc, r, hpu, hget, hbit⟩
    obtain ⟨pc1, hpc1, -⟩ := hall c hc
    rw [punitCPU_cached dev hpc1] at hpu
    simp only [Prod.mk.injEq, and_true] at hpu
    subst hpu
    rw [getElem?_map_some] at hget
    have hnn : (0 : Int) ≤ pc1 >>> (1 : Nat) := by
      rw [Int.shiftRight_eq_div_pow]
      have h0 : (0 : Int) ≤ pc1 := (hv1 c pc1 hpc1).1
      norm_num
      omega
    refine ⟨hc, pc1, Int.toNat (pc1 >>> (1 : Nat)) / 32, r, Int.toNat (pc1 >>> (1 : Nat)) % 32, hpc1, hget,
      Nat.mod_lt _ (by norm_num), hbit, ?_⟩
    have h1 : Int.toNat (pc1 >>> (1 : Nat)) / 32 * 32 + Int.toNat (pc1 >>> (1 : Nat)) % 32
        = Int.toNat (pc1 >>> (1 : Nat)) := by omega
    rw [h1, Int.toNat_of_nonneg hnn]

/-- C1 on `sampleDevice`: CPU 7 (PUNIT id 64, pair 32) is in BFCores by bit 0 of batch 1. -/
theorem C1_witness :
    (7 : ID) ∈ sampleInfo.BFCores ↔
      (7 : ID) ∈ (⟨[2, 7, 0]⟩ : cpuPackage).cpus ∧
      ∃ pc r, (punitCPU sampleDevice 7 sampleState).1 = (pc, none) ∧
        ((exchangesOf (Request.isMbox 0x7f 0x20) (issued emptyState sampleState)).map
          (fun x => x.rsp))[Int.toNat (pc >>> (1 : Nat)) / 32]? = some (some r) ∧
        isBitSet r (Int.toNat (pc >>> (1 : Nat)) % 32) = true :=
  C1_bf_cores_from_core_masks sampleDevice ⟨[2, 7, 0]⟩ emptyState sampleState sampleInfo 7
    (fun _ _ h => by cases h) sample_run rfl

/-- C2: in a run without error with BFSupported true, started from a valid cache, with
`maxPair` the largest `punitCPU(c) >> 1` over the CPUs of the package, the
PBF_GET_CORE_MASK_INFO exchanges issued are those of the batches 0, 1, ... in increasing order,
`ceil((maxPair + 1) / 32)` of them; with `maxPair = 32` there are two, and bit 0 of the response
to batch 1 decides whether the CPUs of pair index 32 are in BFCores. -/
theorem C2_core_mask_batch_count (dev : Device) (pkg : cpuPackage) (st st1 : State)
    (info : SstPackageInfo) (cpu : ID) (rest : List ID) (maxPair : Nat)
    (hs : IDSet.SortedMembers pkg.cpus = cpu :: rest) (hval : cacheValid st)
    (hrun : getSstPackageInfo dev pkg st = some ((info, none), st1))
    (hbf : info.BFSupported = true)
    (hle : ∀ c ∈ pkg.cpus, ∀ pc, (punitCPU dev c st1).1 = (pc, none) →
      pc >>> (1 : Nat) ≤ (maxPair : Int))
    (hmax : ∃ c ∈ pkg.cpus, ∃ pc, (punitCPU dev c st1).1 = (pc, none) ∧
      pc >>> (1 : Nat) = (maxPair : Int)) :
    (exchangesOf (Request.isMbox 0x7f 0x20) (issued st st1)).map (fun x => x.req) =
      (List.range ((maxPair + 1 + 31) / 32)).map (fun k =>
        Request.mbox (u32OfInt cpu) 0x7f 0x20 (u32 (info.PPCurrentLevel + (k <<< 8)))) ∧
    (exchangesOf (Request.isMbox 0x7f 0x20) (issued st st1)).length = (maxPair + 1 + 31) / 32 ∧
    (maxPair = 32 →
      (exchangesOf (Request.isMbox 0x7f 0x20) (issued st st1)).length = 2 ∧
      ∀ c ∈ pkg.cpus, ∀ pc, (punitCPU dev c st1).1 = (pc, none) → pc >>> (1 : Nat) = 32 →
        (c ∈ info.BFCores ↔ ∃ r,
          ((exchangesOf (Request.isMbox 0x7f 0x20) (issued st st1)).map (fun x => x.rsp))[1]?
            = some (some r) ∧ isBitSet r 0 = true)) := by
  obtain ⟨m, rsps, hv1, hall, hm0, hm, hlen, hex, hmem⟩ := getSstPackageInfo_bf hs hrun hbf hval
  have hex2 : exchangesOf (Request.isMbox 0x7f 0x20) (issued st st1)
      = coreMaskExchanges (u32OfInt cpu) info.PPCurrentLevel 0 rsps := hex
  have hcached : ∀ c ∈ pkg.cpus, ∀ pc, (punitCPU dev c st1).1 = (pc, none) →
      st1.cpuMap c = some pc := by
    intro c hc pc hpu
    obtain ⟨pc1, hpc1, -⟩ := hall c hc
    rw [punitCPU_cached dev hpc1] at hpu
    simp only [Prod.mk.injEq, and_true] at hpu
    subst hpu
    exact hpc1
  have hmeq : m = (maxPair : Int) := by
    apply le_antisymm
    · rcases hm with h0 | ⟨c, hc, pc, hpc, hk⟩
      · rw [h0]
        exact Int.ofNat_nonneg _
      · rw [← hk]
        exact hle c hc pc (by rw [punitCPU_cached dev hpc])
    · obtain ⟨c, hc, pc, hpu, hk⟩ := hmax
      obtain ⟨pc1, hpc1, hle1⟩ := hall c hc
      have := hcached c hc pc hpu
      rw [hpc1] at this
      obtain rfl := Option.some.inj this
      rw [← hk]
      exact hle1
  have hcount : rsps.length = (maxPair + 1 + 31) / 32 := by
    rw [hlen, hmeq, Int.tdiv_eq_ediv (Int.ofNat_nonneg _) (by norm_num)]
    omega
  have hlen2 : (exchangesOf (Request.isMbox 0x7f 0x20) (issued st st1)).length
      = (maxPair + 1 + 31) / 32 := by
    rw [← hcount, ← List.length_map _ (fun x => x.rsp), hex2, coreMaskExchanges_rsp,
      List.length_map]
  refine ⟨?_, hlen2, fun h32 => ⟨?_, ?_⟩⟩
  · rw [hex2, coreMaskExchanges_req, hcount, List.range_eq_range']
    rfl
  · rw [hlen2, h32]
  · intro c hc pc hpu hk
    have hpc := hcached c hc pc hpu
    rw [hmem, hex2, coreMaskExchanges_rsp]
    constructor
    · rintro ⟨-, pc1, j, r, b, hpc1, hj, hb, hbit, hk1⟩
      rw [hpc] at hpc1
      obtain rfl := Option.some.inj hpc1
      rw [hk] at hk1
      have hjb : j = 1 ∧ b = 0 := by omega
      obtain ⟨rfl, rfl⟩ := hjb
      exact ⟨r, (getElem?_map_some _ _ _).2 hj, hbit⟩
    · rintro ⟨r, hget, hbit⟩
      exact ⟨hc, pc, 1, r, 0, hpc, (getElem?_map_some _ _ _).1 hget, by norm_num, hbit,
        by rw [hk]; rfl⟩

/-- C2 on `sampleDevice`: CPUs 0, 2, 7 on PUNIT ids 0, 4, 64, so `maxPair = 32` and two
batches. -/
theorem C2_witness :
    (exchangesOf (Request.isMbox 0x7f 0x20) (issued emptyState sampleState)).map
        (fun x => x.req) =
      (List.range ((32 + 1 + 31) / 32)).map (fun k =>
        Request.mbox (u32OfInt 0) 0x7f 0x20 (u32 (sampleInfo.PPCurrentLevel + (k <<< 8)))) ∧
    (exchangesOf (Request.isMbox 0x7f 0x20) (issued emptyState sampleState)).length
      = (32 + 1 + 31) / 32 ∧
    (32 = 32 →
      (exchangesOf (Request.isMbox 0x7f 0x20) (issued emptyState sampleState)).length = 2 ∧
      ∀ c ∈ (⟨[2, 7, 0]⟩ : cpuPackage).cpus, ∀ pc,
        (punitCPU sampleDevice c sampleState).1 = (pc, none) → pc >>> (1 : Nat) = 32 →
        (c ∈ sampleInfo.BFCores ↔ ∃ r,
          ((exchangesOf (Request.isMbox 0x7f 0x20) (issued emptyState sampleState)).map
            (fun x => x.rsp))[1]? = some (some r) ∧ isBitSet r 0 = true)) :=
  C2_core_mask_batch_count sampleDevice ⟨[2, 7, 0]⟩ emptyState sampleState sampleInfo 0
    [2, 7] 32 (by decide) (fun _ _ h => by cases h) sample_run rfl
    (by
      intro c hc pc hpu
      simp only [List.mem_cons, List.mem_singleton, List.not_mem_nil, or_false] at hc
      rcases hc with rfl | rfl | rfl
      · have : (punitCPU sampleDevice 2 sampleState).1 = (4, none) := rfl
        rw [this] at hpu
        obtain rfl := (Prod.mk.inj hpu).1
        decide
      · have : (punitCPU sampleDevice 7 sampleState).1 = (64, none) := rfl
        rw [this] at hpu
        obtain rfl := (Prod.mk.inj hpu).1
        decide
      · have : (punitCPU sampleDevice 0 sampleState).1 = (0, none) := rfl
        rw [this] at hpu
        obtain rfl := (Prod.mk.inj hpu).1
        decide)
    ⟨7, by decide, 64, rfl, by decide⟩

/-- C3: when bits 0-7 of the PP levels word are below 3, `getSstPackageInfo` returns without
error after exactly one exchange, the mailbox command (CONFIG_TDP = 0x7f, GET_LEVELS_INFO = 0x00,
data 0); the CP, BF and TF flags are false, the priority is Proportional, `BFCores` is empty and
the four `ClosInfo` entries are zero. -/
theorem C3_version_below_3_short_circuit (dev : Device) (pkg : cpuPackage) (st : State)
    (cpu : ID) (rest : List ID) (w : Nat)
    (hs : IDSet.SortedMembers pkg.cpus = cpu :: rest)
    (hw : dev st.log (.mbox (u32OfInt cpu) 0x7f 0x00 0) = some w)
    (hv : u32 w % 256 < 3) :
    ∃ info st1, getSstPackageInfo dev pkg st = some ((info, none), st1) ∧
      issued st st1 = [⟨.mbox (u32OfInt cpu) 0x7f 0x00 0, some (u32 w)⟩] ∧
      st1.cpuMap = st.cpuMap ∧
      info.CPSupported = false ∧ info.CPEnabled = false ∧
      info.BFSupported = false ∧ info.BFEnabled = false ∧
      info.TFSupported = false ∧ info.TFEnabled = false ∧
      info.CPPriority = Proportional ∧ info.BFCores = [] ∧
      info.ClosInfo = [⟨0, 0, 0, 0, 0⟩, ⟨0, 0, 0, 0, 0⟩, ⟨0, 0, 0, 0, 0⟩, ⟨0, 0, 0, 0, 0⟩] := by
  rcases sendMboxCmd_cases dev cpu CONFIG_TDP CONFIG_TDP_GET_LEVELS_INFO 0 st
    with ⟨w1, hw1, h⟩ | ⟨hw1, -⟩
  · have hww : w1 = w := by
      have : some w1 = some w := by rw [← hw1, ← hw]; rfl
      exact Option.some.inj this
    subst hww
    have hver : getBits (u32 w1) 0 7 < 3 := by
      rw [getBits_eq _ _ _ (by omega) (by omega)]
      simpa using hv
    refine ⟨decodeLevelsInfo {} (u32 w1),
      st.record ⟨.mbox (u32OfInt cpu) 0x7f 0x00 0, some (u32 w1)⟩, ?_, issued_record _ _, rfl,
      rfl, rfl, rfl, rfl, rfl, rfl, rfl, rfl, rfl⟩
    unfold getSstPackageInfo
    rw [hs]
    dsimp only
    rw [h]
    dsimp only
    have hv2 : (decodeLevelsInfo {} (u32 w1)).PPVersion < 3 := hver
    rw [if_pos hv2]
    rfl
  · exfalso
    have : (none : Option Nat) = some w := by rw [← hw1, ← hw]; rfl
    cases this

/-- C3 at a device answering 2 (version 2): one exchange, default snapshot but for the version. -/
theorem C3_witness :
    ∃ info st1, getSstPackageInfo (constDevice 2) ⟨[4, 1]⟩ emptyState = some ((info, none), st1) ∧
      issued emptyState st1 = [⟨.mbox (u32OfInt 1) 0x7f 0x00 0, some (u32 2)⟩] ∧
      st1.cpuMap = emptyState.cpuMap ∧
      info.CPSupported = false ∧ info.CPEnabled = false ∧
      info.BFSupported = false ∧ info.BFEnabled = false ∧
      info.TFSupported = false ∧ info.TFEnabled = false ∧
      info.CPPriority = Proportional ∧ info.BFCores = [] ∧
      info.ClosInfo = [⟨0, 0, 0, 0, 0⟩, ⟨0, 0, 0, 0, 0⟩, ⟨0, 0, 0, 0, 0⟩, ⟨0, 0, 0, 0, 0⟩] :=
  C3_version_below_3_short_circuit (constDevice 2) ⟨[4, 1]⟩ emptyState 1 [4] 2
    (by decide) rfl (by decide)

/-- C4: PP levels round trip. If the GET_LEVELS_INFO response has bit 31 = s, bit 24 = l,
bits 16-23 = cur, bits 8-15 = mx, bits 0-7 = ver (bits 25-30 hold any value u), then
`getSstPackageInfo` returns, and whatever else happens the snapshot it returns has
PPSupported = (s = 1), PPLocked = (l = 1), PPCurrentLevel = cur, PPMaxLevel = mx, PPVersion = ver. -/
theorem C4_pp_levels_round_trip (dev : Device) (pkg : cpuPackage) (st : State)
    (cpu : ID) (rest : List ID) (s l cur mx ver u : Nat)
    (hsb : s < 2) (hl : l < 2) (hcur : cur < 256) (hmx : mx < 256) (hver : ver < 256)
    (hu : u < 64)
    (hs : IDSet.SortedMembers pkg.cpus = cpu :: rest)
    (hw : dev st.log (.mbox (u32OfInt cpu) 0x7f 0x00 0) =
      some (s * 2 ^ 31 + u * 2 ^ 25 + l * 2 ^ 24 + cur * 2 ^ 16 + mx * 2 ^ 8 + ver)) :
    ∃ info e st1, getSstPackageInfo dev pkg st = some ((info, e), st1) ∧
      info.PPSupported = decide (s = 1) ∧ info.PPLocked = decide (l = 1) ∧
      info.PPCurrentLevel = cur ∧ info.PPMaxLevel = mx ∧ info.PPVersion = ver := by
  have hne : pkg.cpus ≠ [] := by
    intro hn
    rw [hn] at hs
    cases hs
  obtain ⟨info, e, st1, hrun⟩ := getSstPackageInfo_returns dev pkg st hne
  refine ⟨info, e, st1, hrun, ?_⟩
  rcases sendMboxCmd_cases dev cpu CONFIG_TDP CONFIG_TDP_GET_LEVELS_INFO 0 st
    with ⟨w1, hw1, h⟩ | ⟨hw1, -⟩
  · have hww : w1 = s * 2 ^ 31 + u * 2 ^ 25 + l * 2 ^ 24 + cur * 2 ^ 16 + mx * 2 ^ 8 + ver := by
      have : some w1 = some (s * 2 ^ 31 + u * 2 ^ 25 + l * 2 ^ 24 + cur * 2 ^ 16 + mx * 2 ^ 8 + ver) := by
        rw [← hw1, ← hw]; rfl
      exact Option.some.inj this
    have hlt : w1 < 2 ^ 32 := by
      rw [hww]
      norm_num
      omega
    rw [u32_of_lt hlt] at h
    obtain ⟨h1, h2, h3, h4, h5⟩ := getSstPackageInfo_pp hrun hs h
    rw [h1, h2, h3, h4, h5]
    rw [getBits_eq _ _ _ (by omega) (by omega), getBits_eq _ _ _ (by omega) (by omega),
      getBits_eq _ _ _ (by omega) (by omega), getBits_eq _ _ _ (by omega) (by omega),
      getBits_eq _ _ _ (by omega) (by omega), hww]
    norm_num
    refine ⟨?_, ?_, ?_, ?_, ?_⟩
    · have : (s * 2147483648 + u * 33554432 + l * 16777216 + cur * 65536 + mx * 256 + ver)
          / 2147483648 % 2 = s := by omega
      rw [this]
      rcases Nat.lt_or_ge s 1 with h0 | h0
      · have : s = 0 := by omega
        subst this; rfl
      · have : s = 1 := by omega
        subst this; rfl
    · have : (s * 2147483648 + u * 33554432 + l * 16777216 + cur * 65536 + mx * 256 + ver)
          / 16777216 % 2 = l := by omega
      rw [this]
      rcases Nat.lt_or_ge l 1 with h0 | h0
      · have : l = 0 := by omega
        subst this; rfl
      · have : l = 1 := by omega
        subst this; rfl
    · omega
    · omega
    · omega
  · exfalso
    have : (none : Option Nat) =
        some (s * 2 ^ 31 + u * 2 ^ 25 + l * 2 ^ 24 + cur * 2 ^ 16 + mx * 2 ^ 8 + ver) := by
      rw [← hw1, ← hw]; rfl
    cases this

/-- C4 at the word with bit 31 = 1, bit 24 = 0, current level 5, max level 10, version 3. -/
theorem C4_witness :
    ∃ info e st1,
      getSstPackageInfo (constDevice (2 ^ 31 + 5 * 2 ^ 16 + 10 * 2 ^ 8 + 3)) ⟨[0]⟩ emptyState
        = some ((info, e), st1) ∧
      info.PPSupported = decide (1 = 1) ∧ info.PPLocked = decide (0 = 1) ∧
      info.PPCurrentLevel = 5 ∧ info.PPMaxLevel = 10 ∧ info.PPVersion = 3 :=
  C4_pp_levels_round_trip (constDevice (2 ^ 31 + 5 * 2 ^ 16 + 10 * 2 ^ 8 + 3)) ⟨[0]⟩ emptyState
    0 [] 1 0 5 10 3 0 (by decide) (by decide) (by decide) (by decide) (by decide) (by decide)
    (by decide) rfl

/-- C5: in a run without error in which the PM_FEATURE response `r0` has bit 0 set, whatever
its bit 16 is: the snapshot has PPVersion >= 3 and CPSupported true, the run issued one
PM_FEATURE command and one CLOS PM_QOS_CONFIG command (CONFIG_CLOS = 0xd0, sub-command 0x02,
data 0), and with `r` the response to the latter, CPEnabled is bit 1 of `r` and CPPriority is
Proportional when bit 2 of `r` is 0 and Ordered when it is 1. -/
theorem C5_qos_config_decides_cp_enabled (dev : Device) (pkg : cpuPackage) (st st1 : State)
    (info : SstPackageInfo) (cpu : ID) (rest : List ID) (x : Exchange) (r0 : Nat)
    (hs : IDSet.SortedMembers pkg.cpus = cpu :: rest)
    (hrun : getSstPackageInfo dev pkg st = some ((info, none), st1))
    (hx : x ∈ issued st st1) (hreq : x.req.isMbox 0x94 0x03 = true)
    (hrsp : x.rsp = some r0) (hb0 : isBitSet r0 0 = true) :
    3 ≤ info.PPVersion ∧ info.CPSupported = true ∧
    exchangesOf (Request.isMbox 0x94 0x03) (issued st st1)
      = [⟨.mbox (u32OfInt cpu) 0x94 0x03 0, some r0⟩] ∧
    ∃ r,
      exchangesOf (Request.isMbox 0xd0 0x02) (issued st st1)
        = [⟨.mbox (u32OfInt cpu) 0xd0 0x02 0, some r⟩] ∧
      info.CPEnabled = isBitSet r 1 ∧
      (isBitSet r 2 = false → info.CPPriority = Proportional) ∧
      (isBitSet r 2 = true → info.CPPriority = Ordered) := by
  have hxf : x ∈ exchangesOf (Request.isMbox 0x94 0x03) (issued st st1) := by
    unfold exchangesOf
    exact List.mem_filter.2 ⟨hx, hreq⟩
  obtain ⟨r1, h0, h⟩ := getSstPackageInfo_ok_inv hrun hs
  rcases h with ⟨-, -, rfl⟩ | ⟨hv, info2, sb, info3, sc, h2, h3, h4⟩
  · exfalso
    rw [issued_record, List.mem_singleton] at hx
    subst hx
    cases hreq
  have hver : 3 ≤ info.PPVersion := by
    rw [(getSstPackageInfo_pp hrun hs h0).2.2.2.2]
    exact hv
  have hpm : exchangesOf (Request.isMbox 0x94 0x03) (issued st st1)
      = exchangesOf (Request.isMbox 0x94 0x03) (issued sc st1) := by
    apply exchangesOf_cp_only h2 h3 h4 _ rfl
    rintro q (hq | hq | hq)
    · exact isMbox_excl hq (by decide)
    · exact isMbox_of_isPhyId hq _ _
    · exact isMbox_excl hq (by decide)
  obtain ⟨r0a, hcase⟩ := readCPInfo_ok h4
  rcases hcase with ⟨hba, hlog, -⟩ | ⟨-, r, w0, w1, w2, w3, hlog, hinfo⟩
  · exfalso
    have hl : exchangesOf (Request.isMbox 0x94 0x03) (issued sc st1)
        = [⟨.mbox (u32OfInt cpu) 0x94 0x03 0, some r0a⟩] := by
      rw [issued_of_log hlog]
      rfl
    rw [hpm, hl, List.mem_singleton] at hxf
    subst hxf
    obtain rfl := Option.some.inj hrsp
    rw [hb0] at hba
    cases hba
  have hl : exchangesOf (Request.isMbox 0x94 0x03) (issued sc st1)
      = [⟨.mbox (u32OfInt cpu) 0x94 0x03 0, some r0a⟩] := by
    rw [issued_of_log hlog]
    rfl
  have hr0 : r0a = r0 := by
    rw [hpm, hl, List.mem_singleton] at hxf
    subst hxf
    exact Option.some.inj hrsp
  subst hr0
  refine ⟨hver, by rw [hinfo], by rw [hpm, hl], r, ?_, by rw [hinfo], ?_, ?_⟩
  · rw [exchangesOf_cp_only h2 h3 h4 _ rfl, issued_of_log hlog]
    · rfl
    · rintro q (hq | hq | hq)
      · exact isMbox_excl hq (by decide)
      · exact isMbox_of_isPhyId hq _ _
      · exact isMbox_excl hq (by decide)
  · intro hb
    rw [hinfo]
    show getBits r 2 2 = 0
    rw [isBitSet_eq _ _ (by omega)] at hb
    rw [getBits_eq _ _ _ (by omega) (by omega)]
    simp only [decide_eq_false_iff_not] at hb
    norm_num at hb ⊢
    omega
  · intro hb
    rw [hinfo]
    show getBits r 2 2 = 1
    rw [isBitSet_eq _ _ (by omega)] at hb
    rw [getBits_eq _ _ _ (by omega) (by omega)]
    simp only [decide_eq_true_eq] at hb
    norm_num at hb ⊢
    omega

/-- C5 on `sampleDevice`: the PM_FEATURE response 0x10001 has bit 0 set and reports CP enabled
(bit 16), the QoS configuration does not (bit 1), and CPEnabled of the snapshot is false. -/
theorem C5_witness :
    isBitSet 0x10001 16 = true ∧
    sampleInfo.CPEnabled = false ∧
    3 ≤ sampleInfo.PPVersion ∧ sampleInfo.CPSupported = true ∧
    exchangesOf (Request.isMbox 0x94 0x03) (issued emptyState sampleState)
      = [⟨.mbox (u32OfInt 0) 0x94 0x03 0, some 0x10001⟩] ∧
    ∃ r,
      exchangesOf (Request.isMbox 0xd0 0x02) (issued emptyState sampleState)
        = [⟨.mbox (u32OfInt 0) 0xd0 0x02 0, some r⟩] ∧
      sampleInfo.CPEnabled = isBitSet r 1 ∧
      (isBitSet r 2 = false → sampleInfo.CPPriority = Proportional) ∧
      (isBitSet r 2 = true → sampleInfo.CPPriority = Ordered) :=
  ⟨by decide, rfl,
    C5_qos_config_decides_cp_enabled sampleDevice ⟨[2, 7, 0]⟩ emptyState sampleState
      sampleInfo 0 [2, 7] ⟨.mbox 0 0x94 0x03 0, some 0x10001⟩ 0x10001 (by decide) sample_run
      (by decide) rfl rfl (by decide)⟩

/-- C6: in a run without error, when CPSupported is set the MMIO reads issued are exactly four,
at register offsets 0x08, 0x0c, 0x10, 0x14 in that order, and for the word `w` read at slot `i`
the entry `ClosInfo[i]` holds EPP = bits 0-3, ProportionalPriority = bits 4-7,
MinFreq = bits 8-15, MaxFreq = bits 16-23, DesiredFreq = bits 24-31 of `w`; when CPSupported is
not set, no MMIO read is issued and the four entries are zero. -/
theorem C6_clos_info_decoding (dev : Device) (pkg : cpuPackage) (st st1 : State)
    (info : SstPackageInfo) (cpu : ID) (rest : List ID)
    (hs : IDSet.SortedMembers pkg.cpus = cpu :: rest)
    (hrun : getSstPackageInfo dev pkg st = some ((info, none), st1)) :
    (info.CPSupported = true → ∃ w0 w1 w2 w3,
      exchangesOf Request.isMMIO (issued st st1) =
        [⟨.mmioRead (u32OfInt cpu) 0x08, some w0⟩, ⟨.mmioRead (u32OfInt cpu) 0x0c, some w1⟩,
         ⟨.mmioRead (u32OfInt cpu) 0x10, some w2⟩, ⟨.mmioRead (u32OfInt cpu) 0x14, some w3⟩] ∧
      info.ClosInfo =
        [⟨w0 % 16, w0 / 16 % 16, w0 / 256 % 256, w0 / 65536 % 256, w0 / 16777216 % 256⟩,
         ⟨w1 % 16, w1 / 16 % 16, w1 / 256 % 256, w1 / 65536 % 256, w1 / 16777216 % 256⟩,
         ⟨w2 % 16, w2 / 16 % 16, w2 / 256 % 256, w2 / 65536 % 256, w2 / 16777216 % 256⟩,
         ⟨w3 % 16, w3 / 16 % 16, w3 / 256 % 256, w3 / 65536 % 256, w3 / 16777216 % 256⟩]) ∧
    (info.CPSupported = false →
      exchangesOf Request.isMMIO (issued st st1) = [] ∧
      info.ClosInfo = [⟨0, 0, 0, 0, 0⟩, ⟨0, 0, 0, 0, 0⟩, ⟨0, 0, 0, 0, 0⟩, ⟨0, 0, 0, 0, 0⟩]) := by
  have hdec : ∀ w, decodeClos w =
      ⟨w % 16, w / 16 % 16, w / 256 % 256, w / 65536 % 256, w / 16777216 % 256⟩ := by
    intro w
    unfold decodeClos
    rw [getBits_eq _ _ _ (by omega) (by omega), getBits_eq _ _ _ (by omega) (by omega),
      getBits_eq _ _ _ (by omega) (by omega), getBits_eq _ _ _ (by omega) (by omega),
      getBits_eq _ _ _ (by omega) (by omega)]
    norm_num
  obtain ⟨r1, h0, h⟩ := getSstPackageInfo_ok_inv hrun hs
  rcases h with ⟨-, rfl, rfl⟩ | ⟨-, info2, sb, info3, sc, h2, h3, h4⟩
  · refine ⟨fun hcp => (by cases hcp), fun _ => ⟨?_, rfl⟩⟩
    rw [issued_record]
    rfl
  have hmm : exchangesOf Request.isMMIO (issued st st1)
      = exchangesOf Request.isMMIO (issued sc st1) := by
    apply exchangesOf_cp_only h2 h3 h4 _ rfl
    rintro q (hq | hq | hq)
    · exact isMMIO_of_isMbox hq
    · exact isMMIO_of_isPhyId hq
    · exact isMMIO_of_isMbox hq
  have hclos : info3.ClosInfo = List.replicate NumClos {} := by
    rw [readBFInfo_frame_of h3, readTDPControl_frame_of h2]
    rfl
  obtain ⟨r0, hcase⟩ := readCPInfo_ok h4
  rcases hcase with ⟨-, hlog, rfl⟩ | ⟨hb0, r, w0, w1, w2, w3, hlog, rfl⟩
  · refine ⟨fun hcp => (by cases hcp), fun _ => ⟨?_, ?_⟩⟩
    · rw [hmm, issued_of_log hlog]
      rfl
    · show info3.ClosInfo = _
      rw [hclos]
      rfl
  · refine ⟨fun _ => ⟨w0, w1, w2, w3, ?_, ?_⟩, fun hcp => (by cases hcp)⟩
    · rw [hmm, issued_of_log hlog]
      rfl
    · show (((info3.ClosInfo.set 0 (decodeClos w0)).set 1 (decodeClos w1)).set 2
        (decodeClos w2)).set 3 (decodeClos w3) = _
      rw [hclos, hdec, hdec, hdec, hdec]
      rfl

/-- C6 on `sampleDevice`, where CP is supported and the four CLOS words are read. -/
theorem C6_witness :
    sampleInfo.CPSupported = true ∧
    ((sampleInfo.CPSupported = true → ∃ w0 w1 w2 w3,
      exchangesOf Request.isMMIO (issued emptyState sampleState) =
        [⟨.mmioRead (u32OfInt 0) 0x08, some w0⟩, ⟨.mmioRead (u32OfInt 0) 0x0c, some w1⟩,
         ⟨.mmioRead (u32OfInt 0) 0x10, some w2⟩, ⟨.mmioRead (u32OfInt 0) 0x14, some w3⟩] ∧
      sampleInfo.ClosInfo =
        [⟨w0 % 16, w0 / 16 % 16, w0 / 256 % 256, w0 / 65536 % 256, w0 / 16777216 % 256⟩,
         ⟨w1 % 16, w1 / 16 % 16, w1 / 256 % 256, w1 / 65536 % 256, w1 / 16777216 % 256⟩,
         ⟨w2 % 16, w2 / 16 % 16, w2 / 256 % 256, w2 / 65536 % 256, w2 / 16777216 % 256⟩,
         ⟨w3 % 16, w3 / 16 % 16, w3 / 256 % 256, w3 / 65536 % 256, w3 / 16777216 % 256⟩]) ∧
    (sampleInfo.CPSupported = false →
      exchangesOf Request.isMMIO (issued emptyState sampleState) = [] ∧
      sampleInfo.ClosInfo =
        [⟨0, 0, 0, 0, 0⟩, ⟨0, 0, 0, 0, 0⟩, ⟨0, 0, 0, 0, 0⟩, ⟨0, 0, 0, 0, 0⟩])) :=
  ⟨rfl, C6_clos_info_decoding sampleDevice ⟨[2, 7, 0]⟩ emptyState sampleState
    sampleInfo 0 [2, 7] (by decide) sample_run⟩

/-- C7: in any run of `getSstPackageInfo`, when the snapshot has PPVersion >= 3 and PPSupported,
the second exchange is the mailbox command (CONFIG_TDP = 0x7f, GET_TDP_CONTROL = 0x01) with
request data PPCurrentLevel, and from its response `r`: BFSupported = bit 1, BFEnabled = bit 17,
TFSupported = bit 0, TFEnabled = bit 16; when PPSupported is false that command is not issued
and the four flags are false. -/
theorem C7_tdp_control_decoding (dev : Device) (pkg : cpuPackage) (st st1 : State)
    (info : SstPackageInfo) (e : Option SstError) (cpu : ID) (rest : List ID)
    (hs : IDSet.SortedMembers pkg.cpus = cpu :: rest)
    (hrun : getSstPackageInfo dev pkg st = some ((info, e), st1)) :
    (3 ≤ info.PPVersion → info.PPSupported = true →
      ∃ x0 x tail, issued st st1 = x0 :: x :: tail ∧
        x.req = .mbox (u32OfInt cpu) 0x7f 0x01 info.PPCurrentLevel ∧
        ∀ r, x.rsp = some r →
          info.BFSupported = isBitSet r 1 ∧ info.BFEnabled = isBitSet r 17 ∧
          info.TFSupported = isBitSet r 0 ∧ info.TFEnabled = isBitSet r 16) ∧
    (info.PPSupported = false →
      exchangesOf (Request.isMbox 0x7f 0x01) (issued st st1) = [] ∧
      info.BFSupported = false ∧ info.BFEnabled = false ∧
      info.TFSupported = false ∧ info.TFEnabled = false) := by
  obtain ⟨cpu1, rest1, hs1, h⟩ := getSstPackageInfo_inv hrun
  rw [hs] at hs1
  obtain ⟨rfl, rfl⟩ := List.cons.inj hs1
  rcases sendMboxCmd_cases dev cpu CONFIG_TDP CONFIG_TDP_GET_LEVELS_INFO 0 st
    with ⟨w, -, hw⟩ | ⟨-, hw⟩
  swap
  · -- the PP levels query failed
    rw [hw] at h
    rcases h with ⟨r1, err, h1, rfl, -⟩ | ⟨r1, sa1, h1, -⟩
    · simp only [Prod.mk.injEq, true_and] at h1
      obtain ⟨-, rfl⟩ := h1
      refine ⟨fun hv => absurd hv (by decide), fun _ => ⟨?_, rfl, rfl, rfl, rfl⟩⟩
      rw [issued_record]
      rfl
    · simp at h1
  rw [hw] at h
  rcases h with ⟨r1, err, h1, -, -⟩ | ⟨r1, sa1, h1, h⟩
  · simp at h1
  simp only [Prod.mk.injEq, and_true, true_and] at h1
  obtain ⟨rfl, rfl⟩ := h1
  rcases h with ⟨hv, rfl, -, rfl⟩ | ⟨-, info2, e2, sb, h2, h⟩
  · -- version below 3
    refine ⟨fun hv3 => absurd hv (Nat.not_lt.2 hv3), fun _ => ⟨?_, rfl, rfl, rfl, rfl⟩⟩
    rw [issued_record]
    rfl
  obtain ⟨⟨e1, ht⟩, hf1, hf2, hf3, hf4⟩ := getSstPackageInfo_after_tdp h
  obtain ⟨hp1, -, hp3, -, -⟩ := getSstPackageInfo_pp hrun hs hw
  have hlog := ht.log_eq
  have hnil := ht.exchangesOf_nil (Request.isMbox 0x7f 0x01) (by
    rintro q (hq | hq | hq | hq | hq)
    · exact isMbox_of_isPhyId hq _ _
    · exact isMbox_excl hq (by decide)
    · exact isMbox_excl hq (by decide)
    · exact isMbox_excl hq (by decide)
    · exact isMbox_of_isMMIO hq _ _)
  have hcur : u32 (getBits (u32 w) 16 23) = getBits (u32 w) 16 23 := by
    apply u32_of_lt
    have := getBits_lt (u32 w) 16 23 (by omega) (by omega)
    norm_num at this ⊢
    omega
  rcases readTDPControl_spec dev cpu (decodeLevelsInfo {} (u32 w))
      (st.record ⟨.mbox (u32OfInt cpu) CONFIG_TDP CONFIG_TDP_GET_LEVELS_INFO 0, some (u32 w)⟩)
    with ⟨hD, hT⟩ | ⟨hD, ⟨r, hT⟩ | ⟨err, hT⟩⟩
  · -- PP not supported: no TDP control command
    rw [hT] at h2
    simp only [Prod.mk.injEq] at h2
    obtain ⟨⟨rfl, rfl⟩, rfl⟩ := h2
    have hD2 : (getBits (u32 w) 31 31 != 0) = false := hD
    refine ⟨fun _ hpp => ?_, fun _ => ⟨?_, ?_, ?_, ?_, ?_⟩⟩
    · rw [hp1, hD2] at hpp
      cases hpp
    · have : issued st st1 =
          [⟨.mbox (u32OfInt cpu) CONFIG_TDP CONFIG_TDP_GET_LEVELS_INFO 0, some (u32 w)⟩]
            ++ issued (st.record ⟨.mbox (u32OfInt cpu) CONFIG_TDP CONFIG_TDP_GET_LEVELS_INFO 0,
              some (u32 w)⟩) st1 := by
        apply issued_of_log
        rw [hlog]
        simp [State.record]
      rw [this, exchangesOf_append, hnil]
      rfl
    · rw [hf1]; rfl
    · rw [hf2]; rfl
    · rw [hf3]; rfl
    · rw [hf4]; rfl
  · -- the TDP control command succeeded
    rw [hT] at h2
    simp only [Prod.mk.injEq] at h2
    obtain ⟨⟨rfl, rfl⟩, rfl⟩ := h2
    have hD2 : (getBits (u32 w) 31 31 != 0) = true := hD
    refine ⟨fun _ _ => ⟨⟨.mbox (u32OfInt cpu) CONFIG_TDP CONFIG_TDP_GET_LEVELS_INFO 0,
          some (u32 w)⟩,
        ⟨.mbox (u32OfInt cpu) CONFIG_TDP CONFIG_TDP_GET_TDP_CONTROL
          (u32 (decodeLevelsInfo {} (u32 w)).PPCurrentLevel), some r⟩,
        issued ((st.record ⟨.mbox (u32OfInt cpu) CONFIG_TDP CONFIG_TDP_GET_LEVELS_INFO 0,
          some (u32 w)⟩).record ⟨.mbox (u32OfInt cpu) CONFIG_TDP CONFIG_TDP_GET_TDP_CONTROL
          (u32 (decodeLevelsInfo {} (u32 w)).PPCurrentLevel), some r⟩) st1,
        ?_, ?_, ?_⟩, fun hpp => ?_⟩
    · apply issued_of_log
      rw [hlog]
      simp only [State.record, List.append_assoc, List.singleton_append]
      rfl
    · rw [hp3]
      show Request.mbox _ _ _ (u32 (getBits (u32 w) 16 23)) = _
      rw [hcur]
      rfl
    · intro r2 hr2
      simp only [Option.some.injEq] at hr2
      subst hr2
      rw [hf1, hf2, hf3, hf4]
      exact ⟨rfl, rfl, rfl, rfl⟩
    · rw [hp1, hD2] at hpp
      cases hpp
  · -- the TDP control command failed
    rw [hT] at h2
    simp only [Prod.mk.injEq] at h2
    obtain ⟨⟨rfl, rfl⟩, rfl⟩ := h2
    have hD2 : (getBits (u32 w) 31 31 != 0) = true := hD
    refine ⟨fun _ _ => ⟨⟨.mbox (u32OfInt cpu) CONFIG_TDP CONFIG_TDP_GET_LEVELS_INFO 0,
          some (u32 w)⟩,
        ⟨.mbox (u32OfInt cpu) CONFIG_TDP CONFIG_TDP_GET_TDP_CONTROL
          (u32 (decodeLevelsInfo {} (u32 w)).PPCurrentLevel), none⟩,
        issued ((st.record ⟨.mbox (u32OfInt cpu) CONFIG_TDP CONFIG_TDP_GET_LEVELS_INFO 0,
          some (u32 w)⟩).record ⟨.mbox (u32OfInt cpu) CONFIG_TDP CONFIG_TDP_GET_TDP_CONTROL
          (u32 (decodeLevelsInfo {} (u32 w)).PPCurrentLevel), none⟩) st1,
        ?_, ?_, ?_⟩, fun hpp => ?_⟩
    · apply issued_of_log
      rw [hlog]
      simp only [State.record, List.append_assoc, List.singleton_append]
      rfl
    · rw [hp3]
      show Request.mbox _ _ _ (u32 (getBits (u32 w) 16 23)) = _
      rw [hcur]
      rfl
    · intro r2 hr2
      cases hr2
    · rw [hp1, hD2] at hpp
      cases hpp

/-- C7 on `sampleDevice` (version 3, PP supported, TDP control word 0x30003) and on a device
answering 3 everywhere (version 3, PP not supported). -/
theorem C7_witness :
    (∃ x0 x tail, issued emptyState sampleState = x0 :: x :: tail ∧
        x.req = .mbox (u32OfInt 0) 0x7f 0x01 sampleInfo.PPCurrentLevel ∧
        ∀ r, x.rsp = some r →
          sampleInfo.BFSupported = isBitSet r 1 ∧ sampleInfo.BFEnabled = isBitSet r 17 ∧
          sampleInfo.TFSupported = isBitSet r 0 ∧ sampleInfo.TFEnabled = isBitSet r 16) ∧
    (∀ info e st1, getSstPackageInfo (constDevice 3) ⟨[1]⟩ emptyState = some ((info, e), st1) →
      info.PPSupported = false →
      exchangesOf (Request.isMbox 0x7f 0x01) (issued emptyState st1) = [] ∧
      info.BFSupported = false ∧ info.BFEnabled = false ∧
      info.TFSupported = false ∧ info.TFEnabled = false) :=
  ⟨(C7_tdp_control_decoding sampleDevice ⟨[2, 7, 0]⟩ emptyState sampleState sampleInfo none 0
      [2, 7] (by decide) sample_run).1 (by decide) rfl,
   fun info e st1 h => (C7_tdp_control_decoding (constDevice 3) ⟨[1]⟩ emptyState st1 info e 1 []
      (by decide) h).2⟩

/-- C8, as amended: when an exchange of a `getSstPackageInfo` run fails, the call returns an
error; the snapshot returned with it is the zero snapshot when the failed exchange is the first
one, and otherwise it keeps what was decoded before the failure, at least the five PP fields of
the response `r0` to the first exchange. -/
theorem C8_failure_returns_error_with_decoded_fields (dev : Device) (pkg : cpuPackage)
    (st : State) (hne : pkg.cpus ≠ []) :
    ∃ info e st1, getSstPackageInfo dev pkg st = some ((info, e), st1) ∧
      ((∃ x ∈ issued st st1, x.rsp = none) →
        e ≠ none ∧
        ∀ x0 tail, issued st st1 = x0 :: tail →
          (x0.rsp = none → info = {}) ∧
          (∀ r0, x0.rsp = some r0 →
            info.PPSupported = (getBits r0 31 31 != 0) ∧
            info.PPLocked = (getBits r0 24 24 != 0) ∧
            info.PPCurrentLevel = getBits r0 16 23 ∧
            info.PPMaxLevel = getBits r0 8 15 ∧
            info.PPVersion = getBits r0 0 7)) := by
  obtain ⟨info, e, st1, hrun⟩ := getSstPackageInfo_returns dev pkg st hne
  refine ⟨info, e, st1, hrun, fun hfail => ⟨?_, ?_⟩⟩
  · obtain ⟨x, hx, hxr⟩ := hfail
    obtain ⟨pre, post, hsplit⟩ := List.append_of_mem hx
    exact ((getSstPackageInfo_trace hrun).abort.1 pre x post hsplit hxr).2
  · intro x0 tail hiss
    obtain ⟨cpu, rest, hs⟩ : ∃ cpu rest, IDSet.SortedMembers pkg.cpus = cpu :: rest := by
      obtain ⟨cpu, rest, hs, -⟩ := getSstPackageInfo_inv hrun
      exact ⟨cpu, rest, hs⟩
    rcases getSstPackageInfo_first hrun hs with ⟨hinfo, h1⟩ | ⟨r, tail1, hsend, h1⟩
    · refine ⟨fun _ => hinfo, fun r0 hr0 => ?_⟩
      rw [h1] at hiss
      obtain ⟨rfl, -⟩ := List.cons.inj hiss
      cases hr0
    · rw [h1] at hiss
      obtain ⟨rfl, -⟩ := List.cons.inj hiss
      refine ⟨fun hn => (by cases hn), fun r0 hr0 => ?_⟩
      simp only [Option.some.injEq] at hr0
      subst hr0
      exact getSstPackageInfo_pp hrun hs hsend

/-- C8, as amended, on a device that answers the first exchange and fails the second. -/
theorem C8_witness :
    ∃ info e st1, getSstPackageInfo (failAfter 1 (2 ^ 31 + 3)) ⟨[0, 1]⟩ emptyState
        = some ((info, e), st1) ∧
      ((∃ x ∈ issued emptyState st1, x.rsp = none) →
        e ≠ none ∧
        ∀ x0 tail, issued emptyState st1 = x0 :: tail →
          (x0.rsp = none → info = {}) ∧
          (∀ r0, x0.rsp = some r0 →
            info.PPSupported = (getBits r0 31 31 != 0) ∧
            info.PPLocked = (getBits r0 24 24 != 0) ∧
            info.PPCurrentLevel = getBits r0 16 23 ∧
            info.PPMaxLevel = getBits r0 8 15 ∧
            info.PPVersion = getBits r0 0 7)) :=
  C8_failure_returns_error_with_decoded_fields (failAfter 1 (2 ^ 31 + 3)) ⟨[0, 1]⟩ emptyState
    (by decide)

/-- C8 as stated fails: on a device that answers the PP levels query with version 3 and PP
supported and fails the next exchange, the call returns an error and, with it, a snapshot that
holds the decoded PP fields, not the zero snapshot. -/
theorem C8_counterexample :
    (getSstPackageInfo (failAfter 1 (2 ^ 31 + 3)) ⟨[0, 1]⟩ emptyState).map (fun r => r.1)
      = some (({ PPSupported := true, PPVersion := 3 } : SstPackageInfo),
          some (.cpStatus (.mboxFailed .ioctlFailed))) ∧
    (getSstPackageInfo (failAfter 1 (2 ^ 31 + 3)) ⟨[0, 1]⟩ emptyState).map
        (fun r => issued emptyState r.2)
      = some [⟨.mbox 0 0x7f 0x00 0, some (2 ^ 31 + 3)⟩, ⟨.mbox 0 0x7f 0x01 0, none⟩] ∧
    ({ PPSupported := true, PPVersion := 3 } : SstPackageInfo) ≠ {} := by
  decide

/-- C9: no retry, abort on first failure. A call of `getSstPackageInfo` on a package with a CPU
returns, and a call of `getCPUClosID` returns; in both, an exchange that failed is the last one
issued and the call returns an error, and an error is returned only when an exchange failed. -/
theorem C9_abort_on_first_failure (dev : Device) (st : State) (pkg : cpuPackage) (c : ID)
    (hne : pkg.cpus ≠ []) :
    (∃ info e st1, getSstPackageInfo dev pkg st = some ((info, e), st1) ∧
      AbortsOnFirstFailure (issued st st1) e) ∧
    AbortsOnFirstFailure (issued st (getCPUClosID dev c st).2) (getCPUClosID dev c st).1.2 := by
  refine ⟨?_, (getCPUClosID_trace dev c st).abort⟩
  obtain ⟨info, e, st1, hrun⟩ := getSstPackageInfo_returns dev pkg st hne
  exact ⟨info, e, st1, hrun, (getSstPackageInfo_trace hrun).abort⟩

/-- C9 at a device that answers one exchange and fails the next one. -/
theorem C9_witness :
    (∃ info e st1, getSstPackageInfo (failAfter 1 (2 ^ 31 + 3)) ⟨[0, 1]⟩ emptyState
        = some ((info, e), st1) ∧
      AbortsOnFirstFailure (issued emptyState st1) e) ∧
    AbortsOnFirstFailure (issued emptyState (getCPUClosID (failAfter 1 (2 ^ 31 + 3)) 1 emptyState).2)
      (getCPUClosID (failAfter 1 (2 ^ 31 + 3)) 1 emptyState).1.2 :=
  C9_abort_on_first_failure (failAfter 1 (2 ^ 31 + 3)) emptyState ⟨[0, 1]⟩ 1 (by decide)

/-- C10: mapping cache idempotence. For a CPU `c` that is not cached and a physical-id answer `p`
(read as a `uint32`), two consecutive calls `punitCPU(c)` both return the id and issue one
physical-id exchange in total; for a CPU `c2` that is cached, in any state, `punitCPU(c2)` returns
the cached id, issues no exchange and leaves the state as it was. -/
theorem C10_mapping_cache_idempotent (dev : Device) (st : State) (c : ID) (p : Nat)
    (hc : st.cpuMap c = none) (hp : dev st.log (.phyId (u32OfInt c)) = some p) :
    (punitCPU dev c st).1 = (((u32 p : Nat) : Int), none) ∧
    (punitCPU dev c (punitCPU dev c st).2).1 = (((u32 p : Nat) : Int), none) ∧
    issued st (punitCPU dev c (punitCPU dev c st).2).2 =
      [⟨.phyId (u32OfInt c), some (u32 p)⟩] ∧
    (∀ (st2 : State) (c2 v : ID), st2.cpuMap c2 = some v →
      punitCPU dev c2 st2 = ((v, none), st2) ∧ issued st2 (punitCPU dev c2 st2).2 = []) := by
  have hcached : ∀ (st2 : State) (c2 v : ID), st2.cpuMap c2 = some v →
      punitCPU dev c2 st2 = ((v, none), st2) ∧ issued st2 (punitCPU dev c2 st2).2 = [] := by
    intro st2 c2 v hv
    have h : punitCPU dev c2 st2 = ((v, none), st2) := by
      unfold punitCPU
      rw [hv]
    refine ⟨h, ?_⟩
    rw [h]
    exact issued_of_log (by simp)
  rcases punitCPU_cases dev c st with ⟨v, hv, -⟩ | ⟨w, -, hw, h⟩ | ⟨-, hw, -⟩
  · rw [hc] at hv; cases hv
  · have hwp : w = p := by
      have : some w = some p := by rw [← hw, ← hp]
      exact Option.some.inj this
    subst hwp
    have h2 := (hcached (punitCPU dev c st).2 c ((u32 w : Nat) : Int)
      (by rw [h]; simp)).1
    refine ⟨by rw [h], by rw [h2], ?_, hcached⟩
    rw [h2, h]
    exact issued_of_log rfl
  · rw [hp] at hw; cases hw

/-- C10 at CPU 3, not cached, answered with the id 7, and at CPU 3 once cached. -/
theorem C10_witness :
    (punitCPU (constDevice 7) 3 emptyState).1 = (((u32 7 : Nat) : Int), none) ∧
    (punitCPU (constDevice 7) 3 (punitCPU (constDevice 7) 3 emptyState).2).1
      = (((u32 7 : Nat) : Int), none) ∧
    issued emptyState (punitCPU (constDevice 7) 3 (punitCPU (constDevice 7) 3 emptyState).2).2 =
      [⟨.phyId (u32OfInt 3), some (u32 7)⟩] ∧
    (∀ (st2 : State) (c2 v : ID), st2.cpuMap c2 = some v →
      punitCPU (constDevice 7) c2 st2 = ((v, none), st2) ∧
      issued st2 (punitCPU (constDevice 7) c2 st2).2 = []) :=
  C10_mapping_cache_idempotent (constDevice 7) emptyState 3 7 rfl rfl

/-- C11: a failed resolution is not cached. For a CPU `c` that is not cached, when the
physical-id exchange fails, `punitCPU(c)` returns an error (with the id -1), issues that one
exchange and leaves the cache as it was; when the next physical-id exchange succeeds with `p`,
the next call returns the id, and the two calls have issued exactly two exchanges. -/
theorem C11_failed_resolution_not_cached (dev : Device) (st : State) (c : ID)
    (hc : st.cpuMap c = none) (hfail : dev st.log (.phyId (u32OfInt c)) = none) :
    (punitCPU dev c st).1.1 = -1 ∧ (punitCPU dev c st).1.2 ≠ none ∧
    (punitCPU dev c st).2.cpuMap = st.cpuMap ∧
    issued st (punitCPU dev c st).2 = [⟨.phyId (u32OfInt c), none⟩] ∧
    ∀ p, dev (punitCPU dev c st).2.log (.phyId (u32OfInt c)) = some p →
      (punitCPU dev c (punitCPU dev c st).2).1 = (((u32 p : Nat) : Int), none) ∧
      (punitCPU dev c (punitCPU dev c st).2).2.cpuMap c = some ((u32 p : Nat) : Int) ∧
      issued st (punitCPU dev c (punitCPU dev c st).2).2 =
        [⟨.phyId (u32OfInt c), none⟩, ⟨.phyId (u32OfInt c), some (u32 p)⟩] := by
  rcases punitCPU_cases dev c st with ⟨v, hv, -⟩ | ⟨w, -, hw, -⟩ | ⟨-, -, h⟩
  · rw [hc] at hv; cases hv
  · rw [hfail] at hw; cases hw
  rw [h]
  refine ⟨rfl, by simp, rfl, issued_record _ _, fun p hp => ?_⟩
  rcases punitCPU_cases dev c (st.record ⟨.phyId (u32OfInt c), none⟩)
    with ⟨v, hv, -⟩ | ⟨w, -, hw, h2⟩ | ⟨-, hw, -⟩
  · have : st.cpuMap c = some v := hv
    rw [hc] at this; cases this
  · have hwp : w = p := by
      have : some w = some p := by rw [← hw, ← hp]
      exact Option.some.inj this
    subst hwp
    rw [h2]
    refine ⟨rfl, by simp, ?_⟩
    apply issued_of_log
    simp [State.record]
  · rw [hp] at hw; cases hw

/-- C11 on a device that fails the first exchange and answers 7 afterwards. -/
theorem C11_witness :
    (punitCPU (failFirst 1 7) 3 emptyState).1.1 = -1 ∧
    (punitCPU (failFirst 1 7) 3 emptyState).1.2 ≠ none ∧
    (punitCPU (failFirst 1 7) 3 emptyState).2.cpuMap = emptyState.cpuMap ∧
    issued emptyState (punitCPU (failFirst 1 7) 3 emptyState).2
      = [⟨.phyId (u32OfInt 3), none⟩] ∧
    ∀ p, failFirst 1 7 (punitCPU (failFirst 1 7) 3 emptyState).2.log (.phyId (u32OfInt 3))
        = some p →
      (punitCPU (failFirst 1 7) 3 (punitCPU (failFirst 1 7) 3 emptyState).2).1
        = (((u32 p : Nat) : Int), none) ∧
      (punitCPU (failFirst 1 7) 3 (punitCPU (failFirst 1 7) 3 emptyState).2).2.cpuMap 3
        = some ((u32 p : Nat) : Int) ∧
      issued emptyState (punitCPU (failFirst 1 7) 3 (punitCPU (failFirst 1 7) 3 emptyState).2).2
        = [⟨.phyId (u32OfInt 3), none⟩, ⟨.phyId (u32OfInt 3), some (u32 p)⟩] :=
  C11_failed_resolution_not_cached (failFirst 1 7) emptyState 3 rfl rfl

/-- C12: the cache is append-only. Over any sequence of `punitCPU`, `getSstPackageInfo` and
`getCPUClosID` calls and any device, an entry `c -> p` of the cache is still there with the same
value afterwards, and `punitCPU(c)` then returns `p` without an exchange and without changing
the state. -/
theorem C12_cache_append_only (dev : Device) (calls : List Call) (st st1 : State) (c p : ID)
    (hc : st.cpuMap c = some p) (hrun : runCalls dev calls st = some st1) :
    st1.cpuMap c = some p ∧ punitCPU dev c st1 = ((p, none), st1) := by
  have h1 := runCalls_keeps dev calls st st1 hrun c p hc
  exact ⟨h1, punitCPU_cached dev h1⟩

/-- C12 on `sampleDevice`, for the entry 7 -> 64 of `sampleState`, over a call of each kind. -/
theorem C12_witness :
    sampleState2.cpuMap 7 = some 64 ∧
    punitCPU sampleDevice 7 sampleState2 = ((64, none), sampleState2) :=
  C12_cache_append_only sampleDevice [.punit 3, .closID 7, .packageInfo ⟨[7]⟩] sampleState
    sampleState2 7 64 rfl sample_calls

/-- C13: `getCPUClosID(c)`, from a valid cache. When the mapping of `c` resolves to `p` and the
MMIO read succeeds with the word `r`, the call issues exactly one MMIO read, at the register
offset `((p >> 1) << 2) + 0x20` (a `uint32`), and returns bits 16-17 of `r`, a value in 0..3,
below `NumClos`; for `p < 2^31 - 16` the offset is that sum without wrap-around. When the mapping
fails, in any state, the call returns the error (with -1) and issues no MMIO read. -/
theorem C13_clos_id_lookup (dev : Device) (st st1 : State) (c p : ID) (r : Nat)
    (hval : cacheValid st) (hp : punitCPU dev c st = ((p, none), st1))
    (hr : dev st1.log (.mmioRead (u32OfInt c) (u32 (((Int.toNat p >>> 1) <<< 2) + 0x20)))
      = some r) :
    getCPUClosID dev c st =
      ((((u32 r / 2 ^ 16 % 4 : Nat) : Int), none),
        st1.record ⟨.mmioRead (u32OfInt c) (u32 (((Int.toNat p >>> 1) <<< 2) + 0x20)),
          some (u32 r)⟩) ∧
    exchangesOf Request.isMMIO (issued st (getCPUClosID dev c st).2) =
      [⟨.mmioRead (u32OfInt c) (u32 (((Int.toNat p >>> 1) <<< 2) + 0x20)), some (u32 r)⟩] ∧
    u32 r / 2 ^ 16 % 4 < NumClos ∧
    (p < 2 ^ 31 - 16 →
      u32 (((Int.toNat p >>> 1) <<< 2) + 0x20) = ((Int.toNat p >>> 1) <<< 2) + 0x20) ∧
    (∀ (st2 sa : State) (v : ID) (e : SstError), punitCPU dev c st2 = ((v, some e), sa) →
      getCPUClosID dev c st2 = ((-1, some e), sa) ∧
      exchangesOf Request.isMMIO (issued st2 sa) = []) := by
  obtain ⟨hcp, hv1⟩ := punitCPU_ok hp
  have hp0 : (0 : Int) ≤ p := (hv1 hval c p hcp).1
  have hp32 : p < (2 : Int) ^ 32 := (hv1 hval c p hcp).2
  have hconv : u32OfInt p = Int.toNat p := by
    unfold u32OfInt
    rw [Int.emod_eq_of_lt hp0 hp32]
  have hreg : u32 (u32 ((u32OfInt p >>> 1) <<< 2) + PQR_ASSOC_OFFSET)
      = u32 (((Int.toNat p >>> 1) <<< 2) + 0x20) := by
    rw [hconv]
    unfold u32 PQR_ASSOC_OFFSET
    omega
  have ht := punitCPU_trace dev c st
  rw [hp] at ht
  dsimp only at ht
  have hiss : exchangesOf Request.isMMIO (issued st st1) = [] :=
    ht.exchangesOf_nil _ (fun q hq => by subst hq; rfl)
  have hrun : getCPUClosID dev c st =
      ((((u32 r / 2 ^ 16 % 4 : Nat) : Int), none),
        st1.record ⟨.mmioRead (u32OfInt c) (u32 (((Int.toNat p >>> 1) <<< 2) + 0x20)),
          some (u32 r)⟩) := by
    unfold getCPUClosID
    rw [hp]
    dsimp only
    rw [hreg]
    rcases sendMMIOCmd_cases dev c (u32 (((Int.toNat p >>> 1) <<< 2) + 0x20)) st1
      with ⟨w, hw, h⟩ | ⟨hw, -⟩
    · have hwr : w = r := by
        have : some w = some r := by rw [← hw, ← hr]
        exact Option.some.inj this
      subst hwr
      rw [h]
      dsimp only
      rw [getBits_eq _ _ _ (by omega) (by omega)]
      rfl
    · rw [hr] at hw; cases hw
  refine ⟨hrun, ?_, ?_, ?_, ?_⟩
  · rw [hrun]
    have : issued st (st1.record ⟨.mmioRead (u32OfInt c)
        (u32 (((Int.toNat p >>> 1) <<< 2) + 0x20)), some (u32 r)⟩)
        = issued st st1 ++ [⟨.mmioRead (u32OfInt c)
            (u32 (((Int.toNat p >>> 1) <<< 2) + 0x20)), some (u32 r)⟩] := by
      apply issued_of_log
      show st1.log ++ [_] = _
      rw [← List.append_assoc, ← ht.log_eq]
    dsimp only
    rw [this, exchangesOf_append, hiss]
    rfl
  · have : u32 r / 2 ^ 16 % 4 < 4 := Nat.mod_lt _ (by norm_num)
    exact this
  · intro hlt
    have hlt2 : (2147483632 : Int) > p := hlt
    apply u32_of_lt
    rw [Nat.shiftRight_eq_div_pow, Nat.shiftLeft_eq]
    norm_num
    omega
  · intro st2 sa v e hp2
    have ht2 := punitCPU_trace dev c st2
    rw [hp2] at ht2
    refine ⟨?_, ht2.exchangesOf_nil _ (fun q hq => by subst hq; rfl)⟩
    unfold getCPUClosID
    rw [hp2]

/-- C13 on `sampleDevice`: CPU 7 is on PUNIT id 64, so the read is at 0x20 + 4 * 32 = 160. -/
theorem C13_witness :
    getCPUClosID sampleDevice 7 sampleState =
      ((((u32 305420048 / 2 ^ 16 % 4 : Nat) : Int), none),
        sampleState.record ⟨.mmioRead (u32OfInt 7) (u32 (((Int.toNat 64 >>> 1) <<< 2) + 0x20)),
          some (u32 305420048)⟩) ∧
    exchangesOf Request.isMMIO (issued sampleState (getCPUClosID sampleDevice 7 sampleState).2) =
      [⟨.mmioRead (u32OfInt 7) (u32 (((Int.toNat 64 >>> 1) <<< 2) + 0x20)),
        some (u32 305420048)⟩] ∧
    u32 305420048 / 2 ^ 16 % 4 < NumClos ∧
    ((64 : ID) < 2 ^ 31 - 16 →
      u32 (((Int.toNat 64 >>> 1) <<< 2) + 0x20) = ((Int.toNat 64 >>> 1) <<< 2) + 0x20) ∧
    (∀ (st2 sa : State) (v : ID) (e : SstError),
      punitCPU sampleDevice 7 st2 = ((v, some e), sa) →
      getCPUClosID sampleDevice 7 st2 = ((-1, some e), sa) ∧
      exchangesOf Request.isMMIO (issued st2 sa) = []) :=
  C13_clos_id_lookup sampleDevice sampleState sampleState 7 64 305420048
    (by
      intro c v h
      by_cases h7 : c = 7
      · subst h7
        have : sampleState.cpuMap 7 = some 64 := rfl
        rw [this] at h
        obtain rfl := Option.some.inj h
        decide
      · by_cases h2 : c = 2
        · subst h2
          have : sampleState.cpuMap 2 = some 4 := rfl
          rw [this] at h
          obtain rfl := Option.some.inj h
          decide
        · by_cases h0 : c = 0
          · subst h0
            have : sampleState.cpuMap 0 = some 0 := rfl
            rw [this] at h
            obtain rfl := Option.some.inj h
            decide
          · have : sampleState.cpuMap c = none := by
              simp [sampleState, emptyState, Function.update_noteq, h7, h2, h0]
            rw [this] at h
            cases h)
    rfl rfl

/-- C14: for every 32-bit word `w` and all `i`, `j` in 0..31, `getBits(w, i, j)` is
`floor(w / 2^min(i,j)) mod 2^(|i-j|+1)`, the unsigned value of the inclusive bit range; at the
full width of 32 bits, `getBits(w, 0, 31) = w`. -/
theorem C14_getBits_inclusive_range (w i j : Nat) (hw : w < 2 ^ 32) (hi : i ≤ 31)
    (hj : j ≤ 31) :
    getBits w i j = w / 2 ^ (min i j) % 2 ^ (max i j - min i j + 1) ∧
    getBits w 0 31 = w := by
  constructor
  · rcases Nat.lt_or_ge j i with h | h
    · have hmin : min i j = j := Nat.min_eq_right (Nat.le_of_lt h)
      have hmax : max i j = i := Nat.max_eq_left (Nat.le_of_lt h)
      rw [hmin, hmax, ← getBits_eq w j i (Nat.le_of_lt h) hi]
      unfold getBits
      have hgt : i > j := h
      have hng : ¬ j > i := by omega
      simp only [hgt, hng, if_true, if_false]
    · have hmin : min i j = i := Nat.min_eq_left h
      have hmax : max i j = j := Nat.max_eq_right h
      rw [hmin, hmax, getBits_eq w i j h hj]
  · rw [getBits_eq w 0 31 (by omega) (by omega)]
    norm_num
    omega

/-- C14 at the word 0xdeadbeef: bits 4..7, given in either order, and the full width. -/
theorem C14_witness :
    getBits 0xdeadbeef 7 4 = 0xdeadbeef / 2 ^ (min 7 4) % 2 ^ (max 7 4 - min 7 4 + 1) ∧
    getBits 0xdeadbeef 0 31 = 0xdeadbeef :=
  C14_getBits_inclusive_range 0xdeadbeef 7 4 (by decide) (by decide) (by decide)

/-- C15: order-independence, `getBits(w, i, j) = getBits(w, j, i)`, for every word and every
pair of positions (in particular for 32-bit words and positions 0..31). -/
theorem C15_getBits_order_independent (w i j : Nat) : getBits w i j = getBits w j i := by
  unfold getBits
  rcases Nat.lt_trichotomy i j with h | h | h
  · have h1 : ¬ i > j := by omega
    have h2 : j > i := h
    simp only [h1, h2, if_true, if_false]
  · subst h
    rfl
  · have h1 : i > j := h
    have h2 : ¬ j > i := by omega
    simp only [h1, h2, if_true, if_false]

/-- C16: single-bit agreement, for every word `w` and every `i` in 0..31:
`getBits(w, i, i)` is 1 if `isBitSet(w, i)` and 0 otherwise. -/
theorem C16_getBits_single_bit (w i : Nat) (hi : i ≤ 31) :
    getBits w i i = if isBitSet w i = true then 1 else 0 := by
  rw [getBits_eq w i i (le_refl i) hi, isBitSet_eq w i hi]
  simp only [Nat.sub_self, Nat.zero_add, Nat.pow_one, decide_eq_true_eq]
  rcases Nat.mod_two_eq_zero_or_one (w / 2 ^ i) with h | h
  · rw [h]; simp
  · rw [h]; simp

/-- C16 at the word 0xdeadbeef and bit 5, which is set. -/
theorem C16_witness :
    getBits 0xdeadbeef 5 5 = if isBitSet 0xdeadbeef 5 = true then 1 else 0 :=
  C16_getBits_single_bit 0xdeadbeef 5 (by decide)

/-- C17: in a run of `getSstPackageInfo` without error, when BFSupported is false, BFCores is
empty and the run issued no physical-id exchange and no PBF_GET_CORE_MASK_INFO exchange. -/
theorem C17_no_bf_no_cores (dev : Device) (pkg : cpuPackage) (st st1 : State)
    (info : SstPackageInfo)
    (hrun : getSstPackageInfo dev pkg st = some ((info, none), st1))
    (hbf : info.BFSupported = false) :
    info.BFCores = [] ∧
    exchangesOf Request.isPhyId (issued st st1) = [] ∧
    exchangesOf (Request.isMbox 0x7f 0x20) (issued st st1) = [] := by
  obtain ⟨cpu, rest, hs, -⟩ := getSstPackageInfo_inv hrun
  obtain ⟨r, -, h⟩ := getSstPackageInfo_ok_inv hrun hs
  rcases h with ⟨-, rfl, rfl⟩ | ⟨-, info2, sb, info3, sc, h2, h3, h4⟩
  · refine ⟨rfl, ?_, ?_⟩ <;>
    · rw [issued_record]
      rfl
  have f2 := readTDPControl_frame_of h2
  have f3 := readBFInfo_frame_of h3
  have f4 := readCPInfo_frame_of h4
  have hbf2 : info2.BFSupported = false := by
    rw [f4, f3] at hbf
    exact hbf
  have h3b : readBFInfo dev (cpu :: rest) cpu info2 sb = ((info2, none), sb) := by
    unfold readBFInfo
    rw [hbf2]
    simp
  rw [h3b] at h3
  simp only [Prod.mk.injEq, and_true] at h3
  obtain ⟨rfl, rfl⟩ := h3
  refine ⟨?_, ?_, ?_⟩
  · rw [f4, f2]
    rfl
  · rw [exchangesOf_bf_only h2 h3b h4 _ rfl, issued_self]
    · rfl
    · rintro q (hq | hq | hq | hq)
      · exact isPhyId_of_isMbox hq
      · exact isPhyId_of_isMbox hq
      · exact isPhyId_of_isMbox hq
      · exact isPhyId_of_isMMIO hq
  · rw [exchangesOf_bf_only h2 h3b h4 _ rfl, issued_self]
    · rfl
    · rintro q (hq | hq | hq | hq)
      · exact isMbox_excl hq (by decide)
      · exact isMbox_excl hq (by decide)
      · exact isMbox_excl hq (by decide)
      · exact isMbox_of_isMMIO hq _ _

/-- C17 on the device that answers 0x10004 everywhere: version 4 and PP not supported, so BF is
not supported. -/
theorem C17_witness :
    cpFlagInfo.BFCores = [] ∧
    exchangesOf Request.isPhyId (issued emptyState cpFlagState) = [] ∧
    exchangesOf (Request.isMbox 0x7f 0x20) (issued emptyState cpFlagState) = [] :=
  C17_no_bf_no_cores (constDevice 0x10004) ⟨[1]⟩ emptyState cpFlagState cpFlagInfo
    cpFlag_run rfl

/-- C18: in any run of `getSstPackageInfo`, the core-mask exchange at position `k` (batch `k`)
carries the request data `uint32(PPCurrentLevel + (k << 8))`; PPCurrentLevel is below 256, so
the sum is `PPCurrentLevel | (k << 8)`, and the data sent is that value as a `uint32`, which for
`k < 2^24` is the value itself. -/
theorem C18_core_mask_request_data (dev : Device) (pkg : cpuPackage) (st st1 : State)
    (info : SstPackageInfo) (e : Option SstError) (cpu : ID) (rest : List ID) (k : Nat)
    (x : Exchange)
    (hs : IDSet.SortedMembers pkg.cpus = cpu :: rest)
    (hrun : getSstPackageInfo dev pkg st = some ((info, e), st1))
    (hk : (exchangesOf (Request.isMbox 0x7f 0x20) (issued st st1))[k]? = some x) :
    x.req = .mbox (u32OfInt cpu) 0x7f 0x20 (u32 (info.PPCurrentLevel + (k <<< 8))) ∧
    info.PPCurrentLevel < 256 ∧
    info.PPCurrentLevel + (k <<< 8) = info.PPCurrentLevel ||| (k <<< 8) ∧
    u32 (info.PPCurrentLevel + (k <<< 8)) = u32 (info.PPCurrentLevel ||| (k <<< 8)) ∧
    (k < 2 ^ 24 →
      u32 (info.PPCurrentLevel + (k <<< 8)) = info.PPCurrentLevel ||| (k <<< 8)) := by
  have hk2 : (exchangesOf (Request.isMbox CONFIG_TDP CONFIG_TDP_PBF_GET_CORE_MASK_INFO)
      (issued st st1))[k]? = some x := hk
  rcases getSstPackageInfo_coreMask hrun hs with hnil | ⟨info2, sb, hcur, hlt, hex⟩
  · rw [hnil] at hk2
    simp at hk2
  rw [hex] at hk2
  have hreq := readBFInfo_reqs dev (cpu :: rest) cpu info2 sb k x hk2
  rw [hcur] at hreq
  have hor := level_add_eq_or info.PPCurrentLevel k hlt
  refine ⟨hreq, hlt, hor, by rw [hor], fun hk24 => ?_⟩
  rw [← hor]
  apply u32_of_lt
  rw [Nat.shiftLeft_eq]
  norm_num at hk24 ⊢
  omega

/-- C18 on `sampleDevice`: batch 1 is asked with the data 5 + (1 << 8) = 261. -/
theorem C18_witness :
    (⟨.mbox 0 0x7f 0x20 261, some 1⟩ : Exchange).req
      = .mbox (u32OfInt 0) 0x7f 0x20 (u32 (sampleInfo.PPCurrentLevel + (1 <<< 8))) ∧
    sampleInfo.PPCurrentLevel < 256 ∧
    sampleInfo.PPCurrentLevel + (1 <<< 8) = sampleInfo.PPCurrentLevel ||| (1 <<< 8) ∧
    u32 (sampleInfo.PPCurrentLevel + (1 <<< 8)) = u32 (sampleInfo.PPCurrentLevel ||| (1 <<< 8)) ∧
    (1 < 2 ^ 24 →
      u32 (sampleInfo.PPCurrentLevel + (1 <<< 8)) = sampleInfo.PPCurrentLevel ||| (1 <<< 8)) :=
  C18_core_mask_request_data sampleDevice ⟨[2, 7, 0]⟩ emptyState sampleState sampleInfo none 0
    [2, 7] 1 ⟨.mbox 0 0x7f 0x20 261, some 1⟩ (by decide) sample_run (by decide)

/-- C19, as amended: in a run of `getSstPackageInfo` without error, CPEnabled is true only if
CPSupported is true or the PM_FEATURE response has bit 16 set with bit 0 clear; in the second
case the flag is that bit 16 as read, no MMIO read was issued and the four `ClosInfo` entries
are zero. -/
theorem C19_cp_enabled_supported_or_passed_through (dev : Device) (pkg : cpuPackage)
    (st st1 : State) (info : SstPackageInfo) (cpu : ID) (rest : List ID)
    (hs : IDSet.SortedMembers pkg.cpus = cpu :: rest)
    (hrun : getSstPackageInfo dev pkg st = some ((info, none), st1))
    (hen : info.CPEnabled = true) :
    info.CPSupported = true ∨
    (∃ r0,
      exchangesOf (Request.isMbox 0x94 0x03) (issued st st1)
        = [⟨.mbox (u32OfInt cpu) 0x94 0x03 0, some r0⟩] ∧
      isBitSet r0 0 = false ∧ isBitSet r0 16 = true ∧
      exchangesOf Request.isMMIO (issued st st1) = [] ∧
      info.ClosInfo = [⟨0, 0, 0, 0, 0⟩, ⟨0, 0, 0, 0, 0⟩, ⟨0, 0, 0, 0, 0⟩, ⟨0, 0, 0, 0, 0⟩]) := by
  obtain ⟨r1, -, h⟩ := getSstPackageInfo_ok_inv hrun hs
  rcases h with ⟨-, rfl, -⟩ | ⟨-, info2, sb, info3, sc, h2, h3, h4⟩
  · cases hen
  obtain ⟨r0, hcase⟩ := readCPInfo_ok h4
  rcases hcase with ⟨hb0, hlog, hinfo⟩ | ⟨-, r, w0, w1, w2, w3, -, hinfo⟩
  · right
    have hclos : info3.ClosInfo = List.replicate NumClos {} := by
      rw [readBFInfo_frame_of h3, readTDPControl_frame_of h2]
      rfl
    refine ⟨r0, ?_, hb0, ?_, ?_, ?_⟩
    · rw [exchangesOf_cp_only h2 h3 h4 _ rfl, issued_of_log hlog]
      · rfl
      · rintro q (hq | hq | hq)
        · exact isMbox_excl hq (by decide)
        · exact isMbox_of_isPhyId hq _ _
        · exact isMbox_excl hq (by decide)
    · rw [hinfo] at hen
      exact hen
    · rw [exchangesOf_cp_only h2 h3 h4 _ rfl, issued_of_log hlog]
      · rfl
      · rintro q (hq | hq | hq)
        · exact isMMIO_of_isMbox hq
        · exact isMMIO_of_isPhyId hq
        · exact isMMIO_of_isMbox hq
    · rw [hinfo]
      show info3.ClosInfo = _
      rw [hclos]
      rfl
  · left
    rw [hinfo]

/-- C19, as amended, on the device that answers 0x10004 everywhere: CPEnabled is set by bit 16
of the PM_FEATURE word while CPSupported is not. -/
theorem C19_witness :
    cpFlagInfo.CPSupported = true ∨
    (∃ r0,
      exchangesOf (Request.isMbox 0x94 0x03) (issued emptyState cpFlagState)
        = [⟨.mbox (u32OfInt 1) 0x94 0x03 0, some r0⟩] ∧
      isBitSet r0 0 = false ∧ isBitSet r0 16 = true ∧
      exchangesOf Request.isMMIO (issued emptyState cpFlagState) = [] ∧
      cpFlagInfo.ClosInfo
        = [⟨0, 0, 0, 0, 0⟩, ⟨0, 0, 0, 0, 0⟩, ⟨0, 0, 0, 0, 0⟩, ⟨0, 0, 0, 0, 0⟩]) :=
  C19_cp_enabled_supported_or_passed_through (constDevice 0x10004) ⟨[1]⟩ emptyState cpFlagState
    cpFlagInfo 1 [] (by decide) cpFlag_run rfl

/-- C19 as stated fails: on the device that answers 0x10004 everywhere (version 4, PM_FEATURE
with bit 0 clear and bit 16 set) the call returns without error a snapshot with CPEnabled true
and CPSupported false. -/
theorem C19_counterexample :
    (getSstPackageInfo (constDevice 0x10004) ⟨[1]⟩ emptyState).map (fun r => r.1)
      = some (cpFlagInfo, none) ∧
    cpFlagInfo.CPEnabled = true ∧ cpFlagInfo.CPSupported = false := by
  decide

end Sst
